import Mathlib

/-! Simple Wave File: a shallow embedding.

The development follows the C++ sources file by file.

* `AudioSample.cpp` : the stereo sample value type and its arithmetic.  The
  `double` channels are taken as exact numbers of an arbitrary linearly ordered
  field `K` (instantiated at `ℚ` wherever the codec has to compute with them).
* `WaveFileHeaders.h`, `util.h` : the three header structs with their in-memory
  byte images (little-endian host, as `main.cpp` assumes) and `wordCompare`.
* `WaveFile.cpp` : construction, `setHeaders`, `getSample`, `setSample`,
  `write` and `read`.  Files are byte lists; the input stream keeps the
  `eofbit`/`failbit` state that the parsing loops test.

Machine integers are `Nat`/`Int` with explicit reduction modulo `2^w`.  A
subscript of `m_data` that falls outside the allocation has no defined result
in C++; the embedding returns `none` there.
-/

namespace SimpleWave

/-! ## AudioSample.cpp -/

/-- The function `std::clamp(v, lo, hi)`. -/
def clamp {K : Type} [LinearOrder K] (v lo hi : K) : K :=
  if v < lo then lo else if hi < v then hi else v

/-- The struct `AudioSample`: two public `double` channels. -/
structure AudioSample (K : Type) where
  left : K
  right : K
deriving DecidableEq

namespace AudioSample

variable {K : Type} [LinearOrderedField K]

/-- Method `AudioSample::clampValues`. -/
def clampValues (s : AudioSample K) : AudioSample K :=
  { left := clamp s.left (-1) 1, right := clamp s.right (-1) 1 }

/-- Default constructor `AudioSample()`: left(0), right(0). -/
def empty : AudioSample K :=
  { left := 0, right := 0 }

/-- Constructor `AudioSample(double mono)`: left(mono), right(0), then clampValues. -/
def mono (m : K) : AudioSample K :=
  clampValues { left := m, right := 0 }

/-- Constructor `AudioSample(double left, double right)`, then clampValues. -/
def stereo (l r : K) : AudioSample K :=
  clampValues { left := l, right := r }

/-- Method `AudioSample::invert`: both channels multiplied by -1. -/
def invert (s : AudioSample K) : AudioSample K :=
  { left := s.left * -1, right := s.right * -1 }

/-- The overload `operator+(const AudioSample&, const AudioSample&)`. -/
def add (a b : AudioSample K) : AudioSample K :=
  (stereo (a.left + b.left) (a.right + b.right)).clampValues

/-- The overload `operator+(const AudioSample&, double)`. -/
def addScalar (a : AudioSample K) (b : K) : AudioSample K :=
  (stereo (a.left + b) (a.right + b)).clampValues

/-- The overload `operator+(double, const AudioSample&)`: returns `b + a`. -/
def scalarAdd (a : K) (b : AudioSample K) : AudioSample K :=
  addScalar b a

/-- The overload `operator-(const AudioSample&, const AudioSample&)`. -/
def sub (a b : AudioSample K) : AudioSample K :=
  (stereo (a.left - b.left) (a.right - b.right)).clampValues

/-- The overload `operator-(const AudioSample&, double)`. -/
def subScalar (a : AudioSample K) (b : K) : AudioSample K :=
  (stereo (a.left - b) (a.right - b)).clampValues

/-- The overload `operator-(double, const AudioSample&)`: returns `b - a`. -/
def scalarSub (a : K) (b : AudioSample K) : AudioSample K :=
  subScalar b a

/-- The overload `operator*(const AudioSample&, const AudioSample&)`. -/
def mul (a b : AudioSample K) : AudioSample K :=
  (stereo (a.left * b.left) (a.right * b.right)).clampValues

/-- The overload `operator*(const AudioSample&, double)`. -/
def mulScalar (a : AudioSample K) (b : K) : AudioSample K :=
  (stereo (a.left * b) (a.right * b)).clampValues

/-- The overload `operator*(double, const AudioSample&)`: returns `b * a`. -/
def scalarMul (a : K) (b : AudioSample K) : AudioSample K :=
  mulScalar b a

/-- The overload `operator/(const AudioSample&, const AudioSample&)`. -/
def div (a b : AudioSample K) : AudioSample K :=
  if b.left = 0 ∨ b.right = 0 then empty
  else (stereo (a.left / b.left) (a.right / b.right)).clampValues

/-- The overload `operator/(const AudioSample&, double)`. -/
def divScalar (a : AudioSample K) (b : K) : AudioSample K :=
  if b = 0 then empty
  else (stereo (a.left / b) (a.right / b)).clampValues

/-- The overload `operator/(double, const AudioSample&)`: returns `b / a`. -/
def scalarDiv (a : K) (b : AudioSample K) : AudioSample K :=
  divScalar b a

/-- Both channels lie in the closed interval from -1 to 1. -/
def InRange (s : AudioSample K) : Prop :=
  -1 ≤ s.left ∧ s.left ≤ 1 ∧ -1 ≤ s.right ∧ s.right ≤ 1

end AudioSample

/-! ## Machine integers and bytes -/

/-- One byte of a file or of the payload (`uint8_t`, `char`). -/
abbrev Byte := Fin 256

/-- Reduction of a natural number to `uint32_t`. -/
def u32 (n : Nat) : Nat := n % 4294967296

/-- Reduction of a natural number to `uint16_t`. -/
def u16 (n : Nat) : Nat := n % 65536

/-- Conversion of an integer to `uint32_t`. -/
def intToU32 (v : Int) : Nat := (v % 4294967296).toNat

/-- Conversion of an integer to `uint8_t` (what an assignment to `m_data[k]` stores). -/
def toUInt8 (v : Int) : Byte := ⟨(v % 256).toNat, by omega⟩

/-- Conversion of an integer to `int16_t` (two's complement). -/
def toInt16 (v : Int) : Int := (v + 32768) % 65536 - 32768

/-- Conversion of an integer to `int32_t` (two's complement). -/
def toInt32 (v : Int) : Int := (v + 2147483648) % 4294967296 - 2147483648

/-- Truncation of an exact sample value toward zero, the integral part that a
`static_cast` from `double` to an integer type keeps. -/
def trunc (x : ℚ) : Int := if 0 ≤ x then ⌊x⌋ else ⌈x⌉

/-- The cast `static_cast<uint8_t>(x)`; where the truncated value is not
representable the usual wrap modulo 256 is taken. -/
def castUInt8 (x : ℚ) : Int := trunc x % 256

/-- The cast `static_cast<int16_t>(x)`; wraps where not representable. -/
def castInt16 (x : ℚ) : Int := toInt16 (trunc x)

/-- The cast `static_cast<int32_t>(x)`; wraps where not representable. -/
def castInt32 (x : ℚ) : Int := toInt32 (trunc x)

/-- The value `numeric_limits<uint8_t>::max()`. -/
def UINT8_MAX : Nat := 255

/-- The value `numeric_limits<int16_t>::max()`. -/
def INT16_MAX : Nat := 32767

/-- The value `numeric_limits<int32_t>::max()`. -/
def INT32_MAX : Nat := 2147483647

/-- The low byte of a natural number. -/
def byteOf (n : Nat) : Byte := ⟨n % 256, Nat.mod_lt n (by decide)⟩

/-- The two bytes of a `uint16_t` in memory order (little-endian host). -/
def le16 (n : Nat) : List Byte := [byteOf n, byteOf (n / 256)]

/-- The four bytes of a `uint32_t` in memory order (little-endian host). -/
def le32 (n : Nat) : List Byte :=
  [byteOf n, byteOf (n / 256), byteOf (n / 65536), byteOf (n / 16777216)]

/-- The `uint16_t` held by two bytes in memory order. -/
def rd16 (b0 b1 : Byte) : Nat := b0.val + 256 * b1.val

/-- The `uint32_t` held by four bytes in memory order. -/
def rd32 (b0 b1 b2 b3 : Byte) : Nat :=
  b0.val + 256 * b1.val + 65536 * b2.val + 16777216 * b3.val

/-! ## util.h and WaveFileHeaders.h -/

/-- A `char[4]` identifier field, or one of the four-letter string literals it
is compared with. -/
structure Word where
  c0 : Byte
  c1 : Byte
  c2 : Byte
  c3 : Byte
deriving DecidableEq

/-- The memory image of a `char[4]`. -/
def Word.toBytes (t : Word) : List Byte := [t.c0, t.c1, t.c2, t.c3]

/-- The literal "RIFF". -/
def RIFF : Word := { c0 := 82, c1 := 73, c2 := 70, c3 := 70 }

/-- The literal "WAVE". -/
def WAVE : Word := { c0 := 87, c1 := 65, c2 := 86, c3 := 69 }

/-- The literal "fmt " (with its trailing blank). -/
def FMT : Word := { c0 := 102, c1 := 109, c2 := 116, c3 := 32 }

/-- The literal "data". -/
def DATA : Word := { c0 := 100, c1 := 97, c2 := 116, c3 := 97 }

/-- The function `wordCompare(char *charArray, string word)` of util.h: the
four positions are compared in turn. -/
def wordCompare (charArray word : Word) : Bool :=
  if charArray.c0 ≠ word.c0 then false
  else if charArray.c1 ≠ word.c1 then false
  else if charArray.c2 ≠ word.c2 then false
  else if charArray.c3 ≠ word.c3 then false
  else true

/-- The struct `RiffHeader` (12 bytes). -/
structure RiffHeader where
  chunkID : Word
  chunkSize : Nat
  format : Word
deriving DecidableEq

/-- The struct `WaveFormatHeader` (24 bytes). -/
structure WaveFormatHeader where
  subChunk1ID : Word
  subChunk1Size : Nat
  audioFormat : Nat
  numChannels : Nat
  sampleRate : Nat
  byteRate : Nat
  blockAlign : Nat
  bitsPerSample : Nat
deriving DecidableEq

/-- The struct `WaveDataHeader` (8 bytes). -/
structure WaveDataHeader where
  subChunk2ID : Word
  subChunk2Size : Nat
deriving DecidableEq

/-- The value `sizeof(RiffHeader)`. -/
def sizeofRiffHeader : Nat := 12

/-- The value `sizeof(WaveFormatHeader)`. -/
def sizeofWaveFormatHeader : Nat := 24

/-- The value `sizeof(WaveDataHeader)`. -/
def sizeofWaveDataHeader : Nat := 8

/-- The constant `WAVE_HEADER_SIZE`: the sum of the three struct sizes. -/
def WAVE_HEADER_SIZE : Nat :=
  sizeofRiffHeader + sizeofWaveFormatHeader + sizeofWaveDataHeader

/-- The default member initialisers of `RiffHeader`. -/
def RiffHeader.init : RiffHeader :=
  { chunkID := RIFF, chunkSize := 36, format := WAVE }

/-- The default member initialisers of `WaveFormatHeader`. -/
def WaveFormatHeader.init : WaveFormatHeader :=
  { subChunk1ID := FMT, subChunk1Size := 16, audioFormat := 1, numChannels := 2,
    sampleRate := 44100, byteRate := 176400, blockAlign := 4, bitsPerSample := 16 }

/-- The default member initialisers of `WaveDataHeader`. -/
def WaveDataHeader.init : WaveDataHeader :=
  { subChunk2ID := DATA, subChunk2Size := 0 }

/-- The 12 bytes that `reinterpret_cast<char *>(&m_riffHeader)` points at. -/
def RiffHeader.toBytes (h : RiffHeader) : List Byte :=
  h.chunkID.toBytes ++ le32 h.chunkSize ++ h.format.toBytes

/-- The 24 bytes that `reinterpret_cast<char *>(&m_formatHeader)` points at. -/
def WaveFormatHeader.toBytes (h : WaveFormatHeader) : List Byte :=
  h.subChunk1ID.toBytes ++ le32 h.subChunk1Size ++ le16 h.audioFormat ++ le16 h.numChannels
    ++ le32 h.sampleRate ++ le32 h.byteRate ++ le16 h.blockAlign ++ le16 h.bitsPerSample

/-- The 8 bytes that `reinterpret_cast<char *>(&m_dataHeader)` points at. -/
def WaveDataHeader.toBytes (h : WaveDataHeader) : List Byte :=
  h.subChunk2ID.toBytes ++ le32 h.subChunk2Size

/-- The struct value held by a 12-byte image. -/
def RiffHeader.ofBytes (l : List Byte) : RiffHeader :=
  let b := fun i => l.getD i 0
  { chunkID := { c0 := b 0, c1 := b 1, c2 := b 2, c3 := b 3 },
    chunkSize := rd32 (b 4) (b 5) (b 6) (b 7),
    format := { c0 := b 8, c1 := b 9, c2 := b 10, c3 := b 11 } }

/-- The struct value held by a 24-byte image. -/
def WaveFormatHeader.ofBytes (l : List Byte) : WaveFormatHeader :=
  let b := fun i => l.getD i 0
  { subChunk1ID := { c0 := b 0, c1 := b 1, c2 := b 2, c3 := b 3 },
    subChunk1Size := rd32 (b 4) (b 5) (b 6) (b 7),
    audioFormat := rd16 (b 8) (b 9),
    numChannels := rd16 (b 10) (b 11),
    sampleRate := rd32 (b 12) (b 13) (b 14) (b 15),
    byteRate := rd32 (b 16) (b 17) (b 18) (b 19),
    blockAlign := rd16 (b 20) (b 21),
    bitsPerSample := rd16 (b 22) (b 23) }

/-- The struct value held by an 8-byte image. -/
def WaveDataHeader.ofBytes (l : List Byte) : WaveDataHeader :=
  let b := fun i => l.getD i 0
  { subChunk2ID := { c0 := b 0, c1 := b 1, c2 := b 2, c3 := b 3 },
    subChunk2Size := rd32 (b 4) (b 5) (b 6) (b 7) }

/-- The effect on `m_riffHeader` of a stream read that delivered the bytes
`got`: they replace the leading bytes of the struct, the rest keeps its value. -/
def RiffHeader.store (h : RiffHeader) (got : List Byte) : RiffHeader :=
  RiffHeader.ofBytes (got ++ h.toBytes.drop got.length)

/-- The effect on `m_formatHeader` of a stream read that delivered `got`. -/
def WaveFormatHeader.store (h : WaveFormatHeader) (got : List Byte) : WaveFormatHeader :=
  WaveFormatHeader.ofBytes (got ++ h.toBytes.drop got.length)

/-- The effect on `m_dataHeader` of a stream read that delivered `got`. -/
def WaveDataHeader.store (h : WaveDataHeader) (got : List Byte) : WaveDataHeader :=
  WaveDataHeader.ofBytes (got ++ h.toBytes.drop got.length)

/-! ## WaveFile.cpp: the object, construction and header synchronisation -/

/-- The data members of class `WaveFile`.  `m_data` is the owned array; its
length is the size of the allocation (the null pointer of the default
constructor is the empty array). -/
structure WaveFile where
  m_riffHeader : RiffHeader
  m_formatHeader : WaveFormatHeader
  m_dataHeader : WaveDataHeader
  m_data : List Byte
  m_length : Nat
  m_sampleRate : Nat
  m_nChannels : Nat
  m_bitDepth : Nat
deriving DecidableEq

namespace WaveFile

/-- Default constructor `WaveFile()`. -/
def init : WaveFile :=
  { m_riffHeader := RiffHeader.init, m_formatHeader := WaveFormatHeader.init,
    m_dataHeader := WaveDataHeader.init, m_data := [],
    m_length := 0, m_sampleRate := 0, m_nChannels := 0, m_bitDepth := 0 }

/-- Method `WaveFile::setHeaders`: recalculates header values.  The products
are formed in `uint32_t` (`int` for `blockAlign`, stored into a `uint16_t`);
the two `sizeof` subtractions happen in `size_t` and the result is stored into
the `uint32_t` field. -/
def setHeaders (w : WaveFile) : WaveFile :=
  let subChunk2Size := u32 (w.m_length * w.m_nChannels * (w.m_bitDepth / 8))
  { w with
    m_formatHeader :=
      { w.m_formatHeader with
        subChunk1Size := sizeofWaveFormatHeader - 4 - 4
        numChannels := w.m_nChannels
        sampleRate := w.m_sampleRate
        byteRate := u32 (w.m_sampleRate * w.m_nChannels * (w.m_bitDepth / 8))
        blockAlign := u16 (w.m_nChannels * (w.m_bitDepth / 8))
        bitsPerSample := w.m_bitDepth }
    m_dataHeader := { w.m_dataHeader with subChunk2Size := subChunk2Size }
    m_riffHeader :=
      { w.m_riffHeader with
        chunkSize := intToU32 ((u32 (subChunk2Size + WAVE_HEADER_SIZE) : Int) - 4 - 4) } }

/-- Constructor `WaveFile(uint32_t length, uint32_t sampleRate, uint16_t nChannels,
uint16_t bitDepth)`: headers from `setHeaders`, then a zero-filled array of
`subChunk2Size` bytes. -/
def create (length sampleRate nChannels bitDepth : Nat) : WaveFile :=
  let w := setHeaders
    { init with m_length := length, m_sampleRate := sampleRate,
                m_nChannels := nChannels, m_bitDepth := bitDepth }
  { w with m_data := List.replicate w.m_dataHeader.subChunk2Size 0 }

/-! ## WaveFile.cpp: getSample and setSample -/

/-- A read of `m_data[i]`, the subscript being a `uint32_t` expression; the
byte is promoted to `int`.  Outside the allocation there is no result. -/
def peek (d : List Byte) (i : Nat) : Option Nat :=
  (d[u32 i]?).map (fun b => b.val)

/-- An assignment `m_data[i] = v`, the subscript being a `uint32_t` expression
and `v` an integer converted to `uint8_t`.  Outside the allocation there is no
result. -/
def poke (d : List Byte) (i : Nat) (v : Int) : Option (List Byte) :=
  if u32 i < d.length then some (d.set (u32 i) (toUInt8 v)) else none

/-- The local `index` of getSample and setSample: the byte offset of a frame,
formed in `uint32_t`. -/
def frameIndex (w : WaveFile) (sample : Nat) : Nat :=
  u32 (sample * w.m_nChannels * (w.m_bitDepth / 8))

/-- The `int16_t` assembled from two payload bytes (case 16 of getSample). -/
def decode16 (b0 b1 : Nat) : Int :=
  toInt16 ((b0 ||| (b1 <<< 8) : Nat) : Int)

/-- The `int32_t` assembled from three payload bytes (case 24 of getSample). -/
def decode24 (b0 b1 b2 : Nat) : Int :=
  toInt32 (((b0 <<< 8) ||| (b1 <<< 16) ||| (b2 <<< 24) : Nat) : Int)

/-- The `int32_t` assembled from four payload bytes (case 32 of getSample). -/
def decode32 (b0 b1 b2 b3 : Nat) : Int :=
  toInt32 ((b0 ||| (b1 <<< 8) ||| (b2 <<< 16) ||| (b3 <<< 24) : Nat) : Int)

/-- The locals `left` and `right` of getSample after the `switch`, for a
supported bit depth; `none` in the outer option is the `default:` label, in
the inner one a subscript outside the array. -/
def decodeFrame (w : WaveFile) (index : Nat) : Option (Option (ℚ × ℚ)) :=
  let d := w.m_data
  if w.m_bitDepth = 8 then
    some (do
      let b0 ← peek d index
      let left : ℚ := (b0 : ℚ) / (UINT8_MAX : ℚ)
      if w.m_nChannels = 2 then do
        let b1 ← peek d (index + 1)
        pure (left, (b1 : ℚ) / (UINT8_MAX : ℚ))
      else pure (left, 0))
  else if w.m_bitDepth = 16 then
    some (do
      let b0 ← peek d index
      let b1 ← peek d (index + 1)
      let left : ℚ := (decode16 b0 b1 : ℚ) / (INT16_MAX : ℚ)
      if w.m_nChannels = 2 then do
        let b2 ← peek d (index + 2)
        let b3 ← peek d (index + 3)
        pure (left, (decode16 b2 b3 : ℚ) / (INT16_MAX : ℚ))
      else pure (left, 0))
  else if w.m_bitDepth = 24 then
    some (do
      let b0 ← peek d index
      let b1 ← peek d (index + 1)
      let b2 ← peek d (index + 2)
      let left : ℚ := (decode24 b0 b1 b2 : ℚ) / (INT32_MAX : ℚ)
      if w.m_nChannels = 2 then do
        let b3 ← peek d (index + 3)
        let b4 ← peek d (index + 4)
        let b5 ← peek d (index + 5)
        pure (left, (decode24 b3 b4 b5 : ℚ) / (INT32_MAX : ℚ))
      else pure (left, 0))
  else if w.m_bitDepth = 32 then
    some (do
      let b0 ← peek d index
      let b1 ← peek d (index + 1)
      let b2 ← peek d (index + 2)
      let b3 ← peek d (index + 3)
      let left : ℚ := (decode32 b0 b1 b2 b3 : ℚ) / (INT32_MAX : ℚ)
      if w.m_nChannels = 2 then do
        let b4 ← peek d (index + 4)
        let b5 ← peek d (index + 5)
        let b6 ← peek d (index + 6)
        let b7 ← peek d (index + 7)
        pure (left, (decode32 b4 b5 b6 b7 : ℚ) / (INT32_MAX : ℚ))
      else pure (left, 0))
  else none

/-- Method `WaveFile::getSample`.  The result is `none` when a subscript falls
outside the array. -/
def getSample (w : WaveFile) (sample : Nat) : Option (AudioSample ℚ) :=
  if sample > w.m_length then some AudioSample.empty
  else
    match decodeFrame w (frameIndex w sample) with
    | none => some (AudioSample.stereo 0 0)
    | some r => r.map (fun lr => AudioSample.stereo lr.1 lr.2)

/-- The array after the assignments of setSample, for a supported bit depth;
`none` in the outer option is the `default:` label, in the inner one a
subscript outside the array. -/
def encodeFrame (w : WaveFile) (index : Nat) (audio : AudioSample ℚ) :
    Option (Option (List Byte)) :=
  let d := w.m_data
  if w.m_bitDepth = 8 then
    some (do
      let d ← poke d index (castUInt8 (audio.left * (UINT8_MAX : ℚ)))
      if w.m_nChannels = 2 then
        poke d (index + 1) (castUInt8 (audio.right * (UINT8_MAX : ℚ)))
      else pure d)
  else if w.m_bitDepth = 16 then
    some (do
      let left_16bit := castInt16 (audio.left * (INT16_MAX : ℚ))
      let d ← poke d index left_16bit
      let d ← poke d (index + 1) (left_16bit >>> (8 : Nat))
      if w.m_nChannels = 2 then do
        let right_16bit := castInt16 (audio.right * (INT16_MAX : ℚ))
        let d ← poke d (index + 2) right_16bit
        poke d (index + 3) (right_16bit >>> (8 : Nat))
      else pure d)
  else if w.m_bitDepth = 24 then
    some (do
      let left_24bit := castInt32 (audio.left * (INT32_MAX : ℚ))
      let d ← poke d index (left_24bit >>> (8 : Nat))
      let d ← poke d (index + 1) (left_24bit >>> (16 : Nat))
      let d ← poke d (index + 2) (left_24bit >>> (24 : Nat))
      if w.m_nChannels = 2 then do
        let right_24bit := castInt32 (audio.right * (INT32_MAX : ℚ))
        let d ← poke d (index + 3) (right_24bit >>> (8 : Nat))
        let d ← poke d (index + 4) (right_24bit >>> (16 : Nat))
        poke d (index + 5) (right_24bit >>> (24 : Nat))
      else pure d)
  else if w.m_bitDepth = 32 then
    some (do
      let left_32bit := castInt32 (audio.left * (INT32_MAX : ℚ))
      let d ← poke d index left_32bit
      let d ← poke d (index + 1) (left_32bit >>> (8 : Nat))
      let d ← poke d (index + 2) (left_32bit >>> (16 : Nat))
      let d ← poke d (index + 3) (left_32bit >>> (24 : Nat))
      if w.m_nChannels = 2 then do
        let right_32bit := castInt32 (audio.right * (INT32_MAX : ℚ))
        let d ← poke d (index + 4) right_32bit
        let d ← poke d (index + 5) (right_32bit >>> (8 : Nat))
        let d ← poke d (index + 6) (right_32bit >>> (16 : Nat))
        poke d (index + 7) (right_32bit >>> (24 : Nat))
      else pure d)
  else none

/-- Method `WaveFile::setSample`.  The result is `none` when a subscript falls
outside the array. -/
def setSample (w : WaveFile) (sample : Nat) (audio : AudioSample ℚ) : Option WaveFile :=
  if sample > w.m_length then some w
  else
    match encodeFrame w (frameIndex w sample) audio with
    | none => some w
    | some r => r.map (fun d => { w with m_data := d })

/-- A sequence of setSample calls, applied in order. -/
def setSamples (w : WaveFile) : List (Nat × AudioSample ℚ) → Option WaveFile
  | [] => some w
  | c :: cs => (setSample w c.1 c.2).bind (fun v => setSamples v cs)

end WaveFile

/-! ## The input file stream -/

/-- An `ifstream` opened in binary mode on an existing file: the file's bytes,
the get position and the two state flags that the parsing code tests. -/
structure IfStream where
  content : List Byte
  pos : Nat
  eofbit : Bool
  failbit : Bool
deriving DecidableEq

namespace IfStream

/-- A stream freshly opened on a file with the given bytes. -/
def ofFile (file : List Byte) : IfStream :=
  { content := file, pos := 0, eofbit := false, failbit := false }

/-- Member `good()`: no state flag is set. -/
def good (s : IfStream) : Bool := !s.eofbit && !s.failbit

/-- Member `eof()`. -/
def eof (s : IfStream) : Bool := s.eofbit

/-- Member `fail()`, which `operator!` returns. -/
def fail (s : IfStream) : Bool := s.failbit

/-- Member `read(buf, n)`: the characters delivered into the buffer and the
stream afterwards.  Fewer than `n` available characters are still delivered,
and then `eofbit` and `failbit` are set; a stream that is not good delivers
nothing and gets `failbit`. -/
def read (s : IfStream) (n : Nat) : IfStream × List Byte :=
  if s.good then
    let got := (s.content.drop s.pos).take n
    if got.length < n then
      ({ s with pos := s.pos + got.length, eofbit := true, failbit := true }, got)
    else ({ s with pos := s.pos + n }, got)
  else ({ s with failbit := true }, [])

/-- The number of characters that `ignore` extracts when the delimiter occurs:
everything up to and including its first occurrence. -/
def ignoreCount (delim : Byte) : List Byte → Option Nat
  | [] => none
  | c :: cs => if c = delim then some 1 else (ignoreCount delim cs).map (fun k => k + 1)

/-- Member `ignore(numeric_limits<streamsize>::max(), delim)`: characters are
discarded up to and including the first `delim`; when the input ends first,
`eofbit` is set.  A stream that is not good extracts nothing and gets
`failbit`. -/
def ignore (s : IfStream) (delim : Byte) : IfStream :=
  if s.good then
    match ignoreCount delim (s.content.drop s.pos) with
    | some k => { s with pos := s.pos + k }
    | none => { s with pos := max s.pos s.content.length, eofbit := true }
  else { s with failbit := true }

/-- Member `seekg(-1, cur)`: clears `eofbit`; unless `fail()`, the position
moves one character back, and `failbit` is set when that is not possible. -/
def seekBack (s : IfStream) : IfStream :=
  let s := { s with eofbit := false }
  if s.failbit then s
  else if 1 ≤ s.pos then { s with pos := s.pos - 1 }
  else { s with failbit := true }

end IfStream

/-! ## WaveFile.cpp: write and read -/

namespace WaveFile

/-- Method `WaveFile::write`, as the bytes that reach the file: the three
header structs and then `subChunk2Size` bytes of `m_data`.  There is no
result when the array is shorter than that. -/
def write (w : WaveFile) : Option (List Byte) :=
  if w.m_dataHeader.subChunk2Size ≤ w.m_data.length then
    some (w.m_riffHeader.toBytes ++ w.m_formatHeader.toBytes ++ w.m_dataHeader.toBytes
      ++ w.m_data.take w.m_dataHeader.subChunk2Size)
  else none

/-- How one of the two `do ... while` scans of read ends. -/
inductive Scan (H : Type) where
  | found (s : IfStream) (h : H)
  | eof (s : IfStream) (h : H)
  | fuel

/-- The `do ... while` scan of read: `ignore` up to the candidate byte, leave
when the stream reports end of file, step back onto the candidate, read a
whole header struct there, and repeat while its identifier is not the
expected word.  `store` is the read into the struct, `ident` its identifier
field.  The first argument bounds the number of iterations. -/
def scan {H : Type} (delim : Byte) (size : Nat) (store : H → List Byte → H)
    (ident : H → Word) (word : Word) : Nat → IfStream → H → Scan H
  | 0, _, _ => Scan.fuel
  | fuel + 1, s, h =>
    let s := s.ignore delim
    if s.eof then Scan.eof s h
    else
      let s := s.seekBack
      let r := s.read size
      let h := store h r.2
      if !wordCompare (ident h) word then scan delim size store ident word fuel r.1 h
      else Scan.found r.1 h

/-- The messages that read prints before `return false`. -/
inductive ReadError where
  | missingRiffHeader
  | missingFormatHeader
  | incompatibleFormat
  | missingDataHeader
  | closingFile
deriving DecidableEq

/-- How a call of read ends: `return true`, `return false` after one of the
messages, an integer division by zero in the frame count, or a scan that ran
out of iterations.  The object is given in the state the call leaves it in. -/
inductive ReadResult where
  | ok (w : WaveFile)
  | error (e : ReadError) (w : WaveFile)
  | divisionByZero
  | fuel
deriving DecidableEq

/-- Method `WaveFile::read` on a file that could be opened, given by its bytes.
The array allocated for the payload is not initialised; bytes of it that the
stream does not deliver are taken as 0. -/
def read (w : WaveFile) (file : List Byte) : ReadResult :=
  let inFile := IfStream.ofFile file
  let r := inFile.read sizeofRiffHeader
  let w := { w with m_riffHeader := w.m_riffHeader.store r.2 }
  if !wordCompare w.m_riffHeader.chunkID RIFF then ReadResult.error ReadError.missingRiffHeader w
  else
    match scan 102 sizeofWaveFormatHeader WaveFormatHeader.store
        WaveFormatHeader.subChunk1ID FMT (file.length + 2) r.1 w.m_formatHeader with
    | Scan.fuel => ReadResult.fuel
    | Scan.eof _ h =>
      ReadResult.error ReadError.missingFormatHeader { w with m_formatHeader := h }
    | Scan.found inFile h =>
      let w := { w with m_formatHeader := h }
      if w.m_formatHeader.audioFormat ≠ 1 then
        ReadResult.error ReadError.incompatibleFormat w
      else
        match scan 100 sizeofWaveDataHeader WaveDataHeader.store
            WaveDataHeader.subChunk2ID DATA (file.length + 2) inFile w.m_dataHeader with
        | Scan.fuel => ReadResult.fuel
        | Scan.eof _ h =>
          ReadResult.error ReadError.missingDataHeader { w with m_dataHeader := h }
        | Scan.found inFile h =>
          let w := { w with m_dataHeader := h }
          let r := inFile.read w.m_dataHeader.subChunk2Size
          let w := { w with
            m_data := r.2 ++ List.replicate (w.m_dataHeader.subChunk2Size - r.2.length) 0 }
          if r.1.fail then ReadResult.error ReadError.closingFile w
          else
            let w :=
              if w.m_formatHeader.subChunk1Size ≠ sizeofWaveFormatHeader then
                { w with
                  m_formatHeader :=
                    { w.m_formatHeader with subChunk1Size := sizeofWaveFormatHeader - 4 - 4 }
                  m_riffHeader :=
                    { w.m_riffHeader with
                      chunkSize := intToU32
                        ((u32 (w.m_dataHeader.subChunk2Size + WAVE_HEADER_SIZE) : Int) - 4 - 4) } }
              else w
            if w.m_formatHeader.numChannels = 0 ∨ w.m_formatHeader.bitsPerSample / 8 = 0 then
              ReadResult.divisionByZero
            else
              ReadResult.ok { w with
                m_length := w.m_dataHeader.subChunk2Size / w.m_formatHeader.numChannels
                  / (w.m_formatHeader.bitsPerSample / 8)
                m_nChannels := w.m_formatHeader.numChannels
                m_sampleRate := w.m_formatHeader.sampleRate
                m_bitDepth := w.m_formatHeader.bitsPerSample }

/-- Every integer field of the three header structs fits its C++ type. -/
def HeadersInRange (w : WaveFile) : Prop :=
  w.m_riffHeader.chunkSize < 4294967296
  ∧ w.m_formatHeader.subChunk1Size < 4294967296
  ∧ w.m_formatHeader.audioFormat < 65536
  ∧ w.m_formatHeader.numChannels < 65536
  ∧ w.m_formatHeader.sampleRate < 4294967296
  ∧ w.m_formatHeader.byteRate < 4294967296
  ∧ w.m_formatHeader.blockAlign < 65536
  ∧ w.m_formatHeader.bitsPerSample < 65536
  ∧ w.m_dataHeader.subChunk2Size < 4294967296

/-- The three identifier fields hold the words that read looks for. -/
def StandardTags (w : WaveFile) : Prop :=
  w.m_riffHeader.chunkID = RIFF ∧ w.m_formatHeader.subChunk1ID = FMT
  ∧ w.m_dataHeader.subChunk2ID = DATA

/-- The offset at which a search for a tagged block ends, as a function of the
bytes still ahead: bytes are passed over up to the next one equal to `delim`;
when the four bytes starting there are `word` the search ends at that offset,
and otherwise it goes on `resume` bytes after that candidate.  The first
number counts bytes still to pass over unexamined, the second is the offset of
the head of the list.  With `resume = 1` every later byte is examined; the scan
loop of read goes on after the whole struct it has read, `resume` being the
size of the struct. -/
def findTag (delim : Byte) (word : Word) (resume : Nat) : Nat → Nat → List Byte → Option Nat
  | _, _, [] => none
  | skip + 1, pos, _ :: rest => findTag delim word resume skip (pos + 1) rest
  | 0, pos, c :: rest =>
    if c = delim then
      if (c :: rest).take 4 = word.toBytes then some pos
      else findTag delim word resume (resume - 1) (pos + 1) rest
    else findTag delim word resume 0 (pos + 1) rest

end WaveFile

/-! # Properties -/

/-! ## AudioSample arithmetic -/

theorem clamp_bounds {K : Type} [LinearOrder K] (v lo hi : K) (h : lo ≤ hi) :
    lo ≤ clamp v lo hi ∧ clamp v lo hi ≤ hi := by
  unfold clamp
  split_ifs with h1 h2
  · exact ⟨le_refl lo, h⟩
  · exact ⟨h, le_refl hi⟩
  · exact ⟨not_lt.mp h1, not_lt.mp h2⟩

theorem clamp_eq_self {K : Type} [LinearOrder K] (v lo hi : K) (h1 : lo ≤ v) (h2 : v ≤ hi) :
    clamp v lo hi = v := by
  unfold clamp
  rw [if_neg (not_lt.mpr h1), if_neg (not_lt.mpr h2)]

namespace AudioSample

variable {K : Type} [LinearOrderedField K]

theorem clampValues_inRange (s : AudioSample K) : (clampValues s).InRange := by
  have h : (-1 : K) ≤ 1 := by norm_num
  exact ⟨(clamp_bounds s.left (-1) 1 h).1, (clamp_bounds s.left (-1) 1 h).2,
    (clamp_bounds s.right (-1) 1 h).1, (clamp_bounds s.right (-1) 1 h).2⟩

theorem empty_inRange : (empty : AudioSample K).InRange := by
  simp [empty, InRange]

theorem stereo_of_inRange (l r : K) (hl1 : -1 ≤ l) (hl2 : l ≤ 1) (hr1 : -1 ≤ r) (hr2 : r ≤ 1) :
    stereo l r = { left := l, right := r } := by
  simp only [stereo, clampValues]
  rw [clamp_eq_self l (-1) 1 hl1 hl2, clamp_eq_self r (-1) 1 hr1 hr2]

/-- C2: every arithmetic operation, in each of its three shapes, returns a
sample whose two channels lie between -1 and 1, whatever the operands are. -/
theorem arithmetic_result_inRange (a b : AudioSample K) (x : K) :
    (add a b).InRange ∧ (addScalar a x).InRange ∧ (scalarAdd x a).InRange
    ∧ (sub a b).InRange ∧ (subScalar a x).InRange ∧ (scalarSub x a).InRange
    ∧ (mul a b).InRange ∧ (mulScalar a x).InRange ∧ (scalarMul x a).InRange
    ∧ (div a b).InRange ∧ (divScalar a x).InRange ∧ (scalarDiv x a).InRange := by
  have hd : (div a b).InRange := by
    unfold div
    split_ifs
    · exact empty_inRange
    · exact clampValues_inRange _
  have hs : (divScalar a x).InRange := by
    unfold divScalar
    split_ifs
    · exact empty_inRange
    · exact clampValues_inRange _
  exact ⟨clampValues_inRange _, clampValues_inRange _, clampValues_inRange _,
    clampValues_inRange _, clampValues_inRange _, clampValues_inRange _,
    clampValues_inRange _, clampValues_inRange _, clampValues_inRange _, hd, hs, hs⟩

/-- C10: dividing by the scalar 0 returns the zero sample, and dividing by a
sample returns the zero sample as soon as one channel of the divisor is 0. -/
theorem div_zero_divisor (a b : AudioSample K) (h : b.left = 0 ∨ b.right = 0) :
    divScalar a 0 = { left := 0, right := 0 } ∧ div a b = { left := 0, right := 0 } := by
  constructor
  · simp [divScalar, empty]
  · simp [div, empty, h]

/-- An instance of the zero-divisor rule: a divisor whose right channel alone is 0. -/
theorem div_zero_divisor_witness :
    ((1 : ℚ) = 0 ∨ (0 : ℚ) = 0)
    ∧ divScalar ({ left := 1 / 2, right := -1 / 4 } : AudioSample ℚ) 0 = { left := 0, right := 0 }
    ∧ div ({ left := 1 / 2, right := -1 / 4 } : AudioSample ℚ) { left := 1, right := 0 }
        = { left := 0, right := 0 } :=
  ⟨Or.inr rfl, div_zero_divisor ({ left := 1 / 2, right := -1 / 4 } : AudioSample ℚ)
    ({ left := 1, right := 0 } : AudioSample ℚ) (Or.inr rfl)⟩

end AudioSample

/-! ## Machine integers, bytes and truncation -/

open WaveFile

theorem u32_of_lt {n : Nat} (h : n < 4294967296) : u32 n = n := Nat.mod_eq_of_lt h

theorem or_shiftLeft (x b i : Nat) (h : x < 2 ^ i) : x ||| (b <<< i) = x + 2 ^ i * b := by
  rw [Nat.shiftLeft_eq, Nat.mul_comm b, Nat.or_comm, ← Nat.mul_add_lt_is_or h, Nat.add_comm]

theorem toUInt8_val (v : Int) : ((toUInt8 v).val : Int) = v % 256 := by
  simp only [toUInt8]
  omega

theorem toUInt8_shift8 (v : Int) : ((toUInt8 (v >>> (8 : Nat))).val : Int) = v / 256 % 256 := by
  rw [toUInt8_val, Int.shiftRight_eq_div_pow]
  norm_num

theorem toUInt8_shift16 (v : Int) :
    ((toUInt8 (v >>> (16 : Nat))).val : Int) = v / 65536 % 256 := by
  rw [toUInt8_val, Int.shiftRight_eq_div_pow]
  norm_num

theorem toUInt8_shift24 (v : Int) :
    ((toUInt8 (v >>> (24 : Nat))).val : Int) = v / 16777216 % 256 := by
  rw [toUInt8_val, Int.shiftRight_eq_div_pow]
  norm_num

theorem decode16_encode (v : Int) (h1 : -32768 ≤ v) (h2 : v < 32768) :
    decode16 (toUInt8 v).val (toUInt8 (v >>> (8 : Nat))).val = v := by
  have ha : (toUInt8 v).val < 256 := (toUInt8 v).isLt
  have hb : (toUInt8 (v >>> (8 : Nat))).val < 256 := (toUInt8 (v >>> (8 : Nat))).isLt
  have e0 := toUInt8_val v
  have e1 := toUInt8_shift8 v
  unfold decode16 toInt16
  rw [or_shiftLeft _ _ 8 (by omega)]
  push_cast
  omega

theorem decode32_encode (v : Int) (h1 : -2147483648 ≤ v) (h2 : v < 2147483648) :
    decode32 (toUInt8 v).val (toUInt8 (v >>> (8 : Nat))).val (toUInt8 (v >>> (16 : Nat))).val
      (toUInt8 (v >>> (24 : Nat))).val = v := by
  have ha : (toUInt8 v).val < 256 := (toUInt8 v).isLt
  have hb : (toUInt8 (v >>> (8 : Nat))).val < 256 := (toUInt8 (v >>> (8 : Nat))).isLt
  have hc : (toUInt8 (v >>> (16 : Nat))).val < 256 := (toUInt8 (v >>> (16 : Nat))).isLt
  have hd : (toUInt8 (v >>> (24 : Nat))).val < 256 := (toUInt8 (v >>> (24 : Nat))).isLt
  have e0 := toUInt8_val v
  have e1 := toUInt8_shift8 v
  have e2 := toUInt8_shift16 v
  have e3 := toUInt8_shift24 v
  unfold decode32 toInt32
  rw [or_shiftLeft _ _ 8 (by omega), or_shiftLeft _ _ 16 (by omega), or_shiftLeft _ _ 24 (by omega)]
  push_cast
  omega

theorem decode24_encode (v : Int) (h1 : -2147483648 ≤ v) (h2 : v < 2147483648) :
    decode24 (toUInt8 (v >>> (8 : Nat))).val (toUInt8 (v >>> (16 : Nat))).val
      (toUInt8 (v >>> (24 : Nat))).val = v - v % 256 := by
  have hb : (toUInt8 (v >>> (8 : Nat))).val < 256 := (toUInt8 (v >>> (8 : Nat))).isLt
  have hc : (toUInt8 (v >>> (16 : Nat))).val < 256 := (toUInt8 (v >>> (16 : Nat))).isLt
  have hd : (toUInt8 (v >>> (24 : Nat))).val < 256 := (toUInt8 (v >>> (24 : Nat))).isLt
  have e1 := toUInt8_shift8 v
  have e2 := toUInt8_shift16 v
  have e3 := toUInt8_shift24 v
  unfold decode24 toInt32
  have s0 : (toUInt8 (v >>> (8 : Nat))).val <<< 8 = 256 * (toUInt8 (v >>> (8 : Nat))).val := by
    rw [Nat.shiftLeft_eq]; omega
  rw [s0, or_shiftLeft _ _ 16 (by omega), or_shiftLeft _ _ 24 (by omega)]
  push_cast
  omega

theorem trunc_bounds (x : ℚ) (M : Int) (h1 : -(M : ℚ) ≤ x) (h2 : x ≤ (M : ℚ)) :
    -M ≤ trunc x ∧ trunc x ≤ M := by
  have hM : (0 : ℚ) ≤ (M : ℚ) := by linarith
  have hM0 : (0 : Int) ≤ M := by exact_mod_cast hM
  unfold trunc
  split_ifs with h
  · constructor
    · have := Int.floor_nonneg.mpr h
      omega
    · have h3 : ((⌊x⌋ : Int) : ℚ) ≤ (M : ℚ) := le_trans (Int.floor_le x) h2
      exact_mod_cast h3
  · push_neg at h
    constructor
    · have h3 : ((-M : Int) : ℚ) ≤ ((⌈x⌉ : Int) : ℚ) := by
        push_cast
        exact le_trans h1 (Int.le_ceil x)
      exact_mod_cast h3
    · have h3 : ⌈x⌉ ≤ 0 := Int.ceil_le.mpr (by exact_mod_cast h.le)
      omega

theorem trunc_sub_abs_lt (x : ℚ) : |((trunc x : Int) : ℚ) - x| < 1 := by
  unfold trunc
  rw [abs_lt]
  split_ifs with h
  · have h1 := Int.floor_le x
    have h2 := Int.lt_floor_add_one x
    constructor <;> linarith
  · have h1 := Int.le_ceil x
    have h2 := Int.ceil_lt_add_one x
    constructor <;> linarith

/-- Scaling by `M`, truncating and dividing by `M` again moves a value by less than `1 / M`. -/
theorem quantize_error (s : ℚ) (M : ℚ) (hM : 0 < M) :
    |((trunc (s * M) : Int) : ℚ) / M - s| < 1 / M := by
  have h := trunc_sub_abs_lt (s * M)
  have e : ((trunc (s * M) : Int) : ℚ) / M - s = (((trunc (s * M) : Int) : ℚ) - s * M) / M := by
    field_simp
    ring
  rw [e, abs_div, abs_of_pos hM]
  exact div_lt_div_of_pos_right h hM

theorem quantize_inRange (s : ℚ) (M : Int) (hM : 0 < M) (h1 : -1 ≤ s) (h2 : s ≤ 1) :
    -1 ≤ ((trunc (s * M) : Int) : ℚ) / M ∧ ((trunc (s * M) : Int) : ℚ) / M ≤ 1 := by
  have hMq : (0 : ℚ) < (M : ℚ) := by exact_mod_cast hM
  have hb := trunc_bounds (s * M) M (by nlinarith) (by nlinarith)
  have h3 : (((-M : Int)) : ℚ) ≤ ((trunc (s * M) : Int) : ℚ) := by exact_mod_cast hb.1
  have h4 : ((trunc (s * M) : Int) : ℚ) ≤ (M : ℚ) := by exact_mod_cast hb.2
  push_cast at h3
  constructor
  · rw [le_div_iff₀ hMq]; linarith
  · rw [div_le_iff₀ hMq]; linarith

/-! ## getSample and setSample -/

namespace WaveFile

theorem poke_eq_some (d : List Byte) (i : Nat) (v : Int) (h32 : i < 4294967296)
    (h : i < d.length) : poke d i v = some (d.set i (toUInt8 v)) := by
  unfold poke
  rw [u32_of_lt h32, if_pos h]

theorem peek_eq (d : List Byte) (i : Nat) (h32 : i < 4294967296) :
    peek d i = (d[i]?).map (fun b => b.val) := by
  unfold peek
  rw [u32_of_lt h32]

theorem toInt16_range (v : Int) : -32768 ≤ toInt16 v ∧ toInt16 v < 32768 := by
  unfold toInt16; omega

theorem toInt32_range (v : Int) : -2147483648 ≤ toInt32 v ∧ toInt32 v < 2147483648 := by
  unfold toInt32; omega

theorem toInt16_of_range (v : Int) (h1 : -32768 ≤ v) (h2 : v < 32768) : toInt16 v = v := by
  unfold toInt16; omega

theorem toInt32_of_range (v : Int) (h1 : -2147483648 ≤ v) (h2 : v < 2147483648) :
    toInt32 v = v := by
  unfold toInt32; omega

theorem setSample_of_encodeFrame (w : WaveFile) (i : Nat) (s : AudioSample ℚ) (d : List Byte)
    (hi : i ≤ w.m_length) (h : encodeFrame w (frameIndex w i) s = some (some d)) :
    setSample w i s = some { w with m_data := d } := by
  unfold setSample
  rw [if_neg (Nat.not_lt.mpr hi), h]
  rfl

theorem getSample_of_decodeFrame (w : WaveFile) (i : Nat) (lr : ℚ × ℚ)
    (hi : i ≤ w.m_length) (h : decodeFrame w (frameIndex w i) = some (some lr)) :
    getSample w i = some (AudioSample.stereo lr.1 lr.2) := by
  unfold getSample
  rw [if_neg (Nat.not_lt.mpr hi), h]
  rfl

/-- The 16-bit frame that setSample writes is the one getSample decodes (two channels). -/
theorem frame16_stereo (w : WaveFile) (idx : Nat) (s : AudioSample ℚ)
    (hbd : w.m_bitDepth = 16) (hch : w.m_nChannels = 2)
    (h0 : idx + 3 < 4294967296) (h1 : idx + 3 < w.m_data.length) :
    ∃ d, encodeFrame w idx s = some (some d) ∧
      decodeFrame { w with m_data := d } idx = some (some
      ((castInt16 (s.left * (INT16_MAX : ℚ)) : ℚ) / (INT16_MAX : ℚ),
       (castInt16 (s.right * (INT16_MAX : ℚ)) : ℚ) / (INT16_MAX : ℚ))) := by
  have a0 : idx < 4294967296 := by omega
  have a1 : idx + 1 < 4294967296 := by omega
  have a2 : idx + 2 < 4294967296 := by omega
  have b0 : idx < w.m_data.length := by omega
  have b1 : idx + 1 < w.m_data.length := by omega
  have b2 : idx + 2 < w.m_data.length := by omega
  have el := decode16_encode (castInt16 (s.left * (INT16_MAX : ℚ))) (toInt16_range _).1
    (toInt16_range _).2
  have er := decode16_encode (castInt16 (s.right * (INT16_MAX : ℚ))) (toInt16_range _).1
    (toInt16_range _).2
  simp only [encodeFrame, decodeFrame, hbd, hch]
  simp [poke_eq_some, peek_eq, a0, a1, a2, h0, b0, b1, b2, h1, List.getElem?_set, el, er]

theorem frame16_mono (w : WaveFile) (idx : Nat) (s : AudioSample ℚ)
    (hbd : w.m_bitDepth = 16) (hch : w.m_nChannels = 1)
    (h0 : idx + 1 < 4294967296) (h1 : idx + 1 < w.m_data.length) :
    ∃ d, encodeFrame w idx s = some (some d) ∧
      decodeFrame { w with m_data := d } idx = some (some
      ((castInt16 (s.left * (INT16_MAX : ℚ)) : ℚ) / (INT16_MAX : ℚ), 0)) := by
  have a0 : idx < 4294967296 := by omega
  have b0 : idx < w.m_data.length := by omega
  have el := decode16_encode (castInt16 (s.left * (INT16_MAX : ℚ))) (toInt16_range _).1
    (toInt16_range _).2
  simp only [encodeFrame, decodeFrame, hbd, hch]
  simp [poke_eq_some, peek_eq, a0, h0, b0, h1, List.getElem?_set, el]

theorem frame32_stereo (w : WaveFile) (idx : Nat) (s : AudioSample ℚ)
    (hbd : w.m_bitDepth = 32) (hch : w.m_nChannels = 2)
    (h0 : idx + 7 < 4294967296) (h1 : idx + 7 < w.m_data.length) :
    ∃ d, encodeFrame w idx s = some (some d) ∧
      decodeFrame { w with m_data := d } idx = some (some
      ((castInt32 (s.left * (INT32_MAX : ℚ)) : ℚ) / (INT32_MAX : ℚ),
       (castInt32 (s.right * (INT32_MAX : ℚ)) : ℚ) / (INT32_MAX : ℚ))) := by
  have a0 : idx < 4294967296 := by omega
  have a1 : idx + 1 < 4294967296 := by omega
  have a2 : idx + 2 < 4294967296 := by omega
  have a3 : idx + 3 < 4294967296 := by omega
  have a4 : idx + 4 < 4294967296 := by omega
  have a5 : idx + 5 < 4294967296 := by omega
  have a6 : idx + 6 < 4294967296 := by omega
  have b0 : idx < w.m_data.length := by omega
  have b1 : idx + 1 < w.m_data.length := by omega
  have b2 : idx + 2 < w.m_data.length := by omega
  have b3 : idx + 3 < w.m_data.length := by omega
  have b4 : idx + 4 < w.m_data.length := by omega
  have b5 : idx + 5 < w.m_data.length := by omega
  have b6 : idx + 6 < w.m_data.length := by omega
  have el := decode32_encode (castInt32 (s.left * (INT32_MAX : ℚ))) (toInt32_range _).1
    (toInt32_range _).2
  have er := decode32_encode (castInt32 (s.right * (INT32_MAX : ℚ))) (toInt32_range _).1
    (toInt32_range _).2
  simp only [encodeFrame, decodeFrame, hbd, hch]
  simp [poke_eq_some, peek_eq, a0, a1, a2, a3, a4, a5, a6, h0, b0, b1, b2, b3, b4, b5, b6, h1,
    List.getElem?_set, el, er]

theorem frame32_mono (w : WaveFile) (idx : Nat) (s : AudioSample ℚ)
    (hbd : w.m_bitDepth = 32) (hch : w.m_nChannels = 1)
    (h0 : idx + 3 < 4294967296) (h1 : idx + 3 < w.m_data.length) :
    ∃ d, encodeFrame w idx s = some (some d) ∧
      decodeFrame { w with m_data := d } idx = some (some
      ((castInt32 (s.left * (INT32_MAX : ℚ)) : ℚ) / (INT32_MAX : ℚ), 0)) := by
  have a0 : idx < 4294967296 := by omega
  have a1 : idx + 1 < 4294967296 := by omega
  have a2 : idx + 2 < 4294967296 := by omega
  have b0 : idx < w.m_data.length := by omega
  have b1 : idx + 1 < w.m_data.length := by omega
  have b2 : idx + 2 < w.m_data.length := by omega
  have el := decode32_encode (castInt32 (s.left * (INT32_MAX : ℚ))) (toInt32_range _).1
    (toInt32_range _).2
  simp only [encodeFrame, decodeFrame, hbd, hch]
  simp [poke_eq_some, peek_eq, a0, a1, a2, h0, b0, b1, b2, h1, List.getElem?_set, el]

/-- A channel inside the unit range, scaled to 16 bits, cast and divided back:
the value stays inside the unit range and moves by less than 1/32767. -/
theorem channel16 (x : ℚ) (h1 : -1 ≤ x) (h2 : x ≤ 1) :
    -1 ≤ ((castInt16 (x * (INT16_MAX : ℚ)) : Int) : ℚ) / (INT16_MAX : ℚ)
    ∧ ((castInt16 (x * (INT16_MAX : ℚ)) : Int) : ℚ) / (INT16_MAX : ℚ) ≤ 1
    ∧ |((castInt16 (x * (INT16_MAX : ℚ)) : Int) : ℚ) / (INT16_MAX : ℚ) - x| < 1 / 32767 := by
  have e : (INT16_MAX : ℚ) = ((32767 : Int) : ℚ) := by norm_num [INT16_MAX]
  rw [e]
  have hb := trunc_bounds (x * ((32767 : Int) : ℚ)) 32767 (by push_cast; linarith)
    (by push_cast; linarith)
  have q := quantize_inRange x 32767 (by norm_num) h1 h2
  have r := quantize_error x ((32767 : Int) : ℚ) (by norm_num)
  rw [castInt16, toInt16_of_range _ (by omega) (by omega)]
  refine ⟨q.1, q.2, ?_⟩
  norm_num at r ⊢
  exact r

/-- The same for a channel scaled to 32 bits. -/
theorem channel32 (x : ℚ) (h1 : -1 ≤ x) (h2 : x ≤ 1) :
    -1 ≤ ((castInt32 (x * (INT32_MAX : ℚ)) : Int) : ℚ) / (INT32_MAX : ℚ)
    ∧ ((castInt32 (x * (INT32_MAX : ℚ)) : Int) : ℚ) / (INT32_MAX : ℚ) ≤ 1
    ∧ |((castInt32 (x * (INT32_MAX : ℚ)) : Int) : ℚ) / (INT32_MAX : ℚ) - x| < 1 / 2147483647 := by
  have e : (INT32_MAX : ℚ) = ((2147483647 : Int) : ℚ) := by norm_num [INT32_MAX]
  rw [e]
  have hb := trunc_bounds (x * ((2147483647 : Int) : ℚ)) 2147483647 (by push_cast; linarith)
    (by push_cast; linarith)
  have q := quantize_inRange x 2147483647 (by norm_num) h1 h2
  have r := quantize_error x ((2147483647 : Int) : ℚ) (by norm_num)
  rw [castInt32, toInt32_of_range _ (by omega) (by omega)]
  refine ⟨q.1, q.2, ?_⟩
  norm_num at r ⊢
  exact r

/-- C3: in a 16-bit or 32-bit container with one or two channels whose payload
holds frameCount * channelCount * (bitDepth / 8) bytes, writing a sample with
both channels between -1 and 1 at an index below frameCount and reading that
index back gives a left channel less than 1/M away from the written one, with
M = 32767 for 16 bits and M = 2147483647 for 32 bits, and with two channels
the right channel obeys the same bound. -/
theorem setSample_getSample_16_32 (w : WaveFile) (i : Nat) (s : AudioSample ℚ)
    (hbd : w.m_bitDepth = 16 ∨ w.m_bitDepth = 32)
    (hch : w.m_nChannels = 1 ∨ w.m_nChannels = 2)
    (hi : i < w.m_length)
    (hlen : w.m_data.length = w.m_length * w.m_nChannels * (w.m_bitDepth / 8))
    (hs : s.InRange) :
    ∃ v r, setSample w i s = some v ∧ getSample v i = some r
      ∧ |r.left - s.left| < 1 / (if w.m_bitDepth = 16 then 32767 else 2147483647)
      ∧ (w.m_nChannels = 2 →
          |r.right - s.right| < 1 / (if w.m_bitDepth = 16 then 32767 else 2147483647)) := by
  obtain ⟨hl1, hl2, hr1, hr2⟩ := hs
  have cl16 := channel16 s.left hl1 hl2
  have cr16 := channel16 s.right hr1 hr2
  have cl32 := channel32 s.left hl1 hl2
  have cr32 := channel32 s.right hr1 hr2
  rcases hbd with hbd | hbd <;> rcases hch with hch | hch
  · have hidx : frameIndex w i = u32 (i * 2) := by
      simp only [frameIndex, hbd, hch]; congr 1; omega
    rw [hbd, hch] at hlen
    obtain ⟨d, he, hd⟩ := frame16_mono w (frameIndex w i) s hbd hch
      (by rw [hidx]; unfold u32; omega) (by rw [hidx]; unfold u32; omega)
    refine ⟨_, _, setSample_of_encodeFrame w i s d hi.le he,
      getSample_of_decodeFrame _ i _ hi.le hd, ?_, ?_⟩
    · rw [AudioSample.stereo_of_inRange _ _ cl16.1 cl16.2.1 (by norm_num) (by norm_num)]
      simpa [hbd] using cl16.2.2
    · intro h2; omega
  · have hidx : frameIndex w i = u32 (i * 4) := by
      simp only [frameIndex, hbd, hch]; congr 1; omega
    rw [hbd, hch] at hlen
    obtain ⟨d, he, hd⟩ := frame16_stereo w (frameIndex w i) s hbd hch
      (by rw [hidx]; unfold u32; omega) (by rw [hidx]; unfold u32; omega)
    refine ⟨_, _, setSample_of_encodeFrame w i s d hi.le he,
      getSample_of_decodeFrame _ i _ hi.le hd, ?_, ?_⟩
    · rw [AudioSample.stereo_of_inRange _ _ cl16.1 cl16.2.1 cr16.1 cr16.2.1]
      simpa [hbd] using cl16.2.2
    · intro _
      rw [AudioSample.stereo_of_inRange _ _ cl16.1 cl16.2.1 cr16.1 cr16.2.1]
      simpa [hbd] using cr16.2.2
  · have hidx : frameIndex w i = u32 (i * 4) := by
      simp only [frameIndex, hbd, hch]; congr 1; omega
    rw [hbd, hch] at hlen
    obtain ⟨d, he, hd⟩ := frame32_mono w (frameIndex w i) s hbd hch
      (by rw [hidx]; unfold u32; omega) (by rw [hidx]; unfold u32; omega)
    refine ⟨_, _, setSample_of_encodeFrame w i s d hi.le he,
      getSample_of_decodeFrame _ i _ hi.le hd, ?_, ?_⟩
    · rw [AudioSample.stereo_of_inRange _ _ cl32.1 cl32.2.1 (by norm_num) (by norm_num)]
      simpa [hbd] using cl32.2.2
    · intro h2; omega
  · have hidx : frameIndex w i = u32 (i * 8) := by
      simp only [frameIndex, hbd, hch]; congr 1; omega
    rw [hbd, hch] at hlen
    obtain ⟨d, he, hd⟩ := frame32_stereo w (frameIndex w i) s hbd hch
      (by rw [hidx]; unfold u32; omega) (by rw [hidx]; unfold u32; omega)
    refine ⟨_, _, setSample_of_encodeFrame w i s d hi.le he,
      getSample_of_decodeFrame _ i _ hi.le hd, ?_, ?_⟩
    · rw [AudioSample.stereo_of_inRange _ _ cl32.1 cl32.2.1 cr32.1 cr32.2.1]
      simpa [hbd] using cl32.2.2
    · intro _
      rw [AudioSample.stereo_of_inRange _ _ cl32.1 cl32.2.1 cr32.1 cr32.2.1]
      simpa [hbd] using cr32.2.2

/-- An instance of the 16-bit round trip: frame 1 of a fresh two-frame stereo container. -/
theorem setSample_getSample_16_32_witness :
    ((create 2 44100 2 16).m_bitDepth = 16 ∨ (create 2 44100 2 16).m_bitDepth = 32)
    ∧ ((create 2 44100 2 16).m_nChannels = 1 ∨ (create 2 44100 2 16).m_nChannels = 2)
    ∧ 1 < (create 2 44100 2 16).m_length
    ∧ (∃ v r, setSample (create 2 44100 2 16) 1 { left := 1 / 2, right := -1 / 3 } = some v
        ∧ getSample v 1 = some r
        ∧ |r.left - 1 / 2| < 1 / (if (create 2 44100 2 16).m_bitDepth = 16 then 32767
            else 2147483647)
        ∧ ((create 2 44100 2 16).m_nChannels = 2 →
            |r.right - (-1 / 3)| < 1 / (if (create 2 44100 2 16).m_bitDepth = 16 then 32767
              else 2147483647))) :=
  ⟨Or.inl rfl, Or.inr rfl, by decide,
    setSample_getSample_16_32 (create 2 44100 2 16) 1 { left := 1 / 2, right := -1 / 3 }
      (Or.inl rfl) (Or.inr rfl) (by decide) (by decide)
      (by norm_num [AudioSample.InRange])⟩

/-! ## Construction and header synchronisation -/

/-- C7, at an input where the claim fails: with sampleRate 2^31, two channels
and 16 bits the stored byteRate is 0, not sampleRate * channelCount * (bitDepth / 8). -/
theorem create_byteRate_wraps :
    (create 1 2147483648 2 16).m_formatHeader.byteRate ≠ 2147483648 * 2 * (16 / 8) := by
  decide

/-- C7 (amended): the header fields of a freshly constructed container.  The
three products are stored reduced modulo 2^32 (modulo 2^16 for blockAlign),
and chunkSize is subChunk2Size + 36 reduced modulo 2^32. -/
theorem create_headers (length sampleRate nChannels bitDepth : Nat) :
    (create length sampleRate nChannels bitDepth).m_formatHeader.subChunk1Size = 16
    ∧ (create length sampleRate nChannels bitDepth).m_formatHeader.audioFormat = 1
    ∧ (create length sampleRate nChannels bitDepth).m_formatHeader.numChannels = nChannels
    ∧ (create length sampleRate nChannels bitDepth).m_formatHeader.sampleRate = sampleRate
    ∧ (create length sampleRate nChannels bitDepth).m_formatHeader.bitsPerSample = bitDepth
    ∧ (create length sampleRate nChannels bitDepth).m_formatHeader.byteRate
        = (sampleRate * nChannels * (bitDepth / 8)) % 4294967296
    ∧ (create length sampleRate nChannels bitDepth).m_formatHeader.blockAlign
        = (nChannels * (bitDepth / 8)) % 65536
    ∧ (create length sampleRate nChannels bitDepth).m_dataHeader.subChunk2Size
        = (length * nChannels * (bitDepth / 8)) % 4294967296
    ∧ (create length sampleRate nChannels bitDepth).m_riffHeader.chunkSize
        = ((create length sampleRate nChannels bitDepth).m_dataHeader.subChunk2Size + 36)
            % 4294967296 := by
  refine ⟨rfl, rfl, rfl, rfl, rfl, rfl, rfl, rfl, ?_⟩
  simp only [create, setHeaders, init, intToU32, u32, WAVE_HEADER_SIZE, sizeofRiffHeader,
    sizeofWaveFormatHeader, sizeofWaveDataHeader]
  omega

/-- C8, at an input where the claim fails: 2^31 frames of two 16-bit channels
get an empty payload, not one of frameCount * channelCount * (bitDepth / 8) bytes. -/
theorem create_payload_wraps :
    (create 2147483648 44100 2 16).m_data.length ≠ 2147483648 * 2 * (16 / 8) := by
  decide

theorem peek_replicate_zero (n k : Nat) (h32 : k < 4294967296) (h : k < n) :
    peek (List.replicate n (0 : Byte)) k = some 0 := by
  rw [peek_eq _ _ h32, List.getElem?_replicate, if_pos h]
  rfl

theorem decode_zero : decode16 0 0 = 0 ∧ decode24 0 0 0 = 0 ∧ decode32 0 0 0 0 = 0 := by
  decide

theorem stereo_zero : AudioSample.stereo (0 : ℚ) 0 = { left := 0, right := 0 } :=
  AudioSample.stereo_of_inRange 0 0 (by norm_num) (by norm_num) (by norm_num) (by norm_num)

theorem decodeFrame_zero_payload (w : WaveFile) (n idx : Nat)
    (hch : w.m_nChannels = 1 ∨ w.m_nChannels = 2)
    (hbd : w.m_bitDepth = 8 ∨ w.m_bitDepth = 16 ∨ w.m_bitDepth = 24 ∨ w.m_bitDepth = 32)
    (hd : w.m_data = List.replicate n 0)
    (h1 : idx + w.m_nChannels * (w.m_bitDepth / 8) ≤ n)
    (h2 : idx + w.m_nChannels * (w.m_bitDepth / 8) ≤ 4294967296) :
    decodeFrame w idx = some (some (0, 0)) := by
  obtain ⟨z16, z24, z32⟩ := decode_zero
  rcases hch with hch | hch <;> rcases hbd with hbd | hbd | hbd | hbd <;>
    rw [hch, hbd] at h1 h2 <;>
    simp only [Nat.reduceDiv, Nat.reduceMul] at h1 h2 <;>
    simp only [decodeFrame, hbd, hch, hd] <;>
    simp <;>
    (repeat rw [peek_replicate_zero _ _ (by omega) (by omega)]) <;>
    simp [z16, z24, z32]

/-- C8 (amended): fresh construction with one or two channels and a bit depth
of 8, 16, 24 or 32 yields a payload of (frameCount * channelCount * (bitDepth / 8))
mod 2^32 zero bytes; when the product is below 2^32 the payload has exactly
that many bytes and getSample gives the zero sample at every index below
frameCount. -/
theorem create_payload (length sampleRate nChannels bitDepth : Nat)
    (hch : nChannels = 1 ∨ nChannels = 2)
    (hbd : bitDepth = 8 ∨ bitDepth = 16 ∨ bitDepth = 24 ∨ bitDepth = 32) :
    (create length sampleRate nChannels bitDepth).m_data
      = List.replicate ((length * nChannels * (bitDepth / 8)) % 4294967296) 0
    ∧ (length * nChannels * (bitDepth / 8) < 4294967296 →
        (create length sampleRate nChannels bitDepth).m_data.length
          = length * nChannels * (bitDepth / 8)
        ∧ ∀ i, i < length →
            getSample (create length sampleRate nChannels bitDepth) i
              = some { left := 0, right := 0 }) := by
  refine ⟨rfl, fun hlt => ?_⟩
  have hlen : (create length sampleRate nChannels bitDepth).m_data.length
      = length * nChannels * (bitDepth / 8) := by
    simp only [create, setHeaders, List.length_replicate, u32]
    exact Nat.mod_eq_of_lt hlt
  refine ⟨hlen, fun i hi => ?_⟩
  have h := getSample_of_decodeFrame (create length sampleRate nChannels bitDepth) i (0, 0)
    (Nat.le_of_lt hi)
  rw [stereo_zero] at h
  apply h
  have hB : i * nChannels * (bitDepth / 8) + nChannels * (bitDepth / 8)
      ≤ length * nChannels * (bitDepth / 8) := by
    have : (i + 1) * (nChannels * (bitDepth / 8)) ≤ length * (nChannels * (bitDepth / 8)) :=
      Nat.mul_le_mul_right _ hi
    calc i * nChannels * (bitDepth / 8) + nChannels * (bitDepth / 8)
        = (i + 1) * (nChannels * (bitDepth / 8)) := by ring
      _ ≤ length * (nChannels * (bitDepth / 8)) := this
      _ = length * nChannels * (bitDepth / 8) := by ring
  have hidx : frameIndex (create length sampleRate nChannels bitDepth) i
      = i * nChannels * (bitDepth / 8) := by
    show u32 (i * nChannels * (bitDepth / 8)) = _
    exact u32_of_lt (by omega)
  rw [hidx]
  exact decodeFrame_zero_payload _ ((length * nChannels * (bitDepth / 8)) % 4294967296) _
    hch hbd rfl (by rw [Nat.mod_eq_of_lt hlt]; exact hB) (by
      show i * nChannels * (bitDepth / 8) + nChannels * (bitDepth / 8) ≤ 4294967296
      omega)

/-- An instance of the fresh payload: three frames of two 16-bit channels. -/
theorem create_payload_witness :
    ((2 : Nat) = 1 ∨ (2 : Nat) = 2)
    ∧ ((16 : Nat) = 8 ∨ (16 : Nat) = 16 ∨ (16 : Nat) = 24 ∨ (16 : Nat) = 32)
    ∧ (create 3 44100 2 16).m_data = List.replicate ((3 * 2 * (16 / 8)) % 4294967296) 0
    ∧ (3 * 2 * (16 / 8) < 4294967296 →
        (create 3 44100 2 16).m_data.length = 3 * 2 * (16 / 8)
        ∧ ∀ i, i < 3 → getSample (create 3 44100 2 16) i = some { left := 0, right := 0 }) :=
  ⟨Or.inr rfl, Or.inr (Or.inl rfl),
    create_payload 3 44100 2 16 (Or.inr rfl) (Or.inr (Or.inl rfl))⟩

/-! ## The 24-bit layout -/

theorem frame24_mono (w : WaveFile) (idx : Nat) (s : AudioSample ℚ)
    (hbd : w.m_bitDepth = 24) (hch : w.m_nChannels = 1)
    (h0 : idx + 2 < 4294967296) (h1 : idx + 2 < w.m_data.length) :
    ∃ d, encodeFrame w idx s = some (some d)
      ∧ peek d idx = some (toUInt8 (castInt32 (s.left * (INT32_MAX : ℚ)) >>> (8 : Nat))).val
      ∧ peek d (idx + 1)
          = some (toUInt8 (castInt32 (s.left * (INT32_MAX : ℚ)) >>> (16 : Nat))).val
      ∧ peek d (idx + 2)
          = some (toUInt8 (castInt32 (s.left * (INT32_MAX : ℚ)) >>> (24 : Nat))).val
      ∧ decodeFrame { w with m_data := d } idx = some (some
          (((castInt32 (s.left * (INT32_MAX : ℚ)) - castInt32 (s.left * (INT32_MAX : ℚ)) % 256
              : Int) : ℚ) / (INT32_MAX : ℚ), 0)) := by
  have a0 : idx < 4294967296 := by omega
  have a1 : idx + 1 < 4294967296 := by omega
  have b0 : idx < w.m_data.length := by omega
  have b1 : idx + 1 < w.m_data.length := by omega
  have el := decode24_encode (castInt32 (s.left * (INT32_MAX : ℚ))) (toInt32_range _).1
    (toInt32_range _).2
  simp only [encodeFrame, decodeFrame, hbd, hch]
  simp [poke_eq_some, peek_eq, a0, a1, h0, b0, b1, h1, List.getElem?_set, el]

theorem frame24_stereo (w : WaveFile) (idx : Nat) (s : AudioSample ℚ)
    (hbd : w.m_bitDepth = 24) (hch : w.m_nChannels = 2)
    (h0 : idx + 5 < 4294967296) (h1 : idx + 5 < w.m_data.length) :
    ∃ d, encodeFrame w idx s = some (some d)
      ∧ peek d idx = some (toUInt8 (castInt32 (s.left * (INT32_MAX : ℚ)) >>> (8 : Nat))).val
      ∧ peek d (idx + 1)
          = some (toUInt8 (castInt32 (s.left * (INT32_MAX : ℚ)) >>> (16 : Nat))).val
      ∧ peek d (idx + 2)
          = some (toUInt8 (castInt32 (s.left * (INT32_MAX : ℚ)) >>> (24 : Nat))).val
      ∧ peek d (idx + 3)
          = some (toUInt8 (castInt32 (s.right * (INT32_MAX : ℚ)) >>> (8 : Nat))).val
      ∧ peek d (idx + 4)
          = some (toUInt8 (castInt32 (s.right * (INT32_MAX : ℚ)) >>> (16 : Nat))).val
      ∧ peek d (idx + 5)
          = some (toUInt8 (castInt32 (s.right * (INT32_MAX : ℚ)) >>> (24 : Nat))).val
      ∧ decodeFrame { w with m_data := d } idx = some (some
          (((castInt32 (s.left * (INT32_MAX : ℚ)) - castInt32 (s.left * (INT32_MAX : ℚ)) % 256
              : Int) : ℚ) / (INT32_MAX : ℚ),
           ((castInt32 (s.right * (INT32_MAX : ℚ)) - castInt32 (s.right * (INT32_MAX : ℚ)) % 256
              : Int) : ℚ) / (INT32_MAX : ℚ))) := by
  have a0 : idx < 4294967296 := by omega
  have a1 : idx + 1 < 4294967296 := by omega
  have a2 : idx + 2 < 4294967296 := by omega
  have a3 : idx + 3 < 4294967296 := by omega
  have a4 : idx + 4 < 4294967296 := by omega
  have b0 : idx < w.m_data.length := by omega
  have b1 : idx + 1 < w.m_data.length := by omega
  have b2 : idx + 2 < w.m_data.length := by omega
  have b3 : idx + 3 < w.m_data.length := by omega
  have b4 : idx + 4 < w.m_data.length := by omega
  have el := decode24_encode (castInt32 (s.left * (INT32_MAX : ℚ))) (toInt32_range _).1
    (toInt32_range _).2
  have er := decode24_encode (castInt32 (s.right * (INT32_MAX : ℚ))) (toInt32_range _).1
    (toInt32_range _).2
  simp only [encodeFrame, decodeFrame, hbd, hch]
  simp [poke_eq_some, peek_eq, a0, a1, a2, a3, a4, h0, b0, b1, b2, b3, b4, h1,
    List.getElem?_set, el, er]

theorem getElem_of_peek (d : List Byte) (k n : Nat) (h32 : k < 4294967296)
    (h : peek d k = some n) : (d[k]?).map (fun b => ((b.val : Nat) : Int)) = some (n : Int) := by
  rw [peek_eq _ _ h32] at h
  cases hk : d[k]? with
  | none => rw [hk] at h; simp at h
  | some b =>
    rw [hk] at h
    simp only [Option.map_some', Option.some.injEq] at h ⊢
    rw [h]

theorem toUInt8_shift8_nat (v : Int) :
    (toUInt8 (v >>> (8 : Nat))).val = (v / 256 % 256).toNat := by
  have := toUInt8_shift8 v
  omega

theorem toUInt8_shift16_nat (v : Int) :
    (toUInt8 (v >>> (16 : Nat))).val = (v / 65536 % 256).toNat := by
  have := toUInt8_shift16 v
  omega

theorem toUInt8_shift24_nat (v : Int) :
    (toUInt8 (v >>> (24 : Nat))).val = (v / 16777216 % 256).toNat := by
  have := toUInt8_shift24 v
  omega

/-- The `int32_t` that getSample assembles from bits 8 to 31 of `v` is `v` with
its lowest eight bits cleared. -/
theorem decode24_bits (v : Int) (h1 : -2147483648 ≤ v) (h2 : v < 2147483648) :
    decode24 (v / 256 % 256).toNat (v / 65536 % 256).toNat (v / 16777216 % 256).toNat
      = v - v % 256 := by
  rw [← toUInt8_shift8_nat, ← toUInt8_shift16_nat, ← toUInt8_shift24_nat]
  exact decode24_encode v h1 h2

/-- C5: in a 24-bit container, for a frame index below frameCount and scaled
channel values `vl = trunc (left * 2147483647)` and `vr = trunc (right * 2147483647)`
that fit 32 signed bits, setSample stores bits 8-15, 16-23 and 24-31 of `vl` in
the frame's first three bytes (and those of `vr` in the next three when there
are two channels); the three bytes decode to `vl` with its lowest eight bits
cleared, and getSample on the written frame returns that value over 2147483647. -/
theorem setSample_getSample_24 (w : WaveFile) (i : Nat) (s : AudioSample ℚ) (vl vr : Int)
    (hbd : w.m_bitDepth = 24) (hch : w.m_nChannels = 1 ∨ w.m_nChannels = 2)
    (hi : i < w.m_length)
    (hlen : w.m_data.length = w.m_length * w.m_nChannels * (w.m_bitDepth / 8))
    (h32 : w.m_data.length ≤ 4294967296)
    (hvl : vl = trunc (s.left * 2147483647)) (hvr : vr = trunc (s.right * 2147483647))
    (hl : -2147483648 ≤ vl ∧ vl < 2147483648) (hr : -2147483648 ≤ vr ∧ vr < 2147483648) :
    ∃ v, setSample w i s = some v
      ∧ (v.m_data[i * w.m_nChannels * 3]?).map (fun b => ((b.val : Nat) : Int))
          = some (vl / 256 % 256)
      ∧ (v.m_data[i * w.m_nChannels * 3 + 1]?).map (fun b => ((b.val : Nat) : Int))
          = some (vl / 65536 % 256)
      ∧ (v.m_data[i * w.m_nChannels * 3 + 2]?).map (fun b => ((b.val : Nat) : Int))
          = some (vl / 16777216 % 256)
      ∧ decode24 (vl / 256 % 256).toNat (vl / 65536 % 256).toNat (vl / 16777216 % 256).toNat
          = vl - vl % 256
      ∧ (w.m_nChannels = 2 →
          (v.m_data[i * w.m_nChannels * 3 + 3]?).map (fun b => ((b.val : Nat) : Int))
            = some (vr / 256 % 256)
          ∧ (v.m_data[i * w.m_nChannels * 3 + 4]?).map (fun b => ((b.val : Nat) : Int))
            = some (vr / 65536 % 256)
          ∧ (v.m_data[i * w.m_nChannels * 3 + 5]?).map (fun b => ((b.val : Nat) : Int))
            = some (vr / 16777216 % 256)
          ∧ decode24 (vr / 256 % 256).toNat (vr / 65536 % 256).toNat (vr / 16777216 % 256).toNat
            = vr - vr % 256)
      ∧ getSample v i = some (AudioSample.stereo (((vl - vl % 256 : Int) : ℚ) / 2147483647)
          (if w.m_nChannels = 2 then ((vr - vr % 256 : Int) : ℚ) / 2147483647 else 0)) := by
  have eM : (INT32_MAX : ℚ) = 2147483647 := by norm_num [INT32_MAX]
  have cl : castInt32 (s.left * (INT32_MAX : ℚ)) = vl := by
    rw [castInt32, eM, ← hvl]; exact toInt32_of_range vl hl.1 hl.2
  have cr : castInt32 (s.right * (INT32_MAX : ℚ)) = vr := by
    rw [castInt32, eM, ← hvr]; exact toInt32_of_range vr hr.1 hr.2
  have k8 : ∀ x : Int, (((x / 256 % 256).toNat : Nat) : Int) = x / 256 % 256 := by
    intro x; omega
  have k16 : ∀ x : Int, (((x / 65536 % 256).toNat : Nat) : Int) = x / 65536 % 256 := by
    intro x; omega
  have k24 : ∀ x : Int, (((x / 16777216 % 256).toNat : Nat) : Int) = x / 16777216 % 256 := by
    intro x; omega
  rcases hch with hch | hch
  · rw [hbd, hch] at hlen
    have hidx : frameIndex w i = i * 1 * 3 := by
      simp only [frameIndex, hbd, hch]
      exact u32_of_lt (by omega)
    obtain ⟨d, he, p0, p1, p2, hd⟩ := frame24_mono w (i * 1 * 3) s hbd hch (by omega) (by omega)
    rw [cl, toUInt8_shift8_nat] at p0
    rw [cl, toUInt8_shift16_nat] at p1
    rw [cl, toUInt8_shift24_nat] at p2
    rw [cl, eM] at hd
    rw [← hidx] at he hd
    have g0 := getElem_of_peek d _ _ (by omega) p0
    have g1 := getElem_of_peek d _ _ (by omega) p1
    have g2 := getElem_of_peek d _ _ (by omega) p2
    rw [k8] at g0
    rw [k16] at g1
    rw [k24] at g2
    refine ⟨_, setSample_of_encodeFrame w i s d hi.le he, ?_, ?_, ?_, decode24_bits vl hl.1 hl.2,
      ?_, ?_⟩
    · rw [hch]; exact g0
    · rw [hch]; exact g1
    · rw [hch]; exact g2
    · intro h2; omega
    · have := getSample_of_decodeFrame { w with m_data := d } i _ hi.le hd
      rw [this, if_neg (by omega)]
  · rw [hbd, hch] at hlen
    have hidx : frameIndex w i = i * 2 * 3 := by
      simp only [frameIndex, hbd, hch]
      exact u32_of_lt (by omega)
    obtain ⟨d, he, p0, p1, p2, p3, p4, p5, hd⟩ :=
      frame24_stereo w (i * 2 * 3) s hbd hch (by omega) (by omega)
    rw [cl, toUInt8_shift8_nat] at p0
    rw [cl, toUInt8_shift16_nat] at p1
    rw [cl, toUInt8_shift24_nat] at p2
    rw [cr, toUInt8_shift8_nat] at p3
    rw [cr, toUInt8_shift16_nat] at p4
    rw [cr, toUInt8_shift24_nat] at p5
    rw [cl, cr, eM] at hd
    rw [← hidx] at he hd
    have g0 := getElem_of_peek d _ _ (by omega) p0
    have g1 := getElem_of_peek d _ _ (by omega) p1
    have g2 := getElem_of_peek d _ _ (by omega) p2
    have g3 := getElem_of_peek d _ _ (by omega) p3
    have g4 := getElem_of_peek d _ _ (by omega) p4
    have g5 := getElem_of_peek d _ _ (by omega) p5
    rw [k8] at g0 g3
    rw [k16] at g1 g4
    rw [k24] at g2 g5
    refine ⟨_, setSample_of_encodeFrame w i s d hi.le he, ?_, ?_, ?_, decode24_bits vl hl.1 hl.2,
      ?_, ?_⟩
    · rw [hch]; exact g0
    · rw [hch]; exact g1
    · rw [hch]; exact g2
    · intro _
      rw [hch]
      exact ⟨g3, g4, g5, decode24_bits vr hr.1 hr.2⟩
    · have := getSample_of_decodeFrame { w with m_data := d } i _ hi.le hd
      rw [this, if_pos hch]

/-- An instance of the 24-bit layout: frame 1 of a fresh two-frame stereo container,
with the sample (1/2, -1/3). -/
theorem setSample_getSample_24_witness :
    (create 2 44100 2 24).m_bitDepth = 24
    ∧ 1 < (create 2 44100 2 24).m_length
    ∧ (1073741823 : Int) = trunc ((1 / 2 : ℚ) * 2147483647)
    ∧ (-715827882 : Int) = trunc ((-1 / 3 : ℚ) * 2147483647)
    ∧ ∃ v, setSample (create 2 44100 2 24) 1 { left := 1 / 2, right := -1 / 3 } = some v
      ∧ (v.m_data[1 * (create 2 44100 2 24).m_nChannels * 3]?).map
            (fun b => ((b.val : Nat) : Int)) = some ((1073741823 : Int) / 256 % 256)
      ∧ (v.m_data[1 * (create 2 44100 2 24).m_nChannels * 3 + 1]?).map
            (fun b => ((b.val : Nat) : Int)) = some ((1073741823 : Int) / 65536 % 256)
      ∧ (v.m_data[1 * (create 2 44100 2 24).m_nChannels * 3 + 2]?).map
            (fun b => ((b.val : Nat) : Int)) = some ((1073741823 : Int) / 16777216 % 256)
      ∧ decode24 ((1073741823 : Int) / 256 % 256).toNat ((1073741823 : Int) / 65536 % 256).toNat
            ((1073741823 : Int) / 16777216 % 256).toNat
          = (1073741823 : Int) - 1073741823 % 256
      ∧ ((create 2 44100 2 24).m_nChannels = 2 →
          (v.m_data[1 * (create 2 44100 2 24).m_nChannels * 3 + 3]?).map
              (fun b => ((b.val : Nat) : Int)) = some ((-715827882 : Int) / 256 % 256)
          ∧ (v.m_data[1 * (create 2 44100 2 24).m_nChannels * 3 + 4]?).map
              (fun b => ((b.val : Nat) : Int)) = some ((-715827882 : Int) / 65536 % 256)
          ∧ (v.m_data[1 * (create 2 44100 2 24).m_nChannels * 3 + 5]?).map
              (fun b => ((b.val : Nat) : Int)) = some ((-715827882 : Int) / 16777216 % 256)
          ∧ decode24 ((-715827882 : Int) / 256 % 256).toNat
              ((-715827882 : Int) / 65536 % 256).toNat ((-715827882 : Int) / 16777216 % 256).toNat
            = (-715827882 : Int) - (-715827882) % 256)
      ∧ getSample v 1 = some (AudioSample.stereo
          ((((1073741823 : Int) - 1073741823 % 256 : Int) : ℚ) / 2147483647)
          (if (create 2 44100 2 24).m_nChannels = 2
            then (((-715827882 : Int) - (-715827882) % 256 : Int) : ℚ) / 2147483647 else 0)) :=
  have hvl : (1073741823 : Int) = trunc ((1 / 2 : ℚ) * 2147483647) := by
    unfold trunc
    rw [if_pos (by norm_num), eq_comm, Int.floor_eq_iff]
    norm_num
  have hvr : (-715827882 : Int) = trunc ((-1 / 3 : ℚ) * 2147483647) := by
    unfold trunc
    rw [if_neg (by norm_num), eq_comm, Int.ceil_eq_iff]
    norm_num
  ⟨rfl, by decide, hvl, hvr,
    setSample_getSample_24 (create 2 44100 2 24) 1 { left := 1 / 2, right := -1 / 3 }
      1073741823 (-715827882) rfl (Or.inr rfl) (by decide) (by decide) (by decide) hvl hvr
      (by decide) (by decide)⟩

/-! ## The 8-bit layout -/

theorem frame8_mono (w : WaveFile) (idx : Nat) (s : AudioSample ℚ)
    (hbd : w.m_bitDepth = 8) (hch : w.m_nChannels = 1)
    (h0 : idx < 4294967296) (h1 : idx < w.m_data.length) :
    ∃ d, encodeFrame w idx s = some (some d)
      ∧ decodeFrame { w with m_data := d } idx = some (some
          ((((toUInt8 (castUInt8 (s.left * (UINT8_MAX : ℚ)))).val : Nat) : ℚ) / (UINT8_MAX : ℚ),
            0)) := by
  simp only [encodeFrame, decodeFrame, hbd, hch]
  simp [poke_eq_some, peek_eq, h0, h1, List.getElem?_set]

theorem frame8_stereo (w : WaveFile) (idx : Nat) (s : AudioSample ℚ)
    (hbd : w.m_bitDepth = 8) (hch : w.m_nChannels = 2)
    (h0 : idx + 1 < 4294967296) (h1 : idx + 1 < w.m_data.length) :
    ∃ d, encodeFrame w idx s = some (some d)
      ∧ decodeFrame { w with m_data := d } idx = some (some
          ((((toUInt8 (castUInt8 (s.left * (UINT8_MAX : ℚ)))).val : Nat) : ℚ) / (UINT8_MAX : ℚ),
           (((toUInt8 (castUInt8 (s.right * (UINT8_MAX : ℚ)))).val : Nat) : ℚ)
              / (UINT8_MAX : ℚ))) := by
  have a0 : idx < 4294967296 := by omega
  have b0 : idx < w.m_data.length := by omega
  simp only [encodeFrame, decodeFrame, hbd, hch]
  simp [poke_eq_some, peek_eq, a0, h0, b0, h1, List.getElem?_set]

theorem trunc_intCast (z : Int) : trunc (z : ℚ) = z := by
  unfold trunc
  split_ifs <;> simp

/-- C4, at an input where the claim fails: in a fresh 8-bit mono container of
one frame, writing the sample (-1, 0) at index 0 stores the byte 1, and reading
index 0 back gives 1/255 on the left channel, which is 256/255 away from -1. -/
theorem setSample_getSample_8_negative :
    ∃ v, setSample (create 1 44100 1 8) 0 { left := -1, right := 0 } = some v
      ∧ v.m_data = [1]
      ∧ getSample v 0 = some { left := 1 / 255, right := 0 }
      ∧ ¬ |(1 / 255 : ℚ) - (-1)| ≤ 1 / 255 := by
  have hc : castUInt8 ((-1 : ℚ) * (UINT8_MAX : ℚ)) = 1 := by
    have e : (-1 : ℚ) * (UINT8_MAX : ℚ) = ((-255 : Int) : ℚ) := by norm_num [UINT8_MAX]
    rw [castUInt8, e, trunc_intCast]
    decide
  obtain ⟨d, he, hd⟩ := frame8_mono (create 1 44100 1 8) 0 { left := -1, right := 0 } rfl rfl
    (by decide) (by decide)
  have h1 : encodeFrame (create 1 44100 1 8) 0 { left := -1, right := 0 } = some (some [1]) := by
    have hbd : (create 1 44100 1 8).m_bitDepth = 8 := rfl
    have hch : (create 1 44100 1 8).m_nChannels = 1 := rfl
    have hz : (create 1 44100 1 8).m_data = [0] := by decide
    simp only [encodeFrame, hbd, hch, hz, hc]
    decide
  have hd1 : d = [1] := by
    rw [h1] at he
    simp only [Option.some.injEq] at he
    exact he.symm
  subst hd1
  have e255 : (UINT8_MAX : ℚ) = 255 := by norm_num [UINT8_MAX]
  have e1 : (toUInt8 1).val = 1 := by decide
  rw [hc, e1, e255] at hd
  refine ⟨_, setSample_of_encodeFrame _ 0 _ _ (by decide) h1, rfl, ?_, ?_⟩
  · rw [getSample_of_decodeFrame _ 0 _ (by decide) hd]
    have := AudioSample.stereo_of_inRange (((1 : Nat) : ℚ) / 255) 0 (by norm_num) (by norm_num)
      (by norm_num) (by norm_num)
    rw [this]
    norm_num
  · rw [abs_of_pos (by norm_num)]
    norm_num

theorem clamp_nonneg_of_nonneg (x : ℚ) (h : 0 ≤ x) : 0 ≤ clamp x (-1) 1 := by
  unfold clamp
  split_ifs <;> linarith

/-- Whatever an 8-bit payload holds, the left channel that getSample returns is
not negative: no stored byte stands for a negative sample. -/
theorem getSample_8_left_nonneg (w : WaveFile) (i : Nat) (r : AudioSample ℚ)
    (hbd : w.m_bitDepth = 8) (h : getSample w i = some r) : 0 ≤ r.left := by
  unfold getSample at h
  split_ifs at h with hi
  · simp only [Option.some.injEq] at h
    rw [← h]
    simp [AudioSample.empty]
  · simp only [decodeFrame, hbd] at h
    cases hp : peek w.m_data (frameIndex w i) with
    | none => simp [hp] at h
    | some b0 =>
      have hb : (0 : ℚ) ≤ (b0 : ℚ) / (UINT8_MAX : ℚ) := by
        apply div_nonneg <;> norm_num [UINT8_MAX]
      by_cases hc : w.m_nChannels = 2
      · cases hq : peek w.m_data (frameIndex w i + 1) with
        | none => simp [hp, hq, hc] at h
        | some b1 =>
          simp [hp, hq, hc] at h
          rw [← h]
          exact clamp_nonneg_of_nonneg _ hb
      · simp [hp, hc] at h
        rw [← h]
        exact clamp_nonneg_of_nonneg _ hb

/-- An 8-bit channel between 0 and 1, scaled, cast and divided back, stays
between 0 and 1 and moves by less than 1/255. -/
theorem channel8 (x : ℚ) (h1 : 0 ≤ x) (h2 : x ≤ 1) :
    -1 ≤ (((toUInt8 (castUInt8 (x * (UINT8_MAX : ℚ)))).val : Nat) : ℚ) / (UINT8_MAX : ℚ)
    ∧ (((toUInt8 (castUInt8 (x * (UINT8_MAX : ℚ)))).val : Nat) : ℚ) / (UINT8_MAX : ℚ) ≤ 1
    ∧ |(((toUInt8 (castUInt8 (x * (UINT8_MAX : ℚ)))).val : Nat) : ℚ) / (UINT8_MAX : ℚ) - x|
        < 1 / 255 := by
  have e : (UINT8_MAX : ℚ) = ((255 : Int) : ℚ) := by norm_num [UINT8_MAX]
  rw [e]
  have hb := trunc_bounds (x * ((255 : Int) : ℚ)) 255 (by push_cast; linarith)
    (by push_cast; linarith)
  have h0 : 0 ≤ trunc (x * ((255 : Int) : ℚ)) := by
    unfold trunc
    rw [if_pos (by positivity)]
    exact Int.floor_nonneg.mpr (by positivity)
  have q := quantize_inRange x 255 (by norm_num) (by linarith) h2
  have r := quantize_error x ((255 : Int) : ℚ) (by norm_num)
  have hv : (((toUInt8 (castUInt8 (x * ((255 : Int) : ℚ)))).val : Nat) : Int)
      = trunc (x * ((255 : Int) : ℚ)) := by
    rw [toUInt8_val, castUInt8]
    omega
  have hq : (((toUInt8 (castUInt8 (x * ((255 : Int) : ℚ)))).val : Nat) : ℚ)
      = ((trunc (x * ((255 : Int) : ℚ)) : Int) : ℚ) := by
    rw [← hv]
    simp
  rw [hq]
  refine ⟨q.1, q.2, ?_⟩
  norm_num at r ⊢
  exact r

/-- C4 (amended): in an 8-bit container with one or two channels whose payload
holds frameCount * channelCount * (bitDepth / 8) bytes, writing a sample with
both channels between 0 and 1 at an index below frameCount and reading that
index back gives a left channel at most 1/255 away from the written one, and
with two channels the same holds for the right channel. -/
theorem setSample_getSample_8_nonneg (w : WaveFile) (i : Nat) (s : AudioSample ℚ)
    (hbd : w.m_bitDepth = 8) (hch : w.m_nChannels = 1 ∨ w.m_nChannels = 2)
    (hi : i < w.m_length)
    (hlen : w.m_data.length = w.m_length * w.m_nChannels * (w.m_bitDepth / 8))
    (hl : 0 ≤ s.left ∧ s.left ≤ 1) (hr : 0 ≤ s.right ∧ s.right ≤ 1) :
    ∃ v r, setSample w i s = some v ∧ getSample v i = some r
      ∧ |r.left - s.left| ≤ 1 / 255
      ∧ (w.m_nChannels = 2 → |r.right - s.right| ≤ 1 / 255) := by
  have cl := channel8 s.left hl.1 hl.2
  have cr := channel8 s.right hr.1 hr.2
  rcases hch with hch | hch
  · have hidx : frameIndex w i = u32 (i * 1) := by
      simp only [frameIndex, hbd, hch]; congr 1; omega
    rw [hbd, hch] at hlen
    obtain ⟨d, he, hd⟩ := frame8_mono w (frameIndex w i) s hbd hch
      (by rw [hidx]; unfold u32; omega) (by rw [hidx]; unfold u32; omega)
    refine ⟨_, _, setSample_of_encodeFrame w i s d hi.le he,
      getSample_of_decodeFrame _ i _ hi.le hd, ?_, ?_⟩
    · rw [AudioSample.stereo_of_inRange _ _ cl.1 cl.2.1 (by norm_num) (by norm_num)]
      exact le_of_lt cl.2.2
    · intro h2; omega
  · have hidx : frameIndex w i = u32 (i * 2) := by
      simp only [frameIndex, hbd, hch]; congr 1; omega
    rw [hbd, hch] at hlen
    obtain ⟨d, he, hd⟩ := frame8_stereo w (frameIndex w i) s hbd hch
      (by rw [hidx]; unfold u32; omega) (by rw [hidx]; unfold u32; omega)
    refine ⟨_, _, setSample_of_encodeFrame w i s d hi.le he,
      getSample_of_decodeFrame _ i _ hi.le hd, ?_, ?_⟩
    · rw [AudioSample.stereo_of_inRange _ _ cl.1 cl.2.1 cr.1 cr.2.1]
      exact le_of_lt cl.2.2
    · intro _
      rw [AudioSample.stereo_of_inRange _ _ cl.1 cl.2.1 cr.1 cr.2.1]
      exact le_of_lt cr.2.2

/-- An instance of the 8-bit round trip: frame 1 of a fresh two-frame stereo container. -/
theorem setSample_getSample_8_nonneg_witness :
    (create 2 44100 2 8).m_bitDepth = 8
    ∧ 1 < (create 2 44100 2 8).m_length
    ∧ ((0 : ℚ) ≤ 1 / 2 ∧ (1 / 2 : ℚ) ≤ 1)
    ∧ ((0 : ℚ) ≤ 1 ∧ (1 : ℚ) ≤ 1)
    ∧ ∃ v r, setSample (create 2 44100 2 8) 1 { left := 1 / 2, right := 1 } = some v
        ∧ getSample v 1 = some r
        ∧ |r.left - 1 / 2| ≤ 1 / 255
        ∧ ((create 2 44100 2 8).m_nChannels = 2 → |r.right - 1| ≤ 1 / 255) :=
  ⟨rfl, by decide, by norm_num, by norm_num,
    setSample_getSample_8_nonneg (create 2 44100 2 8) 1 { left := 1 / 2, right := 1 } rfl
      (Or.inr rfl) (by decide) (by decide) (by norm_num) (by norm_num)⟩

end WaveFile

/-! ## The input stream on a file with a known layout -/

namespace IfStream

theorem read_block (s : IfStream) (front blk rest : List Byte) (n : Nat)
    (hg : s.good = true) (hc : s.content = front ++ blk ++ rest) (hp : s.pos = front.length)
    (hn : blk.length = n) :
    s.read n = ({ s with pos := s.pos + n }, blk) := by
  have hgot : (s.content.drop s.pos).take n = blk := by
    rw [hc, hp, List.append_assoc, List.drop_left, ← hn, List.take_left]
  unfold read
  rw [if_pos hg]
  simp only [hgot, hn, lt_irrefl, if_false]

theorem ignore_at_delim (s : IfStream) (front rest : List Byte) (delim : Byte)
    (hg : s.good = true) (hc : s.content = front ++ delim :: rest) (hp : s.pos = front.length) :
    s.ignore delim = { s with pos := s.pos + 1 } := by
  unfold ignore
  rw [if_pos hg, hc, hp, List.drop_left]
  simp [ignoreCount]

end IfStream

namespace WaveFile

/-- One iteration of the scan that finds its header at the current position. -/
theorem scan_at_header {H : Type} (delim : Byte) (size : Nat) (store : H → List Byte → H)
    (ident : H → Word) (word : Word) (fuel : Nat) (s : IfStream) (h : H)
    (front blk rest : List Byte) (tl : List Byte)
    (hg : s.good = true) (hc : s.content = front ++ blk ++ rest) (hp : s.pos = front.length)
    (hn : blk.length = size) (hb : blk = delim :: tl)
    (hw : wordCompare (ident (store h blk)) word = true) :
    scan delim size store ident word (fuel + 1) s h
      = Scan.found { s with pos := s.pos + size } (store h blk) := by
  have hc2 : s.content = front ++ delim :: (tl ++ rest) := by
    rw [hc, hb]; simp
  have h1 := IfStream.ignore_at_delim s front (tl ++ rest) delim hg hc2 hp
  have h3 := IfStream.read_block s front blk rest size hg hc hp hn
  obtain ⟨content, pos, eofbit, failbit⟩ := s
  have hgood : eofbit = false ∧ failbit = false := by
    simpa [IfStream.good] using hg
  obtain ⟨he, hf⟩ := hgood
  subst he hf
  have h2 : ({ content := content, pos := pos + 1, eofbit := false, failbit := false }
      : IfStream).seekBack
      = { content := content, pos := pos, eofbit := false, failbit := false } := by
    simp [IfStream.seekBack]
  simp only [scan, h1, IfStream.eof, h2, h3, hw]
  simp

/-! ## Header structs and their byte images -/

theorem rd32_le32 (n : Nat) :
    rd32 (byteOf n) (byteOf (n / 256)) (byteOf (n / 65536)) (byteOf (n / 16777216))
      = n % 4294967296 := by
  simp only [rd32, byteOf]
  omega

theorem rd16_le16 (n : Nat) : rd16 (byteOf n) (byteOf (n / 256)) = n % 65536 := by
  simp only [rd16, byteOf]
  omega

theorem riff_toBytes_length (h : RiffHeader) : h.toBytes.length = 12 := rfl

theorem format_toBytes_length (h : WaveFormatHeader) : h.toBytes.length = 24 := rfl

theorem data_toBytes_length (h : WaveDataHeader) : h.toBytes.length = 8 := rfl

theorem riff_ofBytes_toBytes (h : RiffHeader) (hs : h.chunkSize < 4294967296) :
    RiffHeader.ofBytes h.toBytes = h := by
  have e := rd32_le32 h.chunkSize
  rw [Nat.mod_eq_of_lt hs] at e
  cases h
  simp only [RiffHeader.ofBytes, RiffHeader.toBytes, Word.toBytes, le32, List.cons_append,
    List.nil_append, List.getD_cons_succ, List.getD_cons_zero] at e ⊢
  simp [e]

theorem format_ofBytes_toBytes (h : WaveFormatHeader)
    (h1 : h.subChunk1Size < 4294967296) (h2 : h.audioFormat < 65536)
    (h3 : h.numChannels < 65536) (h4 : h.sampleRate < 4294967296)
    (h5 : h.byteRate < 4294967296) (h6 : h.blockAlign < 65536)
    (h7 : h.bitsPerSample < 65536) :
    WaveFormatHeader.ofBytes h.toBytes = h := by
  have e1 := rd32_le32 h.subChunk1Size
  have e2 := rd16_le16 h.audioFormat
  have e3 := rd16_le16 h.numChannels
  have e4 := rd32_le32 h.sampleRate
  have e5 := rd32_le32 h.byteRate
  have e6 := rd16_le16 h.blockAlign
  have e7 := rd16_le16 h.bitsPerSample
  rw [Nat.mod_eq_of_lt h1] at e1
  rw [Nat.mod_eq_of_lt h2] at e2
  rw [Nat.mod_eq_of_lt h3] at e3
  rw [Nat.mod_eq_of_lt h4] at e4
  rw [Nat.mod_eq_of_lt h5] at e5
  rw [Nat.mod_eq_of_lt h6] at e6
  rw [Nat.mod_eq_of_lt h7] at e7
  cases h
  simp only [WaveFormatHeader.ofBytes, WaveFormatHeader.toBytes, Word.toBytes, le32, le16,
    List.cons_append, List.nil_append, List.getD_cons_succ, List.getD_cons_zero]
    at e1 e2 e3 e4 e5 e6 e7 ⊢
  simp [e1, e2, e3, e4, e5, e6, e7]

theorem data_ofBytes_toBytes (h : WaveDataHeader) (hs : h.subChunk2Size < 4294967296) :
    WaveDataHeader.ofBytes h.toBytes = h := by
  have e := rd32_le32 h.subChunk2Size
  rw [Nat.mod_eq_of_lt hs] at e
  cases h
  simp only [WaveDataHeader.ofBytes, WaveDataHeader.toBytes, Word.toBytes, le32,
    List.cons_append, List.nil_append, List.getD_cons_succ, List.getD_cons_zero] at e ⊢
  simp [e]

theorem riff_store_full (h : RiffHeader) (got : List Byte) (hn : got.length = 12) :
    h.store got = RiffHeader.ofBytes got := by
  unfold RiffHeader.store
  rw [List.drop_of_length_le (by rw [riff_toBytes_length, hn]), List.append_nil]

theorem format_store_full (h : WaveFormatHeader) (got : List Byte) (hn : got.length = 24) :
    h.store got = WaveFormatHeader.ofBytes got := by
  unfold WaveFormatHeader.store
  rw [List.drop_of_length_le (by rw [format_toBytes_length, hn]), List.append_nil]

theorem data_store_full (h : WaveDataHeader) (got : List Byte) (hn : got.length = 8) :
    h.store got = WaveDataHeader.ofBytes got := by
  unfold WaveDataHeader.store
  rw [List.drop_of_length_le (by rw [data_toBytes_length, hn]), List.append_nil]

/-! ## write followed by read -/

theorem write_eq (c : WaveFile) (hlen : c.m_data.length = c.m_dataHeader.subChunk2Size) :
    write c = some (c.m_riffHeader.toBytes ++ c.m_formatHeader.toBytes
      ++ c.m_dataHeader.toBytes ++ c.m_data) := by
  unfold write
  rw [if_pos (le_of_eq hlen.symm), ← hlen, List.take_length]

theorem wordCompare_self (t : Word) : wordCompare t t = true := by
  simp [wordCompare]

/-- read on a file made of three well-formed header images and exactly the
declared payload: it returns true, whatever the object held before. -/
theorem read_of_layout (w0 c : WaveFile) (file : List Byte)
    (hfile : file = c.m_riffHeader.toBytes ++ c.m_formatHeader.toBytes
      ++ c.m_dataHeader.toBytes ++ c.m_data)
    (hlen : c.m_data.length = c.m_dataHeader.subChunk2Size)
    (hr : HeadersInRange c) (ht : StandardTags c)
    (hpcm : c.m_formatHeader.audioFormat = 1)
    (hch : c.m_formatHeader.numChannels ≠ 0) (hbps : c.m_formatHeader.bitsPerSample / 8 ≠ 0) :
    ∃ v, read w0 file = ReadResult.ok v
      ∧ v.m_data = c.m_data
      ∧ v.m_dataHeader = c.m_dataHeader
      ∧ v.m_length = c.m_dataHeader.subChunk2Size / c.m_formatHeader.numChannels
          / (c.m_formatHeader.bitsPerSample / 8)
      ∧ v.m_sampleRate = c.m_formatHeader.sampleRate
      ∧ v.m_nChannels = c.m_formatHeader.numChannels
      ∧ v.m_bitDepth = c.m_formatHeader.bitsPerSample := by
  obtain ⟨r1, r2, r3, r4, r5, r6, r7, r8, r9⟩ := hr
  obtain ⟨t1, t2, t3⟩ := ht
  -- the first read fills the RIFF struct
  have s1 := IfStream.read_block (IfStream.ofFile file) [] c.m_riffHeader.toBytes
    (c.m_formatHeader.toBytes ++ c.m_dataHeader.toBytes ++ c.m_data) 12 rfl
    (by simp [IfStream.ofFile, hfile]) rfl rfl
  have e1 : w0.m_riffHeader.store c.m_riffHeader.toBytes = c.m_riffHeader := by
    rw [riff_store_full _ _ (riff_toBytes_length _), riff_ofBytes_toBytes _ r1]
  -- the format scan stops at offset 12
  have hF : c.m_formatHeader.toBytes = 102 :: c.m_formatHeader.toBytes.tail := by
    simp [WaveFormatHeader.toBytes, Word.toBytes, t2, FMT]
  have e2 : w0.m_formatHeader.store c.m_formatHeader.toBytes = c.m_formatHeader := by
    rw [format_store_full _ _ (format_toBytes_length _), format_ofBytes_toBytes _ r2 r3 r4 r5 r6 r7 r8]
  have s2 := scan_at_header 102 24 WaveFormatHeader.store WaveFormatHeader.subChunk1ID FMT
    (file.length + 1)
    { content := file, pos := 12, eofbit := false, failbit := false } w0.m_formatHeader
    c.m_riffHeader.toBytes c.m_formatHeader.toBytes (c.m_dataHeader.toBytes ++ c.m_data)
    c.m_formatHeader.toBytes.tail rfl (by simp [hfile]) rfl rfl hF
    (by rw [e2, t2]; exact wordCompare_self FMT)
  -- the data scan stops at offset 36
  have hD : c.m_dataHeader.toBytes = 100 :: c.m_dataHeader.toBytes.tail := by
    simp [WaveDataHeader.toBytes, Word.toBytes, t3, DATA]
  have e3 : w0.m_dataHeader.store c.m_dataHeader.toBytes = c.m_dataHeader := by
    rw [data_store_full _ _ (data_toBytes_length _), data_ofBytes_toBytes _ r9]
  have s3 := scan_at_header 100 8 WaveDataHeader.store WaveDataHeader.subChunk2ID DATA
    (file.length + 1)
    { content := file, pos := 36, eofbit := false, failbit := false } w0.m_dataHeader
    (c.m_riffHeader.toBytes ++ c.m_formatHeader.toBytes) c.m_dataHeader.toBytes c.m_data
    c.m_dataHeader.toBytes.tail rfl (by simp [hfile]) rfl rfl hD
    (by rw [e3, t3]; exact wordCompare_self DATA)
  -- the payload read delivers every declared byte
  have s4 := IfStream.read_block
    { content := file, pos := 44, eofbit := false, failbit := false }
    (c.m_riffHeader.toBytes ++ c.m_formatHeader.toBytes ++ c.m_dataHeader.toBytes) c.m_data []
    c.m_dataHeader.subChunk2Size rfl (by simp [hfile]) rfl hlen
  rw [e2] at s2
  rw [e3] at s3
  simp only [IfStream.ofFile, Nat.zero_add] at s1
  simp only [Nat.reduceAdd] at s2 s3
  have hw : wordCompare c.m_riffHeader.chunkID RIFF = true := by
    rw [t1]; exact wordCompare_self RIFF
  simp only [read, sizeofRiffHeader, sizeofWaveFormatHeader, sizeofWaveDataHeader,
    IfStream.ofFile, s1, e1, hw, s2, s3, s4, hpcm, IfStream.fail]
  by_cases h24 : c.m_formatHeader.subChunk1Size = 24
  · simp [hlen, hch, hbps, h24]
  · simp [hlen, hch, hbps, h24]

/-! ## What setSample leaves alone -/

theorem poke_length (d e : List Byte) (i : Nat) (x : Int) (h : poke d i x = some e) :
    e.length = d.length := by
  unfold poke at h
  split_ifs at h
  simp only [Option.some.injEq] at h
  rw [← h, List.length_set]

theorem poke_bind_length (d e : List Byte) (i : Nat) (x : Int)
    (f : List Byte → Option (List Byte))
    (hf : ∀ a b, f a = some b → b.length = a.length)
    (h : (poke d i x).bind f = some e) : e.length = d.length := by
  cases hp : poke d i x with
  | none => rw [hp] at h; simp at h
  | some a =>
    rw [hp] at h
    rw [hf a e h, poke_length d a i x hp]

theorem encodeFrame_length (w : WaveFile) (idx : Nat) (s : AudioSample ℚ) (d : List Byte)
    (h : encodeFrame w idx s = some (some d)) : d.length = w.m_data.length := by
  unfold encodeFrame at h
  split_ifs at h <;> simp only [Option.some.injEq, reduceCtorEq] at h <;>
    repeat
      first
      | exact poke_length _ _ _ _ h
      | (simp only [Option.pure_def, Option.some.injEq] at h; rw [h])
      | (refine poke_bind_length _ _ _ _ _ ?_ h; clear h; intro _ _ h)

/-- setSample changes nothing but payload bytes, and not the payload's size. -/
theorem setSample_frame (w v : WaveFile) (i : Nat) (s : AudioSample ℚ)
    (h : setSample w i s = some v) :
    v.m_riffHeader = w.m_riffHeader ∧ v.m_formatHeader = w.m_formatHeader
    ∧ v.m_dataHeader = w.m_dataHeader ∧ v.m_length = w.m_length
    ∧ v.m_sampleRate = w.m_sampleRate ∧ v.m_nChannels = w.m_nChannels
    ∧ v.m_bitDepth = w.m_bitDepth ∧ v.m_data.length = w.m_data.length := by
  unfold setSample at h
  split_ifs at h
  · simp only [Option.some.injEq] at h
    subst h
    simp
  · cases he : encodeFrame w (frameIndex w i) s with
    | none =>
      rw [he] at h
      simp only [Option.some.injEq] at h
      subst h
      simp
    | some r =>
      rw [he] at h
      cases r with
      | none => simp at h
      | some d =>
        simp only [Option.map_some', Option.some.injEq] at h
        subst h
        simp [encodeFrame_length w _ s d he]

theorem setSamples_frame (ops : List (Nat × AudioSample ℚ)) (w v : WaveFile)
    (h : setSamples w ops = some v) :
    v.m_riffHeader = w.m_riffHeader ∧ v.m_formatHeader = w.m_formatHeader
    ∧ v.m_dataHeader = w.m_dataHeader ∧ v.m_length = w.m_length
    ∧ v.m_sampleRate = w.m_sampleRate ∧ v.m_nChannels = w.m_nChannels
    ∧ v.m_bitDepth = w.m_bitDepth ∧ v.m_data.length = w.m_data.length := by
  induction ops generalizing w with
  | nil =>
    simp only [setSamples, Option.some.injEq] at h
    subst h
    simp
  | cons c cs ih =>
    simp only [setSamples] at h
    cases hs : setSample w c.1 c.2 with
    | none => rw [hs] at h; simp at h
    | some u =>
      rw [hs] at h
      simp only [Option.some_bind] at h
      obtain ⟨a1, a2, a3, a4, a5, a6, a7, a8⟩ := setSample_frame w u c.1 c.2 hs
      obtain ⟨b1, b2, b3, b4, b5, b6, b7, b8⟩ := ih u h
      exact ⟨b1.trans a1, b2.trans a2, b3.trans a3, b4.trans a4, b5.trans a5, b6.trans a6,
        b7.trans a7, b8.trans a8⟩

/-! ## The serialisation round trip -/

/-- C1, at an input where the claim fails: a container constructed with 2^31
frames of two 16-bit channels serialises to 44 bytes, and parsing them gives
frameCount 0, not 2^31. -/
theorem read_write_frameCount_wraps :
    ∃ file v, write (create 2147483648 44100 2 16) = some file
      ∧ read init file = ReadResult.ok v
      ∧ (create 2147483648 44100 2 16).m_length = 2147483648
      ∧ v.m_length = 0 :=
  ⟨_, _, rfl, rfl, rfl, rfl⟩

theorem create_headersInRange (length sampleRate nChannels bitDepth : Nat)
    (hsr : sampleRate < 4294967296) (hch : nChannels < 65536) (hbd : bitDepth < 65536) :
    HeadersInRange (create length sampleRate nChannels bitDepth) := by
  simp only [HeadersInRange, create, setHeaders, init, WaveFormatHeader.init, intToU32, u32, u16,
    sizeofWaveFormatHeader]
  omega

theorem create_standardTags (length sampleRate nChannels bitDepth : Nat) :
    StandardTags (create length sampleRate nChannels bitDepth) :=
  ⟨rfl, rfl, rfl⟩

/-- C1 (amended): a container freshly constructed with one or two channels, a
bit depth of 8, 16, 24 or 32 and a payload size frameCount * channelCount *
(bitDepth / 8) below 2^32, then modified by any sequence of setSample calls
whose writes stay inside the payload, serialises to bytes on which read
succeeds, whatever the reading object held before, and read reproduces
frameCount, sampleRate, channelCount, bitDepth and the payload bytes. -/
theorem read_write_roundtrip (w0 c : WaveFile) (length sampleRate nChannels bitDepth : Nat)
    (ops : List (Nat × AudioSample ℚ))
    (hsr : sampleRate < 4294967296)
    (hch : nChannels = 1 ∨ nChannels = 2)
    (hbd : bitDepth = 8 ∨ bitDepth = 16 ∨ bitDepth = 24 ∨ bitDepth = 32)
    (hfit : length * nChannels * (bitDepth / 8) < 4294967296)
    (hc : setSamples (create length sampleRate nChannels bitDepth) ops = some c) :
    ∃ file v, write c = some file ∧ read w0 file = ReadResult.ok v
      ∧ v.m_length = c.m_length ∧ v.m_sampleRate = c.m_sampleRate
      ∧ v.m_nChannels = c.m_nChannels ∧ v.m_bitDepth = c.m_bitDepth
      ∧ v.m_data = c.m_data := by
  obtain ⟨f1, f2, f3, f4, f5, f6, f7, f8⟩ := setSamples_frame ops _ c hc
  have hsub : c.m_dataHeader.subChunk2Size = length * nChannels * (bitDepth / 8) := by
    rw [f3]
    exact u32_of_lt hfit
  have hlen : c.m_data.length = c.m_dataHeader.subChunk2Size := by
    rw [f8, hsub]
    simp only [create, setHeaders, List.length_replicate]
    exact u32_of_lt hfit
  have hnc : c.m_formatHeader.numChannels = nChannels := by rw [f2]; rfl
  have hbp : c.m_formatHeader.bitsPerSample = bitDepth := by rw [f2]; rfl
  have hrate : c.m_formatHeader.sampleRate = sampleRate := by rw [f2]; rfl
  have hrange : HeadersInRange c := by
    have := create_headersInRange length sampleRate nChannels bitDepth hsr (by omega) (by omega)
    unfold HeadersInRange at this ⊢
    rw [f1, f2, f3]
    exact this
  have htags : StandardTags c := by
    have := create_standardTags length sampleRate nChannels bitDepth
    unfold StandardTags at this ⊢
    rw [f1, f2, f3]
    exact this
  obtain ⟨v, hv, d1, _, d3, d4, d5, d6⟩ := read_of_layout w0 c _ rfl hlen hrange htags
    (by rw [f2]; rfl) (by rw [hnc]; omega) (by rw [hbp]; omega)
  refine ⟨_, v, write_eq c hlen, hv, ?_, ?_, ?_, ?_, d1⟩
  · rw [d3, hsub, hnc, hbp, f4]
    have h1 : 0 < nChannels := by omega
    have h2 : 0 < bitDepth / 8 := by omega
    rw [Nat.mul_assoc, Nat.mul_comm nChannels, ← Nat.mul_assoc,
      Nat.mul_div_cancel _ h1, Nat.mul_div_cancel _ h2]
    rfl
  · rw [d4, hrate, f5]; rfl
  · rw [d5, hnc, f6]; rfl
  · rw [d6, hbp, f7]; rfl

/-- An instance of the serialisation round trip: a fresh two-frame 16-bit mono
container after one setSample call at frame 1. -/
theorem read_write_roundtrip_witness :
    (44100 < 4294967296)
    ∧ (2 * 1 * (16 / 8) < 4294967296)
    ∧ setSamples (create 2 44100 1 16) [(1, { left := 1, right := 0 })]
        = some { create 2 44100 1 16 with m_data := [0, 0, 255, 127] }
    ∧ ∃ file v, write { create 2 44100 1 16 with m_data := [0, 0, 255, 127] } = some file
      ∧ read init file = ReadResult.ok v
      ∧ v.m_length = ({ create 2 44100 1 16 with m_data := [0, 0, 255, 127] } : WaveFile).m_length
      ∧ v.m_sampleRate
          = ({ create 2 44100 1 16 with m_data := [0, 0, 255, 127] } : WaveFile).m_sampleRate
      ∧ v.m_nChannels
          = ({ create 2 44100 1 16 with m_data := [0, 0, 255, 127] } : WaveFile).m_nChannels
      ∧ v.m_bitDepth
          = ({ create 2 44100 1 16 with m_data := [0, 0, 255, 127] } : WaveFile).m_bitDepth
      ∧ v.m_data = ({ create 2 44100 1 16 with m_data := [0, 0, 255, 127] } : WaveFile).m_data :=
  have hcast : castInt16 ((1 : ℚ) * (INT16_MAX : ℚ)) = 32767 := by
    have e : (1 : ℚ) * (INT16_MAX : ℚ) = ((32767 : Int) : ℚ) := by norm_num [INT16_MAX]
    rw [castInt16, e, trunc_intCast]
    decide
  have hc : setSamples (create 2 44100 1 16) [(1, { left := 1, right := 0 })]
      = some { create 2 44100 1 16 with m_data := [0, 0, 255, 127] } := by
    have hbd : (create 2 44100 1 16).m_bitDepth = 16 := rfl
    have hch : (create 2 44100 1 16).m_nChannels = 1 := rfl
    have hl : (create 2 44100 1 16).m_length = 2 := rfl
    simp only [setSamples, setSample, encodeFrame, hbd, hch, hl, hcast]
    decide
  ⟨by decide, by decide, hc,
    read_write_roundtrip init _ 2 44100 1 16 [(1, { left := 1, right := 0 })] (by decide)
      (Or.inl rfl) (Or.inr (Or.inl rfl)) (by decide) hc⟩

/-! ## What a successful read establishes -/

theorem IfStream_read_length (s : IfStream) (n : Nat) (h : (s.read n).1.fail = false) :
    (s.read n).2.length = n := by
  unfold IfStream.read at *
  by_cases hg : s.good = true
  · simp only [hg, if_true] at h ⊢
    by_cases hl : ((s.content.drop s.pos).take n).length < n
    · simp only [hl, if_true, IfStream.fail] at h
      exact absurd h (by simp)
    · simp only [hl, if_false]
      have := List.length_take_le n (s.content.drop s.pos)
      omega
  · simp only [hg, if_false, IfStream.fail] at h
    exact absurd h (by simp)

/-- C9, at an input where the claim fails: a 16-bit mono file whose data header
declares 3 payload bytes parses successfully with frameCount 1, so the payload
has 3 bytes while frameCount * channelCount * (bitDepth / 8) is 2. -/
theorem read_odd_payload :
    ∃ v, read init
        [82, 73, 70, 70, 39, 0, 0, 0, 87, 65, 86, 69,
         102, 109, 116, 32, 16, 0, 0, 0, 1, 0, 1, 0, 68, 172, 0, 0, 136, 88, 1, 0, 2, 0, 16, 0,
         100, 97, 116, 97, 3, 0, 0, 0,
         1, 2, 3] = ReadResult.ok v
      ∧ v.m_data.length = 3
      ∧ v.m_length * v.m_nChannels * (v.m_bitDepth / 8) = 2 :=
  ⟨_, rfl, rfl, rfl⟩

/-- The facts that a `return true` of read establishes about the object. -/
theorem read_ok_inv (w0 v : WaveFile) (file : List Byte) (h : read w0 file = ReadResult.ok v) :
    v.m_data.length = v.m_dataHeader.subChunk2Size
    ∧ v.m_nChannels = v.m_formatHeader.numChannels
    ∧ v.m_bitDepth = v.m_formatHeader.bitsPerSample
    ∧ v.m_sampleRate = v.m_formatHeader.sampleRate
    ∧ v.m_nChannels ≠ 0 ∧ v.m_bitDepth / 8 ≠ 0
    ∧ v.m_length = v.m_dataHeader.subChunk2Size / v.m_nChannels / (v.m_bitDepth / 8) := by
  unfold read at h
  simp only at h
  repeat' (split at h)
  all_goals try (exact ReadResult.noConfusion h)
  all_goals
    rename_i hf h24 hz
    simp only [ReadResult.ok.injEq] at h
    have hl := IfStream_read_length _ _ (Bool.eq_false_iff.mpr hf)
    simp only [not_or] at hz
    subst h
    exact ⟨by simp [hl], rfl, rfl, rfl, hz.1, hz.2, rfl⟩

/-- C9 (amended): after a successful read the payload has exactly the
subChunk2Size bytes that the data header declares, channelCount and
bitDepth / 8 are not zero, frameCount is the integer quotient
subChunk2Size / channelCount / (bitDepth / 8), and therefore
frameCount * channelCount * (bitDepth / 8) is at most the payload length, with
equality exactly when channelCount * (bitDepth / 8) divides subChunk2Size. -/
theorem read_payload_length (w0 v : WaveFile) (file : List Byte)
    (h : read w0 file = ReadResult.ok v) :
    v.m_data.length = v.m_dataHeader.subChunk2Size
    ∧ v.m_nChannels ≠ 0 ∧ v.m_bitDepth / 8 ≠ 0
    ∧ v.m_length = v.m_dataHeader.subChunk2Size / v.m_nChannels / (v.m_bitDepth / 8)
    ∧ v.m_length * v.m_nChannels * (v.m_bitDepth / 8) ≤ v.m_data.length
    ∧ (v.m_length * v.m_nChannels * (v.m_bitDepth / 8) = v.m_data.length
        ↔ v.m_nChannels * (v.m_bitDepth / 8) ∣ v.m_dataHeader.subChunk2Size) := by
  obtain ⟨h1, _, _, _, h5, h6, h7⟩ := read_ok_inv w0 v file h
  have hq : v.m_length = v.m_dataHeader.subChunk2Size / (v.m_nChannels * (v.m_bitDepth / 8)) := by
    rw [h7, Nat.div_div_eq_div_mul]
  have hm : v.m_length * v.m_nChannels * (v.m_bitDepth / 8)
      = v.m_dataHeader.subChunk2Size / (v.m_nChannels * (v.m_bitDepth / 8))
          * (v.m_nChannels * (v.m_bitDepth / 8)) := by
    rw [hq, Nat.mul_assoc]
  refine ⟨h1, h5, h6, h7, ?_, ?_⟩
  · rw [hm, h1]
    exact Nat.div_mul_le_self _ _
  · rw [hm, h1]
    constructor
    · intro e
      exact Dvd.intro_left _ e
    · intro e
      exact Nat.div_mul_cancel e

/-- An instance of the payload-length facts: a 16-bit mono file with four payload bytes. -/
theorem read_payload_length_witness :
    read init
        [82, 73, 70, 70, 40, 0, 0, 0, 87, 65, 86, 69,
         102, 109, 116, 32, 16, 0, 0, 0, 1, 0, 1, 0, 68, 172, 0, 0, 136, 88, 1, 0, 2, 0, 16, 0,
         100, 97, 116, 97, 4, 0, 0, 0,
         1, 2, 3, 4]
      = ReadResult.ok { create 2 44100 1 16 with m_data := [1, 2, 3, 4] }
    ∧ ({ create 2 44100 1 16 with m_data := [1, 2, 3, 4] } : WaveFile).m_data.length
        = ({ create 2 44100 1 16 with m_data := [1, 2, 3, 4] } : WaveFile).m_dataHeader.subChunk2Size
    ∧ ({ create 2 44100 1 16 with m_data := [1, 2, 3, 4] } : WaveFile).m_length
          * ({ create 2 44100 1 16 with m_data := [1, 2, 3, 4] } : WaveFile).m_nChannels
          * (({ create 2 44100 1 16 with m_data := [1, 2, 3, 4] } : WaveFile).m_bitDepth / 8)
        ≤ ({ create 2 44100 1 16 with m_data := [1, 2, 3, 4] } : WaveFile).m_data.length :=
  have h : read init
        [82, 73, 70, 70, 40, 0, 0, 0, 87, 65, 86, 69,
         102, 109, 116, 32, 16, 0, 0, 0, 1, 0, 1, 0, 68, 172, 0, 0, 136, 88, 1, 0, 2, 0, 16, 0,
         100, 97, 116, 97, 4, 0, 0, 0,
         1, 2, 3, 4]
      = ReadResult.ok { create 2 44100 1 16 with m_data := [1, 2, 3, 4] } := by decide
  ⟨h, (read_payload_length init _ _ h).1, (read_payload_length init _ _ h).2.2.2.2.1⟩

/-! ## The layout that write produces -/

/-- C6, at an input where the claim fails: a file whose RIFF block carries the
form type "AVI " parses successfully, and serialising the parsed container
puts "AVI " at offset 8, not "WAVE". -/
theorem write_keeps_parsed_format :
    ∃ v out, read init
        [82, 73, 70, 70, 36, 0, 0, 0, 65, 86, 73, 32,
         102, 109, 116, 32, 16, 0, 0, 0, 1, 0, 1, 0, 68, 172, 0, 0, 136, 88, 1, 0, 2, 0, 16, 0,
         100, 97, 116, 97, 0, 0, 0, 0] = ReadResult.ok v
      ∧ write v = some out
      ∧ (out.drop 8).take 4 = [65, 86, 73, 32]
      ∧ (out.drop 8).take 4 ≠ WAVE.toBytes :=
  ⟨_, _, rfl, rfl, rfl, by decide⟩

/-- C6 (amended): for a container whose payload array holds the subChunk2Size
bytes that its data header declares, write emits the RIFF block (chunkID,
chunkSize as little-endian u32, format), the format block (subChunk1ID,
subChunk1Size, audioFormat, numChannels, sampleRate, byteRate, blockAlign,
bitsPerSample, little-endian, in that order), the data header (subChunk2ID,
subChunk2Size) and the payload, 44 + subChunk2Size bytes in all with the payload
at offset 44.  The identifier fields are emitted as stored: they are "RIFF",
"WAVE", "fmt " and "data" when the container comes from fresh construction
followed by setSample calls. -/
theorem write_layout (c : WaveFile) (hlen : c.m_data.length = c.m_dataHeader.subChunk2Size) :
    (∃ out, write c = some out
      ∧ out = c.m_riffHeader.chunkID.toBytes ++ le32 c.m_riffHeader.chunkSize
          ++ c.m_riffHeader.format.toBytes
          ++ (c.m_formatHeader.subChunk1ID.toBytes ++ le32 c.m_formatHeader.subChunk1Size
          ++ le16 c.m_formatHeader.audioFormat ++ le16 c.m_formatHeader.numChannels
          ++ le32 c.m_formatHeader.sampleRate ++ le32 c.m_formatHeader.byteRate
          ++ le16 c.m_formatHeader.blockAlign ++ le16 c.m_formatHeader.bitsPerSample)
          ++ (c.m_dataHeader.subChunk2ID.toBytes ++ le32 c.m_dataHeader.subChunk2Size)
          ++ c.m_data
      ∧ out.length = 44 + c.m_dataHeader.subChunk2Size
      ∧ out.drop 44 = c.m_data)
    ∧ ∀ (length sampleRate nChannels bitDepth : Nat) (ops : List (Nat × AudioSample ℚ)),
        setSamples (create length sampleRate nChannels bitDepth) ops = some c →
        c.m_riffHeader.chunkID = RIFF ∧ c.m_riffHeader.format = WAVE
        ∧ c.m_formatHeader.subChunk1ID = FMT ∧ c.m_dataHeader.subChunk2ID = DATA := by
  constructor
  · refine ⟨_, write_eq c hlen, rfl, ?_, ?_⟩
    · simp only [List.length_append, riff_toBytes_length, format_toBytes_length,
        data_toBytes_length, hlen]
    · rw [List.append_assoc, List.append_assoc]
      have : (c.m_riffHeader.toBytes ++ (c.m_formatHeader.toBytes
          ++ c.m_dataHeader.toBytes)).length = 44 := by
        simp only [List.length_append, riff_toBytes_length, format_toBytes_length,
          data_toBytes_length]
      rw [← List.append_assoc, ← List.append_assoc] 
      rw [List.append_assoc c.m_riffHeader.toBytes]
      rw [← this, List.drop_left]
  · intro length sampleRate nChannels bitDepth ops h
    obtain ⟨f1, f2, f3, _⟩ := setSamples_frame ops _ c h
    rw [f1, f2, f3]
    exact ⟨rfl, rfl, rfl, rfl⟩

/-- An instance of the layout: a fresh one-frame 8-bit mono container. -/
theorem write_layout_witness :
    (create 1 44100 1 8).m_data.length = (create 1 44100 1 8).m_dataHeader.subChunk2Size
    ∧ ∃ out, write (create 1 44100 1 8) = some out
      ∧ out = (create 1 44100 1 8).m_riffHeader.chunkID.toBytes
          ++ le32 (create 1 44100 1 8).m_riffHeader.chunkSize
          ++ (create 1 44100 1 8).m_riffHeader.format.toBytes
          ++ ((create 1 44100 1 8).m_formatHeader.subChunk1ID.toBytes
          ++ le32 (create 1 44100 1 8).m_formatHeader.subChunk1Size
          ++ le16 (create 1 44100 1 8).m_formatHeader.audioFormat
          ++ le16 (create 1 44100 1 8).m_formatHeader.numChannels
          ++ le32 (create 1 44100 1 8).m_formatHeader.sampleRate
          ++ le32 (create 1 44100 1 8).m_formatHeader.byteRate
          ++ le16 (create 1 44100 1 8).m_formatHeader.blockAlign
          ++ le16 (create 1 44100 1 8).m_formatHeader.bitsPerSample)
          ++ ((create 1 44100 1 8).m_dataHeader.subChunk2ID.toBytes
          ++ le32 (create 1 44100 1 8).m_dataHeader.subChunk2Size)
          ++ (create 1 44100 1 8).m_data
      ∧ out.length = 44 + (create 1 44100 1 8).m_dataHeader.subChunk2Size
      ∧ out.drop 44 = (create 1 44100 1 8).m_data :=
  ⟨by decide, (write_layout (create 1 44100 1 8) (by decide)).1⟩

/-! ## The scans of read always terminate within their bound -/

theorem ignoreCount_bounds (delim : Byte) (l : List Byte) (k : Nat)
    (h : IfStream.ignoreCount delim l = some k) : 1 ≤ k ∧ k ≤ l.length := by
  induction l generalizing k with
  | nil => simp [IfStream.ignoreCount] at h
  | cons c cs ih =>
    simp only [IfStream.ignoreCount] at h
    split_ifs at h
    · simp only [Option.some.injEq] at h
      subst h
      simp
    · cases hc : IfStream.ignoreCount delim cs with
      | none => rw [hc] at h; simp at h
      | some j =>
        rw [hc] at h
        simp only [Option.map_some', Option.some.injEq] at h
        have := ih j hc
        simp only [List.length_cons]
        omega

/-- The number of iterations a scan can still make from a stream state. -/
theorem scan_terminates {H : Type} (delim : Byte) (size : Nat) (store : H → List Byte → H)
    (ident : H → Word) (word : Word) (hsize : 1 ≤ size) :
    ∀ (fuel : Nat) (s : IfStream) (h : H),
      (s.failbit = true → s.eofbit = true) →
      (if s.good then s.content.length - s.pos + 2 else 1) ≤ fuel →
      scan delim size store ident word fuel s h ≠ Scan.fuel
      ∧ ∀ t g, scan delim size store ident word fuel s h = Scan.found t g →
          t.content = s.content ∧ (t.failbit = true → t.eofbit = true) := by
  intro fuel
  induction fuel with
  | zero =>
    intro s h _ hm
    split_ifs at hm <;> omega
  | succ n ih =>
    intro s h hI hm
    obtain ⟨content, pos, eofbit, failbit⟩ := s
    simp only at hI
    cases eofbit
    · -- no end of file yet, hence no failure either
      have hf : failbit = false := by
        cases failbit
        · rfl
        · exact absurd (hI rfl) (by simp)
      subst hf
      simp only [IfStream.good, Bool.not_false, Bool.and_self, if_true] at hm
      simp only [scan, IfStream.ignore, IfStream.good, Bool.not_false, Bool.and_self, if_true]
      cases hc : IfStream.ignoreCount delim (List.drop pos content) with
      | none => simp [IfStream.eof]
      | some k =>
        obtain ⟨hk1, hk2⟩ := ignoreCount_bounds delim _ k hc
        rw [List.length_drop] at hk2
        have hsb : ({ content := content, pos := pos + k, eofbit := false, failbit := false }
            : IfStream).seekBack
            = { content := content, pos := pos + k - 1, eofbit := false, failbit := false } := by
          simp only [IfStream.seekBack, Bool.false_eq_true, if_false]
          rw [if_pos (by omega)]
        simp only [IfStream.eof, Bool.false_eq_true, if_false, hsb]
        simp only [IfStream.read, IfStream.good, Bool.not_false, Bool.and_self, if_true]
        generalize List.take size (List.drop (pos + k - 1) content) = got
        by_cases hshort : got.length < size
        · simp only [hshort, if_true]
          split_ifs with hw
          · exact ih
              { content := content, pos := pos + k - 1 + got.length, eofbit := true, failbit := true }
              (store h got) (fun _ => rfl) (by simp only [IfStream.good]; simp; omega)
          · exact ⟨by simp, fun t g e => by
              simp only [Scan.found.injEq] at e
              obtain ⟨e1, _⟩ := e
              subst e1
              simp⟩
        · simp only [hshort, if_false]
          split_ifs with hw
          · exact ih
              { content := content, pos := pos + k - 1 + size, eofbit := false, failbit := false }
              (store h got) (fun e => absurd e (by simp))
              (by simp only [IfStream.good]; simp; omega)
          · exact ⟨by simp, fun t g e => by
              simp only [Scan.found.injEq] at e
              obtain ⟨e1, _⟩ := e
              subst e1
              simp⟩
    · -- end of file already reported: the scan leaves at once
      simp [scan, IfStream.ignore, IfStream.good, IfStream.eof]

theorem ofFile_read_state (file : List Byte) (n : Nat) :
    ((IfStream.ofFile file).read n).1.content = file
    ∧ (((IfStream.ofFile file).read n).1.failbit = true →
        ((IfStream.ofFile file).read n).1.eofbit = true) := by
  simp only [IfStream.read, IfStream.ofFile, IfStream.good, Bool.not_false, Bool.and_self,
    if_true]
  split_ifs <;> simp

theorem scan_measure_le (s : IfStream) (file : List Byte) (hc : s.content = file) :
    (if s.good then s.content.length - s.pos + 2 else 1) ≤ file.length + 2 := by
  subst hc
  split_ifs <;> omega

/-- read always returns: neither of its two scans exhausts the iteration bound
it is given. -/
theorem read_ne_fuel (w0 : WaveFile) (file : List Byte) : read w0 file ≠ ReadResult.fuel := by
  intro h
  obtain ⟨hc, hI⟩ := ofFile_read_state file sizeofRiffHeader
  have hm := scan_measure_le ((IfStream.ofFile file).read sizeofRiffHeader).1 file hc
  have t1 := scan_terminates 102 sizeofWaveFormatHeader WaveFormatHeader.store
    WaveFormatHeader.subChunk1ID FMT (by decide) (file.length + 2)
    ((IfStream.ofFile file).read sizeofRiffHeader).1 w0.m_formatHeader hI hm
  unfold read at h
  simp only at h
  repeat' (split at h)
  all_goals try (exact ReadResult.noConfusion h)
  · rename_i heq
    exact t1.1 heq
  · rename_i s1 h1 heq1 _ _ heq2
    obtain ⟨c1, i1⟩ := t1.2 s1 h1 heq1
    have hm2 := scan_measure_le s1 file (c1.trans hc)
    exact (scan_terminates 100 sizeofWaveDataHeader WaveDataHeader.store
      WaveDataHeader.subChunk2ID DATA (by decide) (file.length + 2) s1 w0.m_dataHeader i1
      hm2).1 heq2

end WaveFile

/-! ## AudioSample: constructors, inversion and the scalar forms -/

namespace AudioSample

variable {K : Type} [LinearOrderedField K]

theorem stereo_one_zero : stereo (1 : K) 0 = { left := 1, right := 0 } :=
  stereo_of_inRange 1 0 (by norm_num) (by norm_num) (by norm_num) (by norm_num)

theorem stereo_one_one : stereo (1 : K) 1 = { left := 1, right := 1 } :=
  stereo_of_inRange 1 1 (by norm_num) (by norm_num) (by norm_num) (by norm_num)

theorem div_one_zero_by_one_one :
    div ({ left := 1, right := 0 } : AudioSample K) { left := 1, right := 1 }
      = { left := 1, right := 0 } := by
  have hc : clampValues ({ left := 1, right := 0 } : AudioSample K)
      = { left := 1, right := 0 } := stereo_one_zero
  simp only [div]
  rw [if_neg (by norm_num), div_one, zero_div, stereo_one_zero, hc]

/-- C11, as stated, fails: with dividend (1, 0) and divisor (1, 1) no channel
of the divisor is 0, and the quotient is (1, 0), not (0, 0). -/
theorem div_zero_dividend_channel :
    div (stereo (1 : ℚ) 0) (stereo 1 1) = { left := 1, right := 0 }
    ∧ div (stereo (1 : ℚ) 0) (stereo 1 1) ≠ { left := 0, right := 0 } := by
  rw [stereo_one_zero, stereo_one_one, div_one_zero_by_one_one]
  exact ⟨rfl, by simp⟩

/-- C11 (amended): the quotient of Sample(1,0) by Sample(1,1) is Sample(1,0),
because no channel of the divisor is 0; with the operands exchanged, the
divisor Sample(1,0) has a zero channel and the quotient of Sample(1,1) by it
is Sample(0,0). -/
theorem div_one_zero_one_one :
    div (stereo (1 : K) 0) (stereo 1 1) = { left := 1, right := 0 }
    ∧ div (stereo (1 : K) 1) (stereo 1 0) = { left := 0, right := 0 } := by
  rw [stereo_one_zero, stereo_one_one, div_one_zero_by_one_one]
  exact ⟨rfl, by simp [div, empty]⟩

/-- C12, at an input where the claim fails: the one-value constructor applied
to 1/2 gives the right channel 0, not clamp(1/2) = 1/2. -/
theorem mono_right_is_zero :
    mono (1 / 2 : ℚ) = { left := 1 / 2, right := 0 }
    ∧ (mono (1 / 2 : ℚ)).right ≠ clamp (1 / 2 : ℚ) (-1) 1 := by
  have h : mono (1 / 2 : ℚ) = { left := 1 / 2, right := 0 } :=
    stereo_of_inRange (1 / 2) 0 (by norm_num) (by norm_num) (by norm_num) (by norm_num)
  rw [h, clamp_eq_self (1 / 2 : ℚ) (-1) 1 (by norm_num) (by norm_num)]
  exact ⟨rfl, by norm_num⟩

/-- C12 (amended): the one-value constructor yields left = clamp(v, -1, 1) and
right = 0; the two-value constructor yields left = clamp(l, -1, 1) and
right = clamp(r, -1, 1). -/
theorem constructors_clamp (v l r : K) :
    (mono v).left = clamp v (-1) 1 ∧ (mono v).right = 0
    ∧ (stereo l r).left = clamp l (-1) 1 ∧ (stereo l r).right = clamp r (-1) 1 :=
  ⟨rfl, clamp_eq_self 0 (-1) 1 (by norm_num) (by norm_num), rfl, rfl⟩

/-- C13, evaluated where the code departs from the claim: the (scalar, Sample)
difference of 1 and (1/4, 1/2) comes out as (-3/4, -1/2), the sample minus the
scalar, and the (scalar, Sample) quotient of 1/2 and (1, -1) as (1, -1), the
sample over the scalar. -/
theorem scalar_forms_reversed :
    scalarSub (1 : ℚ) { left := 1 / 4, right := 1 / 2 } = { left := -3 / 4, right := -1 / 2 }
    ∧ scalarDiv (1 / 2 : ℚ) { left := 1, right := -1 } = { left := 1, right := -1 } := by
  constructor
  · have e : stereo ((1 / 4 : ℚ) - 1) (1 / 2 - 1) = { left := -3 / 4, right := -1 / 2 } := by
      rw [stereo_of_inRange _ _ (by norm_num) (by norm_num) (by norm_num) (by norm_num)]
      norm_num
    have hc : clampValues ({ left := -3 / 4, right := -1 / 2 } : AudioSample ℚ)
        = { left := -3 / 4, right := -1 / 2 } :=
      stereo_of_inRange _ _ (by norm_num) (by norm_num) (by norm_num) (by norm_num)
    simp only [scalarSub, subScalar]
    rw [e, hc]
  · have c1 : clamp ((1 : ℚ) / (1 / 2)) (-1) 1 = 1 := by
      unfold clamp
      norm_num
    have c2 : clamp ((-1 : ℚ) / (1 / 2)) (-1) 1 = -1 := by
      unfold clamp
      norm_num
    have hc : clampValues ({ left := 1, right := -1 } : AudioSample ℚ)
        = { left := 1, right := -1 } :=
      stereo_of_inRange _ _ (by norm_num) (by norm_num) (by norm_num) (by norm_num)
    simp only [scalarDiv, divScalar]
    rw [if_neg (by norm_num)]
    simp only [stereo, clampValues]
    rw [c1, c2]
    exact hc

/-- C14: inverting twice gives the sample back, and inverting a sample whose
channels lie between -1 and 1 gives channels between -1 and 1. -/
theorem invert_invert (s : AudioSample K) :
    invert (invert s) = s ∧ (s.InRange → (invert s).InRange) := by
  constructor
  · cases s
    simp [invert]
  · intro h
    obtain ⟨h1, h2, h3, h4⟩ := h
    simp only [invert, InRange]
    refine ⟨?_, ?_, ?_, ?_⟩ <;> linarith

/-- An instance of the inversion facts at the sample (1/2, -1). -/
theorem invert_invert_witness :
    ({ left := 1 / 2, right := -1 } : AudioSample ℚ).InRange
    ∧ invert (invert ({ left := 1 / 2, right := -1 } : AudioSample ℚ))
        = { left := 1 / 2, right := -1 }
    ∧ (invert ({ left := 1 / 2, right := -1 } : AudioSample ℚ)).InRange :=
  have h : ({ left := 1 / 2, right := -1 } : AudioSample ℚ).InRange := by
    norm_num [InRange]
  ⟨h, (invert_invert _).1, (invert_invert _).2 h⟩

end AudioSample

/-! ## WaveFile: failures of read, and what setSample leaves alone -/

namespace WaveFile

theorem wordCompare_eq_true_iff (a b : Word) : wordCompare a b = true ↔ a = b := by
  cases a
  cases b
  simp only [wordCompare, Word.mk.injEq]
  split_ifs <;> simp_all

/-- The stream state and the bytes delivered by the first read of a file. -/
theorem ofFile_read_got (file : List Byte) (n : Nat) :
    ((IfStream.ofFile file).read n).2 = file.take n := by
  simp only [IfStream.read, IfStream.ofFile, IfStream.good, Bool.not_false, Bool.and_self,
    if_true, List.drop_zero]
  split_ifs <;> rfl

theorem riff_store_chunkID (h : RiffHeader) (a b c d : Byte) (rest : List Byte) :
    (h.store (a :: b :: c :: d :: rest)).chunkID = { c0 := a, c1 := b, c2 := c, c3 := d } := by
  simp [RiffHeader.store, RiffHeader.ofBytes]

/-- C15: on a buffer of at least four bytes whose first four bytes are not
"RIFF", read returns false with the missing-RIFF-header message, whatever
follows and whatever the object held. -/
theorem read_missing_riff (w0 : WaveFile) (file : List Byte) (hlen : 4 ≤ file.length)
    (hne : file.take 4 ≠ RIFF.toBytes) :
    read w0 file = ReadResult.error ReadError.missingRiffHeader
      { w0 with m_riffHeader := w0.m_riffHeader.store (file.take 12) } := by
  match file, hlen with
  | a :: b :: c :: d :: rest, _ =>
    have hw : wordCompare (w0.m_riffHeader.store (List.take 12 (a :: b :: c :: d :: rest))).chunkID
        RIFF = false := by
      have e : List.take 12 (a :: b :: c :: d :: rest) = a :: b :: c :: d :: List.take 8 rest := by
        simp
      rw [e, riff_store_chunkID]
      cases hc : wordCompare { c0 := a, c1 := b, c2 := c, c3 := d } RIFF with
      | false => rfl
      | true =>
        rw [wordCompare_eq_true_iff] at hc
        exfalso
        apply hne
        rw [← hc]
        simp [Word.toBytes]
    simp only [read, sizeofRiffHeader, ofFile_read_got, hw]
    simp

/-- An instance of the missing-RIFF-header failure: a buffer that starts with "RIFX". -/
theorem read_missing_riff_witness :
    4 ≤ ([82, 73, 70, 88, 1, 2] : List Byte).length
    ∧ ([82, 73, 70, 88, 1, 2] : List Byte).take 4 ≠ RIFF.toBytes
    ∧ read init [82, 73, 70, 88, 1, 2] = ReadResult.error ReadError.missingRiffHeader
        { init with m_riffHeader := init.m_riffHeader.store (List.take 12 [82, 73, 70, 88, 1, 2]) } :=
  ⟨by decide, by decide, read_missing_riff init [82, 73, 70, 88, 1, 2] (by decide) (by decide)⟩

/-- C19, at an input where the claim fails: read on a four-byte buffer "XXXX"
returns false, and the object, a fresh 8-bit container before the call, now
holds "XXXX" as its RIFF chunk identifier. -/
theorem read_failure_keeps_riff_bytes :
    ∃ w, read (create 1 44100 1 8) [88, 88, 88, 88]
        = ReadResult.error ReadError.missingRiffHeader w
      ∧ w.m_riffHeader.chunkID = { c0 := 88, c1 := 88, c2 := 88, c3 := 88 }
      ∧ (create 1 44100 1 8).m_riffHeader.chunkID = RIFF
      ∧ w.m_riffHeader ≠ (create 1 44100 1 8).m_riffHeader :=
  ⟨_, rfl, rfl, rfl, by decide⟩

/-- C19 (amended): when read returns false, the four core attributes are those
from before the call, and so is the payload unless the failure is the
truncated payload; the RIFF header holds the first twelve bytes of the buffer
(as many as there are), the format and data headers are untouched when the
RIFF tag is missing, and the data header is untouched when the format block
is missing or its audio format is not 1. -/
theorem read_failure_state (w0 w : WaveFile) (file : List Byte) (e : ReadError)
    (h : read w0 file = ReadResult.error e w) :
    w.m_length = w0.m_length ∧ w.m_sampleRate = w0.m_sampleRate
    ∧ w.m_nChannels = w0.m_nChannels ∧ w.m_bitDepth = w0.m_bitDepth
    ∧ (e ≠ ReadError.closingFile → w.m_data = w0.m_data)
    ∧ w.m_riffHeader = w0.m_riffHeader.store (file.take 12)
    ∧ (e = ReadError.missingRiffHeader →
        w.m_formatHeader = w0.m_formatHeader ∧ w.m_dataHeader = w0.m_dataHeader)
    ∧ (e = ReadError.missingFormatHeader ∨ e = ReadError.incompatibleFormat →
        w.m_dataHeader = w0.m_dataHeader) := by
  unfold read at h
  simp only [ofFile_read_got, sizeofRiffHeader] at h
  repeat' (split at h)
  all_goals try (exact ReadResult.noConfusion h)
  all_goals
    simp only [ReadResult.error.injEq] at h
    obtain ⟨he, hw⟩ := h
    subst he hw
    simp

/-- An instance of the failure state: a RIFF block followed by three bytes without a format block. -/
theorem read_failure_state_witness :
    read (create 1 44100 1 8) [82, 73, 70, 70, 7, 0, 0, 0, 87, 65, 86, 69, 1, 2, 3]
      = ReadResult.error ReadError.missingFormatHeader
          { create 1 44100 1 8 with m_riffHeader := { chunkID := RIFF, chunkSize := 7, format := WAVE } }
    ∧ ({ create 1 44100 1 8 with m_riffHeader := { chunkID := RIFF, chunkSize := 7, format := WAVE } }
        : WaveFile).m_length = (create 1 44100 1 8).m_length
    ∧ ({ create 1 44100 1 8 with m_riffHeader := { chunkID := RIFF, chunkSize := 7, format := WAVE } }
        : WaveFile).m_riffHeader
        = (create 1 44100 1 8).m_riffHeader.store
            (List.take 12 [82, 73, 70, 70, 7, 0, 0, 0, 87, 65, 86, 69, 1, 2, 3]) :=
  have h : read (create 1 44100 1 8) [82, 73, 70, 70, 7, 0, 0, 0, 87, 65, 86, 69, 1, 2, 3]
      = ReadResult.error ReadError.missingFormatHeader
          { create 1 44100 1 8 with m_riffHeader := { chunkID := RIFF, chunkSize := 7, format := WAVE } } := by
    decide
  ⟨h, (read_failure_state _ _ _ _ h).1, (read_failure_state _ _ _ _ h).2.2.2.2.2.1⟩

theorem poke_other (d e : List Byte) (k j : Nat) (x : Int) (hk : u32 k ≠ j)
    (h : poke d k x = some e) : e[j]? = d[j]? := by
  unfold poke at h
  split_ifs at h
  simp only [Option.some.injEq] at h
  rw [← h, List.getElem?_set_ne hk]

theorem poke_bind_other (d e : List Byte) (k j : Nat) (x : Int)
    (f : List Byte → Option (List Byte)) (hk : u32 k ≠ j)
    (hf : ∀ a b, f a = some b → b[j]? = a[j]?)
    (h : (poke d k x).bind f = some e) : e[j]? = d[j]? := by
  cases hp : poke d k x with
  | none => rw [hp] at h; simp at h
  | some a =>
    rw [hp] at h
    rw [hf a e h, poke_other d a k j x hk hp]

/-- The bytes that the assignments of setSample do not touch: everything
outside the frame's own bytes, as long as the offsets do not wrap. -/
theorem encodeFrame_other (w : WaveFile) (idx j : Nat) (s : AudioSample ℚ) (d : List Byte)
    (h32 : idx + (if w.m_nChannels = 2 then 2 else 1) * (w.m_bitDepth / 8) ≤ 4294967296)
    (hj : j < idx ∨ idx + (if w.m_nChannels = 2 then 2 else 1) * (w.m_bitDepth / 8) ≤ j)
    (h : encodeFrame w idx s = some (some d)) : d[j]? = w.m_data[j]? := by
  unfold encodeFrame at h
  split_ifs at h <;>
    simp only [Option.some.injEq, reduceCtorEq] at h <;>
    simp only [*, if_true, if_false, Nat.reduceDiv, Nat.reduceMul,
      Nat.reduceEqDiff] at h32 hj <;>
    repeat
      first
      | exact poke_other _ _ _ _ _ (by unfold u32; omega) h
      | (simp only [Option.pure_def, Option.some.injEq] at h; rw [h])
      | (refine poke_bind_other _ _ _ _ _ _ (by unfold u32; omega) ?_ h; clear h; intro _ _ h)

/-- C20, at an input where the claim fails: a fresh container of 2^31 + 1
frames of two 8-bit channels holds a payload of two bytes, and setSample at
index 2^31 writes both of them (offsets 0 and 1), although the claimed range
starts at offset 2^32. -/
theorem setSample_offset_wraps :
    ∃ v, setSample (create 2147483649 44100 2 8) 2147483648 { left := 1, right := 1 } = some v
      ∧ (create 2147483649 44100 2 8).m_data = [0, 0]
      ∧ v.m_data = [255, 255]
      ∧ (1 : Nat) < 2147483648 * (create 2147483649 44100 2 8).m_nChannels
          * ((create 2147483649 44100 2 8).m_bitDepth / 8) := by
  have hc : castUInt8 ((1 : ℚ) * (UINT8_MAX : ℚ)) = 255 := by
    have e : (1 : ℚ) * (UINT8_MAX : ℚ) = ((255 : Int) : ℚ) := by norm_num [UINT8_MAX]
    rw [castUInt8, e, trunc_intCast]
    decide
  have hz : (create 2147483649 44100 2 8).m_data = [0, 0] := by decide
  have hi : frameIndex (create 2147483649 44100 2 8) 2147483648 = 0 := by decide
  have h1 : encodeFrame (create 2147483649 44100 2 8) 0 { left := 1, right := 1 }
      = some (some [255, 255]) := by
    have hbd : (create 2147483649 44100 2 8).m_bitDepth = 8 := rfl
    have hch : (create 2147483649 44100 2 8).m_nChannels = 2 := rfl
    simp only [encodeFrame, hbd, hch, hz, hc]
    decide
  rw [← hi] at h1
  exact ⟨_, setSample_of_encodeFrame _ _ _ _ (by decide) h1, hz, rfl, by decide⟩

/-- C20 (amended): a setSample call that returns leaves frameCount, sampleRate,
channelCount, bitDepth and all header fields unchanged; when the container has
at least one channel and (i + 1) * channelCount * (bitDepth / 8) is at most
2^32, so that the 32-bit frame offset is the product itself, every payload byte
at an offset outside [i * channelCount * (bitDepth / 8),
(i + 1) * channelCount * (bitDepth / 8)) is unchanged; and the payload is
unchanged altogether when i > frameCount or bitDepth is none of 8, 16, 24, 32. -/
theorem setSample_frame_effect (w v : WaveFile) (i : Nat) (s : AudioSample ℚ)
    (h : setSample w i s = some v) :
    (v.m_length = w.m_length ∧ v.m_sampleRate = w.m_sampleRate
      ∧ v.m_nChannels = w.m_nChannels ∧ v.m_bitDepth = w.m_bitDepth
      ∧ v.m_riffHeader = w.m_riffHeader ∧ v.m_formatHeader = w.m_formatHeader
      ∧ v.m_dataHeader = w.m_dataHeader)
    ∧ (1 ≤ w.m_nChannels →
        (i + 1) * w.m_nChannels * (w.m_bitDepth / 8) ≤ 4294967296 →
        ∀ j, (j < i * w.m_nChannels * (w.m_bitDepth / 8)
              ∨ (i + 1) * w.m_nChannels * (w.m_bitDepth / 8) ≤ j) →
          v.m_data[j]? = w.m_data[j]?)
    ∧ (w.m_length < i
        ∨ ¬ (w.m_bitDepth = 8 ∨ w.m_bitDepth = 16 ∨ w.m_bitDepth = 24 ∨ w.m_bitDepth = 32) →
        v.m_data = w.m_data) := by
  obtain ⟨f1, f2, f3, f4, f5, f6, f7, _⟩ := setSample_frame w v i s h
  refine ⟨⟨f4, f5, f6, f7, f1, f2, f3⟩, ?_, ?_⟩
  · intro hch h32 j hj
    unfold setSample at h
    split_ifs at h
    · simp only [Option.some.injEq] at h
      rw [← h]
    · cases he : encodeFrame w (frameIndex w i) s with
      | none =>
        rw [he] at h
        simp only [Option.some.injEq] at h
        rw [← h]
      | some r =>
        rw [he] at h
        cases r with
        | none => simp at h
        | some d =>
          simp only [Option.map_some', Option.some.injEq] at h
          rw [← h]
          have e1 : (i + 1) * w.m_nChannels * (w.m_bitDepth / 8)
              = i * w.m_nChannels * (w.m_bitDepth / 8) + w.m_nChannels * (w.m_bitDepth / 8) := by
            ring
          have hB : (if w.m_nChannels = 2 then 2 else 1) * (w.m_bitDepth / 8)
              ≤ w.m_nChannels * (w.m_bitDepth / 8) := by
            apply Nat.mul_le_mul_right
            split_ifs <;> omega
          have hidx : frameIndex w i = i * w.m_nChannels * (w.m_bitDepth / 8) := by
            unfold frameIndex u32
            by_cases hz : w.m_nChannels * (w.m_bitDepth / 8) = 0
            · have : i * w.m_nChannels * (w.m_bitDepth / 8) = 0 := by
                rw [Nat.mul_assoc, hz, Nat.mul_zero]
              rw [this]
            · apply Nat.mod_eq_of_lt
              omega
          refine encodeFrame_other w _ j s d ?_ ?_ he
          · rw [hidx]; omega
          · rw [hidx]; omega
  · intro hc
    unfold setSample at h
    split_ifs at h with hgt
    · simp only [Option.some.injEq] at h
      rw [← h]
    · rcases hc with hc | hc
      · exact absurd hc hgt
      · have he : encodeFrame w (frameIndex w i) s = none := by
          unfold encodeFrame
          simp only [not_or] at hc
          simp [hc.1, hc.2.1, hc.2.2.1, hc.2.2.2]
        rw [he] at h
        simp only [Option.some.injEq] at h
        rw [← h]

theorem setSample_frame_effect_witness :
    setSample (create 2 44100 1 8) 1 { left := 1, right := 0 }
        = some { create 2 44100 1 8 with m_data := [0, 255] }
    ∧ ({ create 2 44100 1 8 with m_data := [0, 255] } : WaveFile).m_data[0]?
        = (create 2 44100 1 8).m_data[0]?
    ∧ ({ create 2 44100 1 8 with m_data := [0, 255] } : WaveFile).m_riffHeader
        = (create 2 44100 1 8).m_riffHeader :=
  have hc : castUInt8 ((1 : ℚ) * (UINT8_MAX : ℚ)) = 255 := by
    have e : (1 : ℚ) * (UINT8_MAX : ℚ) = ((255 : Int) : ℚ) := by norm_num [UINT8_MAX]
    rw [castUInt8, e, trunc_intCast]
    decide
  have h1 : encodeFrame (create 2 44100 1 8) (frameIndex (create 2 44100 1 8) 1)
      { left := 1, right := 0 } = some (some [0, 255]) := by
    have hbd : (create 2 44100 1 8).m_bitDepth = 8 := rfl
    have hch : (create 2 44100 1 8).m_nChannels = 1 := rfl
    have hz : (create 2 44100 1 8).m_data = [0, 0] := by decide
    have hi : frameIndex (create 2 44100 1 8) 1 = 1 := by decide
    simp only [encodeFrame, hbd, hch, hz, hc, hi]
    decide
  have h := setSample_of_encodeFrame _ 1 _ _ (by decide) h1
  ⟨h, (setSample_frame_effect _ _ _ _ h).2.1 (by decide) (by decide) 0 (Or.inl (by decide)),
    (setSample_frame_effect _ _ _ _ h).1.2.2.2.2.1⟩

end WaveFile

/-! ## WaveFile: the two searches of read -/

namespace WaveFile

theorem findTag_of_ignoreCount_none (delim : Byte) (word : Word) (r : Nat) (l : List Byte) :
    ∀ pos, IfStream.ignoreCount delim l = none → findTag delim word r 0 pos l = none := by
  induction l with
  | nil => intro pos _; rfl
  | cons c cs ih =>
    intro pos h
    unfold IfStream.ignoreCount at h
    split_ifs at h with hc
    simp only [Option.map_eq_none'] at h
    rw [findTag, if_neg hc]
    exact ih _ h

theorem findTag_of_ignoreCount_some (delim : Byte) (word : Word) (r : Nat) (l : List Byte) :
    ∀ pos k, IfStream.ignoreCount delim l = some k →
      1 ≤ k ∧ ∃ rest, l.drop (k - 1) = delim :: rest
        ∧ findTag delim word r 0 pos l = findTag delim word r 0 (pos + (k - 1)) (delim :: rest) := by
  induction l with
  | nil => intro pos k h; simp [IfStream.ignoreCount] at h
  | cons c cs ih =>
    intro pos k h
    unfold IfStream.ignoreCount at h
    split_ifs at h with hc
    · simp only [Option.some.injEq] at h
      subst h
      subst hc
      exact ⟨le_refl 1, cs, rfl, rfl⟩
    · simp only [Option.map_eq_some'] at h
      obtain ⟨k1, hk1, hk⟩ := h
      obtain ⟨h1, rest, hd, hf⟩ := ih (pos + 1) k1 hk1
      subst hk
      refine ⟨by omega, rest, ?_, ?_⟩
      · obtain ⟨m, rfl⟩ : ∃ m, k1 = m + 1 := ⟨k1 - 1, by omega⟩
        simpa using hd
      · rw [findTag, if_neg hc, hf]
        congr 1
        omega

theorem findTag_skip (delim : Byte) (word : Word) (r : Nat) (p : Nat) :
    ∀ (skip pos : Nat) (l : List Byte), findTag delim word r skip pos l = some p →
      skip < l.length ∧ findTag delim word r 0 (pos + skip) (l.drop skip) = some p := by
  intro skip
  induction skip with
  | zero =>
    intro pos l h
    cases l with
    | nil => simp [findTag] at h
    | cons c cs => exact ⟨by simp, by simpa using h⟩
  | succ n ih =>
    intro pos l h
    cases l with
    | nil => simp [findTag] at h
    | cons c cs =>
      rw [findTag] at h
      obtain ⟨h1, h2⟩ := ih (pos + 1) cs h
      refine ⟨by simp only [List.length_cons]; omega, ?_⟩
      rw [List.drop_succ_cons, ← h2]
      congr 1
      omega

/-- Where a search ends, the four bytes are the tag, and the offset is not before the start. -/
theorem findTag_spec (delim : Byte) (word : Word) (r : Nat) (p : Nat) (l : List Byte) :
    ∀ (skip pos : Nat), findTag delim word r skip pos l = some p →
      pos + skip ≤ p ∧ (l.drop (p - pos)).take 4 = word.toBytes := by
  induction l with
  | nil => intro skip pos h; simp [findTag] at h
  | cons c cs ih =>
    intro skip pos h
    cases skip with
    | zero =>
      rw [findTag] at h
      split_ifs at h with hc ht
      · simp only [Option.some.injEq] at h
        subst h
        exact ⟨by omega, by simpa using ht⟩
      · obtain ⟨h1, h2⟩ := ih _ _ h
        refine ⟨by omega, ?_⟩
        obtain ⟨m, hm⟩ : ∃ m, p - pos = m + 1 := ⟨p - pos - 1, by omega⟩
        have e : p - (pos + 1) = m := by omega
        rw [hm, List.drop_succ_cons, ← e]
        exact h2
      · obtain ⟨h1, h2⟩ := ih _ _ h
        refine ⟨by omega, ?_⟩
        obtain ⟨m, hm⟩ : ∃ m, p - pos = m + 1 := ⟨p - pos - 1, by omega⟩
        have e : p - (pos + 1) = m := by omega
        rw [hm, List.drop_succ_cons, ← e]
        exact h2
    | succ n =>
      rw [findTag] at h
      obtain ⟨h1, h2⟩ := ih _ _ h
      refine ⟨by omega, ?_⟩
      obtain ⟨m, hm⟩ : ∃ m, p - pos = m + 1 := ⟨p - pos - 1, by omega⟩
      have e : p - (pos + 1) = m := by omega
      rw [hm, List.drop_succ_cons, ← e]
      exact h2

theorem IfStream_ignore_some (content : List Byte) (pos k : Nat) (delim : Byte)
    (h : IfStream.ignoreCount delim (content.drop pos) = some k) :
    IfStream.ignore { content := content, pos := pos, eofbit := false, failbit := false } delim
      = { content := content, pos := pos + k, eofbit := false, failbit := false } := by
  simp [IfStream.ignore, IfStream.good, h]

theorem IfStream_seekBack_succ (content : List Byte) (pos : Nat) (hp : 1 ≤ pos) :
    IfStream.seekBack { content := content, pos := pos, eofbit := false, failbit := false }
      = { content := content, pos := pos - 1, eofbit := false, failbit := false } := by
  simp [IfStream.seekBack, hp]

theorem IfStream_read_full (content : List Byte) (pos n : Nat) (h : pos + n ≤ content.length) :
    IfStream.read { content := content, pos := pos, eofbit := false, failbit := false } n
      = ({ content := content, pos := pos + n, eofbit := false, failbit := false },
         (content.drop pos).take n) := by
  have hl : ((content.drop pos).take n).length = n := by
    rw [List.length_take, List.length_drop]
    omega
  simp [IfStream.read, IfStream.good, hl]

/-- The scan loop ends where the search with the struct size as resume distance
ends, with the stream just after the struct and the struct read there, as
long as the whole struct is in the file. -/
theorem scan_of_findTag {H : Type} (delim : Byte) (size : Nat) (store : H → List Byte → H)
    (ident : H → Word) (word : Word) (ofB : List Byte → H) (hsize : 4 ≤ size)
    (hfull : ∀ h got, got.length = size → store h got = ofB got)
    (hid : ∀ got, got.length = size →
      (wordCompare (ident (ofB got)) word = true ↔ got.take 4 = word.toBytes))
    (content : List Byte) (p : Nat) (hpl : p + size ≤ content.length) :
    ∀ (fuel pos : Nat) (h : H), content.length < pos + fuel →
      findTag delim word size 0 pos (content.drop pos) = some p →
      scan delim size store ident word fuel
          { content := content, pos := pos, eofbit := false, failbit := false } h
        = Scan.found { content := content, pos := p + size, eofbit := false, failbit := false }
            (ofB ((content.drop p).take size)) := by
  intro fuel
  induction fuel with
  | zero =>
    intro pos h hf ht
    rw [List.drop_eq_nil_of_le (by omega)] at ht
    simp [findTag] at ht
  | succ fuel ih =>
    intro pos h hf ht
    cases hi : IfStream.ignoreCount delim (content.drop pos) with
    | none =>
      rw [findTag_of_ignoreCount_none _ _ _ _ _ hi] at ht
      exact Option.noConfusion ht
    | some k =>
      obtain ⟨hk, rest, hd, hft⟩ := findTag_of_ignoreCount_some delim word size _ pos k hi
      rw [hft] at ht
      have hdc : content.drop (pos + k - 1) = delim :: rest := by
        rw [← hd, List.drop_drop]
        congr 1
        omega
      have hlen : rest.length + (pos + k - 1) + 1 = content.length := by
        have := congrArg List.length hdc
        simp only [List.length_drop, List.length_cons] at this
        have hpos : pos + k - 1 < content.length := by
          by_contra hcon
          rw [List.drop_eq_nil_of_le (by omega)] at hdc
          exact List.noConfusion hdc
        omega
      rw [findTag, if_pos rfl] at ht
      unfold scan
      simp only [IfStream_ignore_some _ _ _ _ hi, IfStream.eof, Bool.false_eq_true, if_false,
        IfStream_seekBack_succ content (pos + k) (by omega)]
      by_cases htag : (delim :: rest).take 4 = word.toBytes
      · rw [if_pos htag] at ht
        simp only [Option.some.injEq] at ht
        have hpc : pos + k - 1 = p := by omega
        rw [hpc]
        rw [hpc] at hdc
        rw [IfStream_read_full content p size hpl]
        have hgl : ((content.drop p).take size).length = size := by
          rw [List.length_take, List.length_drop]
          omega
        have hw : wordCompare (ident (ofB ((content.drop p).take size))) word = true := by
          rw [hid _ hgl, List.take_take, min_eq_left hsize, hdc]
          exact htag
        simp only [hfull _ _ hgl, hw]
        simp
      · rw [if_neg htag] at ht
        obtain ⟨hs1, hs2⟩ := findTag_skip delim word size p _ _ _ ht
        have hfit : pos + k - 1 + size ≤ content.length := by omega
        rw [IfStream_read_full content (pos + k - 1) size hfit]
        have hgl : ((content.drop (pos + k - 1)).take size).length = size := by
          rw [List.length_take, List.length_drop]
          omega
        have hw : wordCompare (ident (ofB ((content.drop (pos + k - 1)).take size))) word
            = false := by
          cases hc : wordCompare (ident (ofB ((content.drop (pos + k - 1)).take size))) word with
          | false => rfl
          | true =>
            rw [hid _ hgl, List.take_take, min_eq_left hsize, hdc] at hc
            exact absurd hc htag
        simp only [hfull _ _ hgl, hw]
        simp only [Bool.not_false, if_true]
        apply ih
        · omega
        · rw [← hs2]
          have e1 : pos + (k - 1) + 1 + (size - 1) = pos + k - 1 + size := by omega
          have e2 : rest.drop (size - 1) = content.drop (pos + k - 1 + size) := by
            have : rest = (content.drop (pos + k - 1)).drop 1 := by rw [hdc]; rfl
            rw [this, List.drop_drop, List.drop_drop]
            congr 1
            omega
          rw [e1, e2]

theorem word_eq_iff_bytes (a b c d : Byte) (word : Word) :
    ({ c0 := a, c1 := b, c2 := c, c3 := d } : Word) = word ↔ [a, b, c, d] = word.toBytes := by
  cases word
  simp [Word.toBytes]

theorem format_ident_iff (got : List Byte) (hn : got.length = 24) :
    wordCompare (WaveFormatHeader.ofBytes got).subChunk1ID FMT = true
      ↔ got.take 4 = FMT.toBytes := by
  match got, hn with
  | a :: b :: c :: d :: rest, _ =>
    rw [wordCompare_eq_true_iff]
    simpa [WaveFormatHeader.ofBytes] using word_eq_iff_bytes a b c d FMT

theorem data_ident_iff (got : List Byte) (hn : got.length = 8) :
    wordCompare (WaveDataHeader.ofBytes got).subChunk2ID DATA = true
      ↔ got.take 4 = DATA.toBytes := by
  match got, hn with
  | a :: b :: c :: d :: rest, _ =>
    rw [wordCompare_eq_true_iff]
    simpa [WaveDataHeader.ofBytes] using word_eq_iff_bytes a b c d DATA

theorem riff_ident_of_take (w0 : WaveFile) (file : List Byte) (h : file.take 4 = RIFF.toBytes) :
    wordCompare (w0.m_riffHeader.store (file.take 12)).chunkID RIFF = true := by
  match file, h with
  | a :: b :: c :: d :: rest, h =>
    have e : List.take 12 (a :: b :: c :: d :: rest) = a :: b :: c :: d :: List.take 8 rest := by
      simp
    rw [e, riff_store_chunkID, wordCompare_eq_true_iff, word_eq_iff_bytes]
    simpa using h

/-- The course of read on a file with a RIFF tag, a located format block of
audio format 1 and a located data header, both whole: what is left is the read
of the payload and the bookkeeping after it. -/
theorem read_located (w0 : WaveFile) (file : List Byte) (p q : Nat)
    (hriff : file.take 4 = RIFF.toBytes)
    (hp : findTag 102 FMT 24 0 12 (file.drop 12) = some p) (hpl : p + 24 ≤ file.length)
    (hpcm : (WaveFormatHeader.ofBytes ((file.drop p).take 24)).audioFormat = 1)
    (hq : findTag 100 DATA 8 0 (p + 24) (file.drop (p + 24)) = some q)
    (hql : q + 8 ≤ file.length) :
    read w0 file =
      (let w : WaveFile :=
        { w0 with
          m_riffHeader := RiffHeader.ofBytes (file.take 12)
          m_formatHeader := WaveFormatHeader.ofBytes ((file.drop p).take 24)
          m_dataHeader := WaveDataHeader.ofBytes ((file.drop q).take 8) }
      let r := IfStream.read { content := file, pos := q + 8, eofbit := false, failbit := false }
        w.m_dataHeader.subChunk2Size
      let w := { w with
        m_data := r.2 ++ List.replicate (w.m_dataHeader.subChunk2Size - r.2.length) 0 }
      if r.1.fail then ReadResult.error ReadError.closingFile w
      else
        let w :=
          if w.m_formatHeader.subChunk1Size ≠ sizeofWaveFormatHeader then
            { w with
              m_formatHeader :=
                { w.m_formatHeader with subChunk1Size := sizeofWaveFormatHeader - 4 - 4 }
              m_riffHeader :=
                { w.m_riffHeader with
                  chunkSize := intToU32
                    ((u32 (w.m_dataHeader.subChunk2Size + WAVE_HEADER_SIZE) : Int) - 4 - 4) } }
          else w
        if w.m_formatHeader.numChannels = 0 ∨ w.m_formatHeader.bitsPerSample / 8 = 0 then
          ReadResult.divisionByZero
        else
          ReadResult.ok { w with
            m_length := w.m_dataHeader.subChunk2Size / w.m_formatHeader.numChannels
              / (w.m_formatHeader.bitsPerSample / 8)
            m_nChannels := w.m_formatHeader.numChannels
            m_sampleRate := w.m_formatHeader.sampleRate
            m_bitDepth := w.m_formatHeader.bitsPerSample }) := by
  obtain ⟨hp12, _⟩ := findTag_spec _ _ _ _ _ _ _ hp
  have h12 : 0 + 12 ≤ file.length := by omega
  have s1 := IfStream_read_full file 0 12 h12
  simp only [Nat.zero_add, List.drop_zero] at s1
  have hl12 : (file.take 12).length = 12 := by
    rw [List.length_take]; omega
  have s2 := scan_of_findTag 102 24 WaveFormatHeader.store WaveFormatHeader.subChunk1ID FMT
    WaveFormatHeader.ofBytes (by decide) format_store_full format_ident_iff file p hpl
    (file.length + 2) 12 w0.m_formatHeader (by omega) hp
  have s3 := scan_of_findTag 100 8 WaveDataHeader.store WaveDataHeader.subChunk2ID DATA
    WaveDataHeader.ofBytes (by decide) data_store_full data_ident_iff file q hql
    (file.length + 2) (p + 24) w0.m_dataHeader (by omega) hq
  have hr := riff_ident_of_take w0 file hriff
  rw [riff_store_full _ _ hl12] at hr
  unfold read
  simp only [IfStream.ofFile, sizeofRiffHeader, sizeofWaveFormatHeader, sizeofWaveDataHeader, s1,
    riff_store_full _ _ hl12, hr, s2, s3, hpcm]
  simp

theorem IfStream_read_short (content : List Byte) (pos n : Nat)
    (h : content.length - pos < n) :
    (IfStream.read { content := content, pos := pos, eofbit := false, failbit := false } n).1.fail
      = true := by
  simp [IfStream.read, IfStream.good, IfStream.fail, h]

/-- C16: on a buffer that starts with the RIFF tag, in which the search of
read locates a whole format block of audio format 1 and after it a whole data
header, and whose data header declares more payload bytes than the buffer
holds after that header, read returns false with the message of the failed
stream (the truncated-data failure); it does not return true. -/
theorem read_truncated (w0 : WaveFile) (file : List Byte) (p q : Nat)
    (hriff : file.take 4 = RIFF.toBytes)
    (hp : findTag 102 FMT 24 0 12 (file.drop 12) = some p) (hpl : p + 24 ≤ file.length)
    (hpcm : (WaveFormatHeader.ofBytes ((file.drop p).take 24)).audioFormat = 1)
    (hq : findTag 100 DATA 8 0 (p + 24) (file.drop (p + 24)) = some q)
    (hql : q + 8 ≤ file.length)
    (hshort : file.length - (q + 8)
      < (WaveDataHeader.ofBytes ((file.drop q).take 8)).subChunk2Size) :
    ∃ w, read w0 file = ReadResult.error ReadError.closingFile w := by
  rw [read_located w0 file p q hriff hp hpl hpcm hq hql]
  simp only [IfStream_read_short file (q + 8) _ hshort, if_true]
  exact ⟨_, rfl⟩

/-- An instance of the truncated-data failure: a 44-byte header that declares
four payload bytes, followed by two. -/
theorem read_truncated_witness :
    ∃ w, read init [82, 73, 70, 70, 40, 0, 0, 0, 87, 65, 86, 69,
        102, 109, 116, 32, 16, 0, 0, 0, 1, 0, 1, 0, 68, 172, 0, 0, 68, 172, 0, 0, 1, 0, 8, 0,
        100, 97, 116, 97, 4, 0, 0, 0, 1, 2]
      = ReadResult.error ReadError.closingFile w :=
  read_truncated init _ 12 36 (by decide) (by decide) (by decide) (by decide) (by decide)
    (by decide) (by decide)

/-- C17, evaluated where the code departs from the claim: a RIFF block, a
12-byte "fact" chunk at offset 12, a format block at offset 24, a data header
at offset 48 and two payload bytes.  The first offset from 12 on that holds
"fmt " is 24, which is where a search that resumes one byte past a rejected
"f" ends; but read, having read 24 bytes at the "f" of "fact" without seeking
back, goes on from offset 36, never examines offset 24 and returns false with
the missing-format-header message. -/
theorem read_skips_format_block :
    findTag 102 FMT 1 0 12 (List.drop 12 [82, 73, 70, 70, 50, 0, 0, 0, 87, 65, 86, 69,
        102, 97, 99, 116, 4, 0, 0, 0, 2, 0, 0, 0,
        102, 109, 116, 32, 16, 0, 0, 0, 1, 0, 1, 0, 68, 172, 0, 0, 68, 172, 0, 0, 1, 0, 8, 0,
        100, 97, 116, 97, 2, 0, 0, 0, 1, 2]) = some 24
    ∧ ∃ w, read init [82, 73, 70, 70, 50, 0, 0, 0, 87, 65, 86, 69,
        102, 97, 99, 116, 4, 0, 0, 0, 2, 0, 0, 0,
        102, 109, 116, 32, 16, 0, 0, 0, 1, 0, 1, 0, 68, 172, 0, 0, 68, 172, 0, 0, 1, 0, 8, 0,
        100, 97, 116, 97, 2, 0, 0, 0, 1, 2]
      = ReadResult.error ReadError.missingFormatHeader w :=
  ⟨by decide, _, rfl⟩

/-- The blocks that the loops of read, as they are written, end at: on a
buffer that starts with the RIFF tag, the format block taken is the 24 bytes at
the offset p where the search with resume distance 24 ends, and the data
header is the 8 bytes at the offset q where the search with resume distance 8
ends, started at p + 24.  When both are whole, the audio format is 1, the
declared payload is in the buffer and neither divisor of the frame count is 0,
read returns true with every format field but subChunk1Size taken from the
block at p, the data header from q and the payload from q + 8. -/
theorem read_takes_located_blocks (w0 : WaveFile) (file : List Byte) (p q : Nat)
    (hriff : file.take 4 = RIFF.toBytes)
    (hp : findTag 102 FMT 24 0 12 (file.drop 12) = some p) (hpl : p + 24 ≤ file.length)
    (hpcm : (WaveFormatHeader.ofBytes ((file.drop p).take 24)).audioFormat = 1)
    (hq : findTag 100 DATA 8 0 (p + 24) (file.drop (p + 24)) = some q)
    (hql : q + 8 ≤ file.length)
    (hpay : q + 8 + (WaveDataHeader.ofBytes ((file.drop q).take 8)).subChunk2Size ≤ file.length)
    (hch : (WaveFormatHeader.ofBytes ((file.drop p).take 24)).numChannels ≠ 0)
    (hbps : (WaveFormatHeader.ofBytes ((file.drop p).take 24)).bitsPerSample / 8 ≠ 0) :
    ∃ w, read w0 file = ReadResult.ok w
      ∧ w.m_formatHeader = { WaveFormatHeader.ofBytes ((file.drop p).take 24) with
          subChunk1Size := w.m_formatHeader.subChunk1Size }
      ∧ w.m_dataHeader = WaveDataHeader.ofBytes ((file.drop q).take 8)
      ∧ w.m_data = (file.drop (q + 8)).take w.m_dataHeader.subChunk2Size
      ∧ 12 ≤ p ∧ (file.drop p).take 4 = FMT.toBytes
      ∧ p + 24 ≤ q ∧ (file.drop q).take 4 = DATA.toBytes := by
  obtain ⟨hp12, hpt⟩ := findTag_spec _ _ _ _ _ _ _ hp
  obtain ⟨hq12, hqt⟩ := findTag_spec _ _ _ _ _ _ _ hq
  have e1 : 12 + (p - 12) = p := by omega
  have e2 : p + 24 + (q - (p + 24)) = q := by omega
  rw [List.drop_drop, e1] at hpt
  rw [List.drop_drop, e2] at hqt
  rw [read_located w0 file p q hriff hp hpl hpcm hq hql]
  simp only [IfStream_read_full file (q + 8) _ hpay, IfStream.fail, Bool.false_eq_true, if_false]
  have hgl : ((file.drop (q + 8)).take
      (WaveDataHeader.ofBytes ((file.drop q).take 8)).subChunk2Size).length
      = (WaveDataHeader.ofBytes ((file.drop q).take 8)).subChunk2Size := by
    rw [List.length_take, List.length_drop]
    omega
  split_ifs with h1 h2 h3
  · exact absurd h2 (by simpa using ⟨hch, hbps⟩)
  · exact ⟨_, rfl, rfl, rfl, by simp [hgl], by omega, hpt, by omega, hqt⟩
  · exact absurd h3 (by simpa using ⟨hch, hbps⟩)
  · exact ⟨_, rfl, rfl, rfl, by simp [hgl], by omega, hpt, by omega, hqt⟩

/-- An instance of the search: a "fact" chunk of 24 bytes at offset 12 is read
and rejected, the format block is taken at offset 36 and the data header at
offset 60. -/
theorem read_takes_located_blocks_witness :
    findTag 102 FMT 24 0 12 (List.drop 12 [82, 73, 70, 70, 58, 0, 0, 0, 87, 65, 86, 69,
        102, 97, 99, 116, 16, 0, 0, 0, 2, 0, 0, 0, 0, 0, 0, 0, 0, 0, 0, 0, 0, 0, 0, 0,
        102, 109, 116, 32, 16, 0, 0, 0, 1, 0, 1, 0, 68, 172, 0, 0, 68, 172, 0, 0, 1, 0, 8, 0,
        100, 97, 116, 97, 2, 0, 0, 0, 1, 2]) = some 36
    ∧ ∃ w, read init [82, 73, 70, 70, 58, 0, 0, 0, 87, 65, 86, 69,
        102, 97, 99, 116, 16, 0, 0, 0, 2, 0, 0, 0, 0, 0, 0, 0, 0, 0, 0, 0, 0, 0, 0, 0,
        102, 109, 116, 32, 16, 0, 0, 0, 1, 0, 1, 0, 68, 172, 0, 0, 68, 172, 0, 0, 1, 0, 8, 0,
        100, 97, 116, 97, 2, 0, 0, 0, 1, 2] = ReadResult.ok w
      ∧ w.m_dataHeader = { subChunk2ID := DATA, subChunk2Size := 2 }
      ∧ w.m_data = [1, 2] :=
  have h := read_takes_located_blocks init [82, 73, 70, 70, 58, 0, 0, 0, 87, 65, 86, 69,
        102, 97, 99, 116, 16, 0, 0, 0, 2, 0, 0, 0, 0, 0, 0, 0, 0, 0, 0, 0, 0, 0, 0, 0,
        102, 109, 116, 32, 16, 0, 0, 0, 1, 0, 1, 0, 68, 172, 0, 0, 68, 172, 0, 0, 1, 0, 8, 0,
        100, 97, 116, 97, 2, 0, 0, 0, 1, 2] 36 60 (by decide) (by decide) (by decide)
      (by decide) (by decide) (by decide) (by decide) (by decide) (by decide)
  ⟨by decide, h.choose, h.choose_spec.1,
    h.choose_spec.2.2.1.trans (by decide),
    h.choose_spec.2.2.2.1.trans (by rw [h.choose_spec.2.2.1]; decide)⟩

/-- read on a 46-byte header whose format block declares subChunk1Size 18 and
whose data header declares 2^32 - 1 payload bytes, followed by that many bytes. -/
theorem read_long_payload (pay : List Byte) (hlen : pay.length = 4294967295) :
    (WaveFormatHeader.ofBytes (List.take 24 (List.drop 12
        ([82, 73, 70, 70, 0, 0, 0, 0, 87, 65, 86, 69,
          102, 109, 116, 32, 18, 0, 0, 0, 1, 0, 1, 0, 68, 172, 0, 0, 68, 172, 0, 0, 1, 0, 8, 0,
          0, 0, 100, 97, 116, 97, 255, 255, 255, 255] ++ pay)))).subChunk1Size = 18
    ∧ ∃ w, read init ([82, 73, 70, 70, 0, 0, 0, 0, 87, 65, 86, 69,
          102, 109, 116, 32, 18, 0, 0, 0, 1, 0, 1, 0, 68, 172, 0, 0, 68, 172, 0, 0, 1, 0, 8, 0,
          0, 0, 100, 97, 116, 97, 255, 255, 255, 255] ++ pay) = ReadResult.ok w
      ∧ w.m_formatHeader.subChunk1Size = 16
      ∧ w.m_dataHeader.subChunk2Size = 4294967295
      ∧ w.m_riffHeader.chunkSize = 35
      ∧ w.m_riffHeader.chunkSize ≠ w.m_dataHeader.subChunk2Size + 36 := by
  have hdh : WaveDataHeader.ofBytes (List.take 8 (List.drop 38
      (([82, 73, 70, 70, 0, 0, 0, 0, 87, 65, 86, 69,
          102, 109, 116, 32, 18, 0, 0, 0, 1, 0, 1, 0, 68, 172, 0, 0, 68, 172, 0, 0, 1, 0, 8, 0,
          0, 0, 100, 97, 116, 97, 255, 255, 255, 255] : List Byte) ++ pay)))
      = { subChunk2ID := DATA, subChunk2Size := 4294967295 } := by
    simp only [List.cons_append, List.drop_succ_cons, List.drop_zero, List.take_succ_cons,
      List.take_zero]
    decide
  have hfh : WaveFormatHeader.ofBytes (List.take 24 (List.drop 12
      (([82, 73, 70, 70, 0, 0, 0, 0, 87, 65, 86, 69,
          102, 109, 116, 32, 18, 0, 0, 0, 1, 0, 1, 0, 68, 172, 0, 0, 68, 172, 0, 0, 1, 0, 8, 0,
          0, 0, 100, 97, 116, 97, 255, 255, 255, 255] : List Byte) ++ pay)))
      = { subChunk1ID := FMT, subChunk1Size := 18, audioFormat := 1, numChannels := 1,
          sampleRate := 44100, byteRate := 44100, blockAlign := 1, bitsPerSample := 8 } := by
    simp only [List.cons_append, List.drop_succ_cons, List.drop_zero, List.take_succ_cons,
      List.take_zero]
    decide
  refine ⟨by rw [hfh], ?_⟩
  have hriff : List.take 4 (([82, 73, 70, 70, 0, 0, 0, 0, 87, 65, 86, 69,
          102, 109, 116, 32, 18, 0, 0, 0, 1, 0, 1, 0, 68, 172, 0, 0, 68, 172, 0, 0, 1, 0, 8, 0,
          0, 0, 100, 97, 116, 97, 255, 255, 255, 255] : List Byte) ++ pay) = RIFF.toBytes := by
    simp only [List.cons_append, List.take_succ_cons, List.take_zero]
    decide
  have hp : findTag 102 FMT 24 0 12 (List.drop 12 (([82, 73, 70, 70, 0, 0, 0, 0, 87, 65, 86, 69,
          102, 109, 116, 32, 18, 0, 0, 0, 1, 0, 1, 0, 68, 172, 0, 0, 68, 172, 0, 0, 1, 0, 8, 0,
          0, 0, 100, 97, 116, 97, 255, 255, 255, 255] : List Byte) ++ pay)) = some 12 := by
    simp only [List.cons_append, List.drop_succ_cons, List.drop_zero]
    simp [findTag, FMT, Word.toBytes]
  have hq : findTag 100 DATA 8 0 (12 + 24) (List.drop (12 + 24)
      (([82, 73, 70, 70, 0, 0, 0, 0, 87, 65, 86, 69,
          102, 109, 116, 32, 18, 0, 0, 0, 1, 0, 1, 0, 68, 172, 0, 0, 68, 172, 0, 0, 1, 0, 8, 0,
          0, 0, 100, 97, 116, 97, 255, 255, 255, 255] : List Byte) ++ pay)) = some 38 := by
    simp only [Nat.reduceAdd, List.cons_append, List.drop_succ_cons, List.drop_zero]
    simp [findTag, DATA, Word.toBytes]
  have hL : (([82, 73, 70, 70, 0, 0, 0, 0, 87, 65, 86, 69,
          102, 109, 116, 32, 18, 0, 0, 0, 1, 0, 1, 0, 68, 172, 0, 0, 68, 172, 0, 0, 1, 0, 8, 0,
          0, 0, 100, 97, 116, 97, 255, 255, 255, 255] : List Byte) ++ pay).length
      = 46 + 4294967295 := by
    simp only [List.length_append, hlen]
    rfl
  rw [read_located init _ 12 38 hriff hp (by rw [hL]; decide) (by rw [hfh]) hq
    (by rw [hL]; decide)]
  simp only [hdh, hfh]
  rw [IfStream_read_full _ 46 4294967295 (by rw [hL])]
  simp [IfStream.fail, sizeofWaveFormatHeader, intToU32, u32, WAVE_HEADER_SIZE,
    sizeofRiffHeader, sizeofWaveDataHeader]

/-- C18, at an input where the claim fails: a 46-byte header whose format
block declares subChunk1Size 18 and whose data header declares 2^32 - 1
payload bytes, followed by that many zero bytes.  read returns true with
subChunk1Size 16 and the RIFF chunkSize 35, which is 2^32 - 1 + 36 reduced
modulo 2^32, not 2^32 - 1 + 36. -/
theorem read_chunkSize_wraps :
    (WaveFormatHeader.ofBytes (List.take 24 (List.drop 12
        ([82, 73, 70, 70, 0, 0, 0, 0, 87, 65, 86, 69,
          102, 109, 116, 32, 18, 0, 0, 0, 1, 0, 1, 0, 68, 172, 0, 0, 68, 172, 0, 0, 1, 0, 8, 0,
          0, 0, 100, 97, 116, 97, 255, 255, 255, 255]
          ++ List.replicate 4294967295 0)))).subChunk1Size = 18
    ∧ ∃ w, read init ([82, 73, 70, 70, 0, 0, 0, 0, 87, 65, 86, 69,
          102, 109, 116, 32, 18, 0, 0, 0, 1, 0, 1, 0, 68, 172, 0, 0, 68, 172, 0, 0, 1, 0, 8, 0,
          0, 0, 100, 97, 116, 97, 255, 255, 255, 255]
          ++ List.replicate 4294967295 0) = ReadResult.ok w
      ∧ w.m_formatHeader.subChunk1Size = 16
      ∧ w.m_dataHeader.subChunk2Size = 4294967295
      ∧ w.m_riffHeader.chunkSize = 35
      ∧ w.m_riffHeader.chunkSize ≠ w.m_dataHeader.subChunk2Size + 36 :=
  read_long_payload (List.replicate 4294967295 0) (List.length_replicate _ _)

/-- A format block that declares subChunk1Size 24 (eight bytes follow the
sixteen of the struct): read returns true and keeps 24 as subChunk1Size and 54,
the value in the file, as chunkSize, because the test before the recalculation
compares the declared size with the size of the whole struct. -/
theorem read_declared_24_kept :
    ∃ w, read init [82, 73, 70, 70, 54, 0, 0, 0, 87, 65, 86, 69,
        102, 109, 116, 32, 24, 0, 0, 0, 1, 0, 1, 0, 68, 172, 0, 0, 68, 172, 0, 0, 1, 0, 8, 0,
        0, 0, 0, 0, 0, 0, 0, 0, 100, 97, 116, 97, 2, 0, 0, 0, 1, 2] = ReadResult.ok w
      ∧ w.m_formatHeader.subChunk1Size = 24 ∧ w.m_riffHeader.chunkSize = 54
      ∧ w.m_dataHeader.subChunk2Size = 2 :=
  ⟨_, rfl, rfl, rfl, rfl⟩

/-- C18 (amended): on a buffer that read parses successfully (RIFF tag, a
located whole format block of audio format 1, a located whole data header, the
declared payload present, neither divisor of the frame count 0) and whose
format block declares a subChunk1Size different from 16 and from 24, the
stored subChunk1Size is 16 and the stored RIFF chunkSize is subChunk2Size + 36
reduced modulo 2^32. -/
theorem read_recalculates_sizes (w0 : WaveFile) (file : List Byte) (p q : Nat)
    (hriff : file.take 4 = RIFF.toBytes)
    (hp : findTag 102 FMT 24 0 12 (file.drop 12) = some p) (hpl : p + 24 ≤ file.length)
    (hpcm : (WaveFormatHeader.ofBytes ((file.drop p).take 24)).audioFormat = 1)
    (hq : findTag 100 DATA 8 0 (p + 24) (file.drop (p + 24)) = some q)
    (hql : q + 8 ≤ file.length)
    (hpay : q + 8 + (WaveDataHeader.ofBytes ((file.drop q).take 8)).subChunk2Size ≤ file.length)
    (hch : (WaveFormatHeader.ofBytes ((file.drop p).take 24)).numChannels ≠ 0)
    (hbps : (WaveFormatHeader.ofBytes ((file.drop p).take 24)).bitsPerSample / 8 ≠ 0)
    (hdecl : (WaveFormatHeader.ofBytes ((file.drop p).take 24)).subChunk1Size ≠ 16
      ∧ (WaveFormatHeader.ofBytes ((file.drop p).take 24)).subChunk1Size ≠ 24) :
    ∃ w, read w0 file = ReadResult.ok w
      ∧ w.m_formatHeader.subChunk1Size = 16
      ∧ w.m_dataHeader.subChunk2Size
          = (WaveDataHeader.ofBytes ((file.drop q).take 8)).subChunk2Size
      ∧ w.m_riffHeader.chunkSize = (w.m_dataHeader.subChunk2Size + 36) % 4294967296 := by
  rw [read_located w0 file p q hriff hp hpl hpcm hq hql]
  have h24 := hdecl.2
  simp only [IfStream_read_full file (q + 8) _ hpay, IfStream.fail, Bool.false_eq_true, if_false,
    sizeofWaveFormatHeader, ne_eq, h24, not_false_eq_true, if_true, hch, hbps, or_self]
  refine ⟨_, rfl, rfl, rfl, ?_⟩
  simp only [intToU32, u32, WAVE_HEADER_SIZE, sizeofRiffHeader, sizeofWaveFormatHeader,
    sizeofWaveDataHeader]
  omega

/-- An instance of the recalculation: a format block that declares
subChunk1Size 18, with two bytes between it and the data header. -/
theorem read_recalculates_sizes_witness :
    (WaveFormatHeader.ofBytes (List.take 24 (List.drop 12
        [82, 73, 70, 70, 99, 0, 0, 0, 87, 65, 86, 69,
          102, 109, 116, 32, 18, 0, 0, 0, 1, 0, 1, 0, 68, 172, 0, 0, 68, 172, 0, 0, 1, 0, 8, 0,
          0, 0, 100, 97, 116, 97, 2, 0, 0, 0, 1, 2]))).subChunk1Size = 18
    ∧ ∃ w, read init [82, 73, 70, 70, 99, 0, 0, 0, 87, 65, 86, 69,
          102, 109, 116, 32, 18, 0, 0, 0, 1, 0, 1, 0, 68, 172, 0, 0, 68, 172, 0, 0, 1, 0, 8, 0,
          0, 0, 100, 97, 116, 97, 2, 0, 0, 0, 1, 2] = ReadResult.ok w
      ∧ w.m_formatHeader.subChunk1Size = 16
      ∧ w.m_dataHeader.subChunk2Size = 2
      ∧ w.m_riffHeader.chunkSize = (w.m_dataHeader.subChunk2Size + 36) % 4294967296 :=
  ⟨by decide,
    read_recalculates_sizes init _ 12 38 (by decide) (by decide) (by decide) (by decide)
      (by decide) (by decide) (by decide) (by decide) (by decide) (by decide)⟩

end WaveFile

/-! ## WaveFile: reading a 16-bit frame and writing it back -/

namespace WaveFile

theorem toUInt8_decode16_lo (b0 b1 : Byte) : toUInt8 (decode16 b0.val b1.val) = b0 := by
  apply Fin.ext
  have h0 := b0.isLt
  have h1 := b1.isLt
  have e := toUInt8_val (decode16 b0.val b1.val)
  unfold decode16 toInt16 at e
  rw [or_shiftLeft _ _ 8 (by omega)] at e
  push_cast at e
  unfold decode16 toInt16
  rw [or_shiftLeft _ _ 8 (by omega)]
  push_cast
  omega

theorem toUInt8_decode16_hi (b0 b1 : Byte) :
    toUInt8 (decode16 b0.val b1.val >>> (8 : Nat)) = b1 := by
  apply Fin.ext
  have h0 := b0.isLt
  have h1 := b1.isLt
  have e := toUInt8_shift8 (decode16 b0.val b1.val)
  unfold decode16 toInt16 at e
  rw [or_shiftLeft _ _ 8 (by omega)] at e
  push_cast at e
  unfold decode16 toInt16
  rw [or_shiftLeft _ _ 8 (by omega)]
  push_cast
  omega

/-- A 16-bit value other than -32768, divided by 32767 and scaled back. -/
theorem castInt16_div_mul (v : Int) (h1 : -32767 ≤ v) (h2 : v ≤ 32767) :
    castInt16 ((v : ℚ) / (INT16_MAX : ℚ) * (INT16_MAX : ℚ)) = v := by
  have e : (INT16_MAX : ℚ) ≠ 0 := by norm_num [INT16_MAX]
  rw [div_mul_cancel₀ _ e, castInt16, trunc_intCast, toInt16_of_range _ (by omega) (by omega)]

theorem div_INT16_MAX_inRange (v : Int) (h1 : -32767 ≤ v) (h2 : v ≤ 32767) :
    (-1 : ℚ) ≤ (v : ℚ) / (INT16_MAX : ℚ) ∧ (v : ℚ) / (INT16_MAX : ℚ) ≤ 1 := by
  have e : (INT16_MAX : ℚ) = 32767 := by norm_num [INT16_MAX]
  rw [e]
  have a1 : ((-32767 : Int) : ℚ) ≤ (v : ℚ) := by exact_mod_cast h1
  have a2 : (v : ℚ) ≤ ((32767 : Int) : ℚ) := by exact_mod_cast h2
  push_cast at a1 a2
  constructor
  · rw [le_div_iff₀ (by norm_num)]; linarith
  · rw [div_le_iff₀ (by norm_num)]; linarith

theorem set_of_getElem? (d : List Byte) (i : Nat) (b : Byte) (h : d[i]? = some b) :
    d.set i b = d := by
  induction d generalizing i with
  | nil => rfl
  | cons c cs ih =>
    cases i with
    | zero =>
      simp only [List.getElem?_cons_zero, Option.some.injEq] at h
      rw [List.set_cons_zero, h]
    | succ n =>
      simp only [List.getElem?_cons_succ] at h
      rw [List.set_cons_succ, ih n h]

/-- Re-encoding one decoded 16-bit channel stores the two bytes it was decoded from. -/
theorem reencode16 (d : List Byte) (k : Nat) (b0 b1 : Byte) (h32 : k + 1 < 4294967296)
    (h0 : d[k]? = some b0) (h1 : d[k + 1]? = some b1)
    (hv : decode16 b0.val b1.val ≠ -32768) :
    peek d k = some b0.val ∧ peek d (k + 1) = some b1.val
    ∧ (-1 : ℚ) ≤ (decode16 b0.val b1.val : ℚ) / (INT16_MAX : ℚ)
    ∧ (decode16 b0.val b1.val : ℚ) / (INT16_MAX : ℚ) ≤ 1
    ∧ poke d k (castInt16 ((decode16 b0.val b1.val : ℚ) / (INT16_MAX : ℚ) * (INT16_MAX : ℚ)))
        = some d
    ∧ poke d (k + 1)
        (castInt16 ((decode16 b0.val b1.val : ℚ) / (INT16_MAX : ℚ) * (INT16_MAX : ℚ))
          >>> (8 : Nat)) = some d := by
  have hr := toInt16_range (((b0.val ||| (b1.val <<< 8) : Nat) : Int))
  have hr1 : -32767 ≤ decode16 b0.val b1.val := by
    unfold decode16 at hv ⊢
    omega
  have hr2 : decode16 b0.val b1.val ≤ 32767 := by
    unfold decode16
    omega
  have hk0 : k < d.length := by
    by_contra hc
    rw [List.getElem?_eq_none (by omega)] at h0
    exact Option.noConfusion h0
  have hk1 : k + 1 < d.length := by
    by_contra hc
    rw [List.getElem?_eq_none (by omega)] at h1
    exact Option.noConfusion h1
  have hin := div_INT16_MAX_inRange _ hr1 hr2
  refine ⟨?_, ?_, hin.1, hin.2, ?_, ?_⟩
  · rw [peek_eq _ _ (by omega), h0]; rfl
  · rw [peek_eq _ _ h32, h1]; rfl
  · rw [castInt16_div_mul _ hr1 hr2, poke_eq_some _ _ _ (by omega) hk0, toUInt8_decode16_lo,
      set_of_getElem? _ _ _ h0]
  · rw [castInt16_div_mul _ hr1 hr2, poke_eq_some _ _ _ h32 hk1, toUInt8_decode16_hi,
      set_of_getElem? _ _ _ h1]

/-- C23, at an input where the claim fails: a 16-bit mono container of one
frame whose payload is the two bytes 0x00 0x80, the value -32768.  getSample
gives the left channel -1 (the quotient -32768/32767 is clamped), and writing
that sample back stores -32767, the bytes 0x01 0x80. -/
theorem getSample_setSample_16_minimum :
    ∃ a v, getSample { create 1 44100 1 16 with m_data := [0, 128] } 0 = some a
      ∧ a = { left := -1, right := 0 }
      ∧ setSample { create 1 44100 1 16 with m_data := [0, 128] } 0 a = some v
      ∧ v.m_data = [1, 128] := by
  have hd : decodeFrame { create 1 44100 1 16 with m_data := [0, 128] } 0
      = some (some (((-32768 : Int) : ℚ) / (INT16_MAX : ℚ), 0)) := by
    have hbd : (create 1 44100 1 16).m_bitDepth = 16 := rfl
    have hch : (create 1 44100 1 16).m_nChannels = 1 := rfl
    have p0 : peek [0, 128] 0 = some 0 := by decide
    have p1 : peek [0, 128] (0 + 1) = some 128 := by decide
    have dv : decode16 0 128 = -32768 := by decide
    simp only [decodeFrame, hbd, hch, p0, p1]
    simp [dv]
  have hs : AudioSample.stereo (((-32768 : Int) : ℚ) / (INT16_MAX : ℚ)) 0
      = { left := -1, right := 0 } := by
    simp only [AudioSample.stereo, AudioSample.clampValues, clamp]
    norm_num [INT16_MAX]
  have hc : castInt16 ((-1 : ℚ) * (INT16_MAX : ℚ)) = -32767 := by
    have e : (-1 : ℚ) * (INT16_MAX : ℚ) = ((-32767 : Int) : ℚ) := by norm_num [INT16_MAX]
    rw [castInt16, e, trunc_intCast]
    decide
  have he : encodeFrame { create 1 44100 1 16 with m_data := [0, 128] } 0
      { left := -1, right := 0 } = some (some [1, 128]) := by
    have hbd : (create 1 44100 1 16).m_bitDepth = 16 := rfl
    have hch : (create 1 44100 1 16).m_nChannels = 1 := rfl
    simp only [encodeFrame, hbd, hch, hc]
    decide
  have hg := getSample_of_decodeFrame { create 1 44100 1 16 with m_data := [0, 128] } 0 _
    (by decide) hd
  rw [hs] at hg
  exact ⟨_, _, hg, rfl, setSample_of_encodeFrame _ 0 _ _ (by decide) he, rfl⟩

/-- C23 (amended): in a 16-bit container with one or two channels whose
payload holds frameCount * channelCount * 2 bytes, at an index below
frameCount, when none of the frame's channel values that the container uses is
stored as -32768, reading the frame and writing it back leaves the whole
object, payload included, unchanged (sample values taken as exact rationals). -/
theorem getSample_setSample_16 (w : WaveFile) (i : Nat)
    (hbd : w.m_bitDepth = 16) (hch : w.m_nChannels = 1 ∨ w.m_nChannels = 2)
    (hi : i < w.m_length)
    (hlen : w.m_data.length = w.m_length * w.m_nChannels * (w.m_bitDepth / 8))
    (hmin : ∀ k, k < w.m_nChannels →
      decode16 (w.m_data.getD (frameIndex w i + 2 * k) 0).val
        (w.m_data.getD (frameIndex w i + 2 * k + 1) 0).val ≠ -32768) :
    ∃ a, getSample w i = some a ∧ setSample w i a = some w := by
  have hget : ∀ k, k < w.m_data.length → ∃ b, w.m_data[k]? = some b :=
    fun k hk => ⟨_, List.getElem?_eq_getElem hk⟩
  have hD : ∀ k b, w.m_data[k]? = some b → w.m_data.getD k 0 = b := by
    intro k b h
    rw [List.getD_eq_getElem?_getD, h]
    rfl
  rcases hch with hch | hch
  · have hidx : frameIndex w i = u32 (i * 2) := by
      simp only [frameIndex, hbd, hch]; congr 1; omega
    rw [hbd, hch] at hlen
    have k0 : frameIndex w i + 1 < w.m_data.length := by rw [hidx]; unfold u32; omega
    have k32 : frameIndex w i + 1 < 4294967296 := by rw [hidx]; unfold u32; omega
    obtain ⟨b0, g0⟩ := hget (frameIndex w i) (by omega)
    obtain ⟨b1, g1⟩ := hget (frameIndex w i + 1) k0
    obtain ⟨p0, p1, r1, r2, q0, q1⟩ := reencode16 w.m_data (frameIndex w i) b0 b1 k32 g0 g1
      (by have := hmin 0 (by omega); rwa [Nat.mul_zero, Nat.add_zero, hD _ _ g0, hD _ _ g1] at this)
    have hd : decodeFrame w (frameIndex w i) = some (some
        ((decode16 b0.val b1.val : ℚ) / (INT16_MAX : ℚ), 0)) := by
      simp only [decodeFrame, hbd, hch, p0, p1]
      simp
    have he : encodeFrame w (frameIndex w i)
        { left := (decode16 b0.val b1.val : ℚ) / (INT16_MAX : ℚ), right := 0 }
        = some (some w.m_data) := by
      simp only [encodeFrame, hbd, hch, q0]
      simp [q1]
    refine ⟨_, getSample_of_decodeFrame w i _ hi.le hd, ?_⟩
    rw [AudioSample.stereo_of_inRange _ _ r1 r2 (by norm_num) (by norm_num)]
    exact setSample_of_encodeFrame w i _ _ hi.le he
  · have hidx : frameIndex w i = u32 (i * 4) := by
      simp only [frameIndex, hbd, hch]; congr 1; omega
    rw [hbd, hch] at hlen
    have k0 : frameIndex w i + 3 < w.m_data.length := by rw [hidx]; unfold u32; omega
    have k32 : frameIndex w i + 3 < 4294967296 := by rw [hidx]; unfold u32; omega
    obtain ⟨b0, g0⟩ := hget (frameIndex w i) (by omega)
    obtain ⟨b1, g1⟩ := hget (frameIndex w i + 1) (by omega)
    obtain ⟨b2, g2⟩ := hget (frameIndex w i + 2) (by omega)
    obtain ⟨b3, g3⟩ := hget (frameIndex w i + 2 + 1) (by omega)
    obtain ⟨p0, p1, r1, r2, q0, q1⟩ := reencode16 w.m_data (frameIndex w i) b0 b1 (by omega)
      g0 g1 (by have := hmin 0 (by omega); rwa [Nat.mul_zero, Nat.add_zero, hD _ _ g0, hD _ _ g1] at this)
    obtain ⟨p2, p3, r3, r4, q2, q3⟩ := reencode16 w.m_data (frameIndex w i + 2) b2 b3
      (by omega) g2 g3 (by have := hmin 1 (by omega); rwa [Nat.mul_one, hD _ _ g2, hD _ _ g3] at this)
    have e3 : frameIndex w i + 3 = frameIndex w i + 2 + 1 := rfl
    have hd : decodeFrame w (frameIndex w i) = some (some
        ((decode16 b0.val b1.val : ℚ) / (INT16_MAX : ℚ),
         (decode16 b2.val b3.val : ℚ) / (INT16_MAX : ℚ))) := by
      simp only [decodeFrame, hbd, hch, e3, p0, p1, p2, p3]
      simp
    have he : encodeFrame w (frameIndex w i)
        { left := (decode16 b0.val b1.val : ℚ) / (INT16_MAX : ℚ),
          right := (decode16 b2.val b3.val : ℚ) / (INT16_MAX : ℚ) }
        = some (some w.m_data) := by
      simp only [encodeFrame, hbd, hch, e3, q0]
      simp [q1, q2, q3]
    refine ⟨_, getSample_of_decodeFrame w i _ hi.le hd, ?_⟩
    rw [AudioSample.stereo_of_inRange _ _ r1 r2 r3 r4]
    exact setSample_of_encodeFrame w i _ _ hi.le he

/-- An instance of the read-and-write-back identity: frame 1 of a two-frame
stereo container whose payload holds the values 1, -1, 32767 and -32767. -/
theorem getSample_setSample_16_witness :
    ∃ a, getSample { create 2 44100 2 16 with m_data := [1, 0, 255, 255, 255, 127, 1, 128] } 1
        = some a
      ∧ setSample { create 2 44100 2 16 with m_data := [1, 0, 255, 255, 255, 127, 1, 128] } 1 a
        = some { create 2 44100 2 16 with m_data := [1, 0, 255, 255, 255, 127, 1, 128] } :=
  getSample_setSample_16 { create 2 44100 2 16 with m_data := [1, 0, 255, 255, 255, 127, 1, 128] }
    1 rfl (Or.inr rfl) (by decide) (by decide) (by decide)

end WaveFile

/-! ## WaveFile: the subscripts of getSample and setSample -/

namespace WaveFile

/-- A subscript inside the array delivers a byte. -/
theorem peek_some (d : List Byte) (k : Nat) (h32 : k < 4294967296) (h : k < d.length) :
    ∃ b, peek d k = some b := by
  rw [peek_eq _ _ h32, List.getElem?_eq_getElem h]
  exact ⟨_, rfl⟩

theorem peek_none (d : List Byte) (k : Nat) (h32 : k < 4294967296) (h : d.length ≤ k) :
    peek d k = none := by
  rw [peek_eq _ _ h32, List.getElem?_eq_none h]
  rfl

theorem poke_none (d : List Byte) (k : Nat) (v : Int) (h32 : k < 4294967296)
    (h : d.length ≤ k) : poke d k v = none := by
  unfold poke
  rw [u32_of_lt h32, if_neg (by omega)]

/-- When the bytes of a whole frame are inside the array, the decoding of the
frame meets no subscript outside it. -/
theorem decodeFrame_some (w : WaveFile) (idx : Nat)
    (hch : w.m_nChannels = 1 ∨ w.m_nChannels = 2)
    (hbd : w.m_bitDepth = 8 ∨ w.m_bitDepth = 16 ∨ w.m_bitDepth = 24 ∨ w.m_bitDepth = 32)
    (h32 : idx + w.m_nChannels * (w.m_bitDepth / 8) ≤ 4294967296)
    (hlen : idx + w.m_nChannels * (w.m_bitDepth / 8) ≤ w.m_data.length) :
    ∃ lr, decodeFrame w idx = some (some lr) := by
  have P : ∀ k, k < w.m_nChannels * (w.m_bitDepth / 8) →
      ∃ b, peek w.m_data (idx + k) = some b :=
    fun k hk => peek_some _ _ (by omega) (by omega)
  rcases hbd with hbd | hbd | hbd | hbd <;> rcases hch with hch | hch <;>
    simp only [hbd, hch, Nat.reduceDiv, Nat.reduceMul] at P <;>
    simp only [decodeFrame, hbd, hch]
  · obtain ⟨b0, p0⟩ := P 0 (by omega)
    rw [Nat.add_zero] at p0
    simp only [p0]
    simp
  · obtain ⟨b0, p0⟩ := P 0 (by omega)
    rw [Nat.add_zero] at p0
    obtain ⟨b1, p1⟩ := P 1 (by omega)
    simp only [p0, p1]
    simp
  · obtain ⟨b0, p0⟩ := P 0 (by omega)
    rw [Nat.add_zero] at p0
    obtain ⟨b1, p1⟩ := P 1 (by omega)
    simp only [p0, p1]
    simp
  · obtain ⟨b0, p0⟩ := P 0 (by omega)
    rw [Nat.add_zero] at p0
    obtain ⟨b1, p1⟩ := P 1 (by omega)
    obtain ⟨b2, p2⟩ := P 2 (by omega)
    obtain ⟨b3, p3⟩ := P 3 (by omega)
    simp only [p0, p1, p2, p3]
    simp
  · obtain ⟨b0, p0⟩ := P 0 (by omega)
    rw [Nat.add_zero] at p0
    obtain ⟨b1, p1⟩ := P 1 (by omega)
    obtain ⟨b2, p2⟩ := P 2 (by omega)
    simp only [p0, p1, p2]
    simp
  · obtain ⟨b0, p0⟩ := P 0 (by omega)
    rw [Nat.add_zero] at p0
    obtain ⟨b1, p1⟩ := P 1 (by omega)
    obtain ⟨b2, p2⟩ := P 2 (by omega)
    obtain ⟨b3, p3⟩ := P 3 (by omega)
    obtain ⟨b4, p4⟩ := P 4 (by omega)
    obtain ⟨b5, p5⟩ := P 5 (by omega)
    simp only [p0, p1, p2, p3, p4, p5]
    simp
  · obtain ⟨b0, p0⟩ := P 0 (by omega)
    rw [Nat.add_zero] at p0
    obtain ⟨b1, p1⟩ := P 1 (by omega)
    obtain ⟨b2, p2⟩ := P 2 (by omega)
    obtain ⟨b3, p3⟩ := P 3 (by omega)
    simp only [p0, p1, p2, p3]
    simp
  · obtain ⟨b0, p0⟩ := P 0 (by omega)
    rw [Nat.add_zero] at p0
    obtain ⟨b1, p1⟩ := P 1 (by omega)
    obtain ⟨b2, p2⟩ := P 2 (by omega)
    obtain ⟨b3, p3⟩ := P 3 (by omega)
    obtain ⟨b4, p4⟩ := P 4 (by omega)
    obtain ⟨b5, p5⟩ := P 5 (by omega)
    obtain ⟨b6, p6⟩ := P 6 (by omega)
    obtain ⟨b7, p7⟩ := P 7 (by omega)
    simp only [p0, p1, p2, p3, p4, p5, p6, p7]
    simp

/-- When the bytes of a whole frame are inside the array, the assignments of
setSample meet no subscript outside it. -/
theorem encodeFrame_some (w : WaveFile) (idx : Nat) (s : AudioSample ℚ)
    (hch : w.m_nChannels = 1 ∨ w.m_nChannels = 2)
    (hbd : w.m_bitDepth = 8 ∨ w.m_bitDepth = 16 ∨ w.m_bitDepth = 24 ∨ w.m_bitDepth = 32)
    (h32 : idx + w.m_nChannels * (w.m_bitDepth / 8) ≤ 4294967296)
    (hlen : idx + w.m_nChannels * (w.m_bitDepth / 8) ≤ w.m_data.length) :
    ∃ d, encodeFrame w idx s = some (some d) := by
  rcases hbd with hbd | hbd | hbd | hbd <;> rcases hch with hch | hch <;>
    simp only [hbd, hch, Nat.reduceDiv, Nat.reduceMul] at h32 hlen
  · obtain ⟨d, h, _⟩ := frame8_mono w idx s hbd hch (by omega) (by omega)
    exact ⟨d, h⟩
  · obtain ⟨d, h, _⟩ := frame8_stereo w idx s hbd hch (by omega) (by omega)
    exact ⟨d, h⟩
  · obtain ⟨d, h, _⟩ := frame16_mono w idx s hbd hch (by omega) (by omega)
    exact ⟨d, h⟩
  · obtain ⟨d, h, _⟩ := frame16_stereo w idx s hbd hch (by omega) (by omega)
    exact ⟨d, h⟩
  · obtain ⟨d, h, _⟩ := frame24_mono w idx s hbd hch (by omega) (by omega)
    exact ⟨d, h⟩
  · obtain ⟨d, h, _⟩ := frame24_stereo w idx s hbd hch (by omega) (by omega)
    exact ⟨d, h⟩
  · obtain ⟨d, h, _⟩ := frame32_mono w idx s hbd hch (by omega) (by omega)
    exact ⟨d, h⟩
  · obtain ⟨d, h, _⟩ := frame32_stereo w idx s hbd hch (by omega) (by omega)
    exact ⟨d, h⟩

theorem decodeFrame_first_outside (w : WaveFile) (idx : Nat)
    (hbd : w.m_bitDepth = 8 ∨ w.m_bitDepth = 16 ∨ w.m_bitDepth = 24 ∨ w.m_bitDepth = 32)
    (h : peek w.m_data idx = none) : decodeFrame w idx = some none := by
  rcases hbd with hbd | hbd | hbd | hbd <;> simp only [decodeFrame, hbd, h] <;> simp

theorem encodeFrame_first_outside (w : WaveFile) (idx : Nat) (s : AudioSample ℚ)
    (hbd : w.m_bitDepth = 8 ∨ w.m_bitDepth = 16 ∨ w.m_bitDepth = 24 ∨ w.m_bitDepth = 32)
    (h : ∀ v, poke w.m_data idx v = none) : encodeFrame w idx s = some none := by
  rcases hbd with hbd | hbd | hbd | hbd <;> simp only [encodeFrame, hbd, h] <;> simp

/-- C22: in a container with one or two channels, a bit depth of 8, 16, 24 or
32 and a payload of frameCount * channelCount * (bitDepth / 8) bytes, that
product being below 2^32: at an index below frameCount the whole frame lies
inside the payload, and getSample and setSample meet no subscript outside it;
at the index frameCount the test of the index does not reject the call, the
first offset accessed is the length of the payload, and both calls subscript
outside the array. -/
theorem frame_access_bounds (w : WaveFile)
    (hch : w.m_nChannels = 1 ∨ w.m_nChannels = 2)
    (hbd : w.m_bitDepth = 8 ∨ w.m_bitDepth = 16 ∨ w.m_bitDepth = 24 ∨ w.m_bitDepth = 32)
    (hlen : w.m_data.length = w.m_length * w.m_nChannels * (w.m_bitDepth / 8))
    (h32 : w.m_length * w.m_nChannels * (w.m_bitDepth / 8) < 4294967296) :
    (∀ i, i < w.m_length →
      frameIndex w i + w.m_nChannels * (w.m_bitDepth / 8) ≤ w.m_data.length
      ∧ (∃ a, getSample w i = some a) ∧ ∀ s, ∃ v, setSample w i s = some v)
    ∧ ¬ (w.m_length > w.m_length)
    ∧ frameIndex w w.m_length = w.m_data.length
    ∧ peek w.m_data (frameIndex w w.m_length) = none
    ∧ getSample w w.m_length = none ∧ ∀ s, setSample w w.m_length s = none := by
  refine ⟨?_, lt_irrefl _, ?_⟩
  · intro i hi
    have e1 : i * w.m_nChannels * (w.m_bitDepth / 8)
        + w.m_nChannels * (w.m_bitDepth / 8)
        = (i + 1) * w.m_nChannels * (w.m_bitDepth / 8) := by ring
    have e2 : (i + 1) * w.m_nChannels * (w.m_bitDepth / 8)
        ≤ w.m_length * w.m_nChannels * (w.m_bitDepth / 8) :=
      Nat.mul_le_mul_right _ (Nat.mul_le_mul_right _ hi)
    have hidx : frameIndex w i = i * w.m_nChannels * (w.m_bitDepth / 8) := by
      unfold frameIndex
      exact u32_of_lt (by omega)
    have b1 : frameIndex w i + w.m_nChannels * (w.m_bitDepth / 8) ≤ w.m_data.length := by
      rw [hidx]; omega
    have b2 : frameIndex w i + w.m_nChannels * (w.m_bitDepth / 8) ≤ 4294967296 := by
      rw [hidx]; omega
    refine ⟨b1, ?_, ?_⟩
    · obtain ⟨lr, hd⟩ := decodeFrame_some w _ hch hbd b2 b1
      exact ⟨_, getSample_of_decodeFrame w i lr hi.le hd⟩
    · intro s
      obtain ⟨d, he⟩ := encodeFrame_some w _ s hch hbd b2 b1
      exact ⟨_, setSample_of_encodeFrame w i s d hi.le he⟩
  · have hidx : frameIndex w w.m_length = w.m_data.length := by
      unfold frameIndex
      rw [u32_of_lt h32, hlen]
    have hp : peek w.m_data (frameIndex w w.m_length) = none :=
      peek_none _ _ (by rw [hidx, hlen]; exact h32) (by rw [hidx])
    have hq : ∀ v, poke w.m_data (frameIndex w w.m_length) v = none :=
      fun v => poke_none _ _ v (by rw [hidx, hlen]; exact h32) (by rw [hidx])
    refine ⟨hidx, hp, ?_, ?_⟩
    · unfold getSample
      rw [if_neg (lt_irrefl _), decodeFrame_first_outside w _ hbd hp]
      rfl
    · intro s
      unfold setSample
      rw [if_neg (lt_irrefl _), encodeFrame_first_outside w _ s hbd hq]
      rfl

/-- An instance of the bounds: a fresh container of two frames of two 16-bit channels. -/
theorem frame_access_bounds_witness :
    (∀ i, i < (create 2 44100 2 16).m_length →
      frameIndex (create 2 44100 2 16) i
          + (create 2 44100 2 16).m_nChannels * ((create 2 44100 2 16).m_bitDepth / 8)
        ≤ (create 2 44100 2 16).m_data.length
      ∧ (∃ a, getSample (create 2 44100 2 16) i = some a)
      ∧ ∀ s, ∃ v, setSample (create 2 44100 2 16) i s = some v)
    ∧ ¬ ((create 2 44100 2 16).m_length > (create 2 44100 2 16).m_length)
    ∧ frameIndex (create 2 44100 2 16) (create 2 44100 2 16).m_length
        = (create 2 44100 2 16).m_data.length
    ∧ peek (create 2 44100 2 16).m_data
        (frameIndex (create 2 44100 2 16) (create 2 44100 2 16).m_length) = none
    ∧ getSample (create 2 44100 2 16) (create 2 44100 2 16).m_length = none
    ∧ ∀ s, setSample (create 2 44100 2 16) (create 2 44100 2 16).m_length s = none :=
  frame_access_bounds (create 2 44100 2 16) (Or.inr rfl) (Or.inr (Or.inl rfl)) (by decide)
    (by decide)

end WaveFile

/-! ## WaveFile: bytes inserted before the format block -/

namespace WaveFile

/-- Bytes inserted before an offset do not change what lies from that offset on. -/
theorem drop_insert (pre J T : List Byte) (pos : Nat) (h : pre.length ≤ pos) :
    (pre ++ J ++ T).drop (pos + J.length) = (pre ++ T).drop pos := by
  obtain ⟨q, rfl⟩ : ∃ q, pos = pre.length + q := ⟨pos - pre.length, by omega⟩
  rw [List.append_assoc, Nat.add_assoc, List.drop_append, List.drop_append,
    Nat.add_comm, List.drop_append]

theorem length_insert (pre J T : List Byte) :
    (pre ++ J ++ T).length = (pre ++ T).length + J.length := by
  simp only [List.length_append]
  omega

theorem IfStream_read_insert (pre J T : List Byte) (s : IfStream) (k : Nat)
    (hc : s.content = pre ++ T) (hp : pre.length ≤ s.pos) :
    IfStream.read (IfStream.mk (pre ++ J ++ T) (s.pos + J.length) s.eofbit s.failbit) k
      = (IfStream.mk (pre ++ J ++ T) ((s.read k).1.pos + J.length) (s.read k).1.eofbit
          (s.read k).1.failbit, (s.read k).2)
    ∧ (s.read k).1.content = pre ++ T ∧ pre.length ≤ (s.read k).1.pos := by
  obtain ⟨content, pos, e, f⟩ := s
  simp only at hc hp
  subst hc
  simp only [IfStream.read, IfStream.good, drop_insert pre J T pos hp]
  split_ifs <;> simp <;> omega

theorem IfStream_ignore_insert (pre J T : List Byte) (s : IfStream) (delim : Byte)
    (hc : s.content = pre ++ T) (hp : pre.length ≤ s.pos) :
    IfStream.ignore (IfStream.mk (pre ++ J ++ T) (s.pos + J.length) s.eofbit s.failbit) delim
      = IfStream.mk (pre ++ J ++ T) ((s.ignore delim).pos + J.length) (s.ignore delim).eofbit
          (s.ignore delim).failbit := by
  obtain ⟨content, pos, e, f⟩ := s
  simp only at hc hp
  subst hc
  simp only [IfStream.ignore, IfStream.good, drop_insert pre J T pos hp, length_insert]
  split_ifs
  · cases IfStream.ignoreCount delim (List.drop pos (pre ++ T)) with
    | none => simp; omega
    | some k => simp; omega
  · simp

/-- What the scan relies on after its `ignore`: the stream's content is
unchanged, and unless a flag is set the position has moved on. -/
theorem IfStream_ignore_state (s : IfStream) (delim : Byte) :
    (s.ignore delim).content = s.content
    ∧ (s.eofbit = true → (s.ignore delim).eofbit = true)
    ∧ ((s.ignore delim).eofbit = true ∨ (s.ignore delim).failbit = true
        ∨ s.pos + 1 ≤ (s.ignore delim).pos)
    ∧ s.pos ≤ (s.ignore delim).pos := by
  obtain ⟨content, pos, e, f⟩ := s
  simp only [IfStream.ignore, IfStream.good]
  split_ifs with hg
  · cases hk : IfStream.ignoreCount delim (List.drop pos content) with
    | none => simp
    | some k =>
      have := (ignoreCount_bounds delim _ k hk).1
      simp
      right; right
      omega
  · simp

theorem IfStream_seekBack_insert (pre J T : List Byte) (s : IfStream)
    (hc : s.content = pre ++ T)
    (hp : s.failbit = true ∨ pre.length + 1 ≤ s.pos) (hp0 : pre.length ≤ s.pos) :
    IfStream.seekBack (IfStream.mk (pre ++ J ++ T) (s.pos + J.length) s.eofbit s.failbit)
      = IfStream.mk (pre ++ J ++ T) (s.seekBack.pos + J.length) s.seekBack.eofbit
          s.seekBack.failbit
    ∧ s.seekBack.content = pre ++ T ∧ pre.length ≤ s.seekBack.pos := by
  obtain ⟨content, pos, e, f⟩ := s
  simp only at hc hp hp0
  subst hc
  simp only [IfStream.seekBack]
  rcases hp with hp | hp
  · subst hp
    simp [hp0]
  · cases f with
    | true => simp [hp0]
    | false =>
      have h1 : 1 ≤ pos := by omega
      have h2 : 1 ≤ pos + J.length := by omega
      simp [h1, h2]
      omega

theorem ignoreCount_append (delim : Byte) (J T : List Byte) (hJ : ∀ b ∈ J, b ≠ delim) :
    IfStream.ignoreCount delim (J ++ T)
      = (IfStream.ignoreCount delim T).map (fun k => k + J.length) := by
  induction J with
  | nil => simp
  | cons c cs ih =>
    have hc : c ≠ delim := hJ c (List.mem_cons_self _ _)
    have ih2 := ih (fun b hb => hJ b (List.mem_cons_of_mem _ hb))
    rw [List.cons_append, IfStream.ignoreCount, if_neg hc, ih2]
    cases IfStream.ignoreCount delim T with
    | none => rfl
    | some k =>
      simp only [Option.map_some', List.length_cons, Option.some.injEq]
      omega

/-- The first `ignore` after the RIFF block passes over inserted bytes that do
not contain the delimiter. -/
theorem IfStream_ignore_first (pre J T : List Byte) (delim : Byte)
    (hJ : ∀ b ∈ J, b ≠ delim) :
    IfStream.ignore (IfStream.mk (pre ++ J ++ T) pre.length false false) delim
      = IfStream.mk (pre ++ J ++ T)
          ((IfStream.ignore (IfStream.mk (pre ++ T) pre.length false false) delim).pos
            + J.length)
          (IfStream.ignore (IfStream.mk (pre ++ T) pre.length false false) delim).eofbit
          (IfStream.ignore (IfStream.mk (pre ++ T) pre.length false false) delim).failbit := by
  have e1 : (pre ++ J ++ T).drop pre.length = J ++ T := by
    rw [List.append_assoc, List.drop_left]
  have e2 : (pre ++ T).drop pre.length = T := List.drop_left _ _
  simp only [IfStream.ignore, IfStream.good, e1, e2, ignoreCount_append delim J T hJ,
    length_insert]
  cases IfStream.ignoreCount delim T with
  | none => simp; omega
  | some k => simp; omega

/-- One more iteration allowed does not change a scan that has ended. -/
theorem scan_fuel_succ {H : Type} (delim : Byte) (size : Nat) (store : H → List Byte → H)
    (ident : H → Word) (word : Word) :
    ∀ (fuel : Nat) (s : IfStream) (h : H),
      scan delim size store ident word fuel s h ≠ Scan.fuel →
      scan delim size store ident word (fuel + 1) s h
        = scan delim size store ident word fuel s h := by
  intro fuel
  induction fuel with
  | zero => intro s h hne; exact absurd rfl hne
  | succ n ih =>
    intro s h hne
    rw [scan] at hne
    rw [scan, scan]
    simp only at hne ⊢
    split_ifs at hne ⊢ with h1 h2
    · rfl
    · exact ih _ _ hne
    · rfl

theorem scan_fuel_add {H : Type} (delim : Byte) (size : Nat) (store : H → List Byte → H)
    (ident : H → Word) (word : Word) (fuel : Nat) (s : IfStream) (h : H)
    (hne : scan delim size store ident word fuel s h ≠ Scan.fuel) :
    ∀ n, scan delim size store ident word (fuel + n) s h
        = scan delim size store ident word fuel s h := by
  intro n
  induction n with
  | zero => rfl
  | succ m ih =>
    rw [← Nat.add_assoc, scan_fuel_succ _ _ _ _ _ _ _ _ (by rw [ih]; exact hne), ih]

/-- The scan over a file with bytes inserted behind the stream runs as over
the file without them, every position moved on by their number.  The two
streams are tied by what their first `ignore` gives. -/
theorem scan_insert {H : Type} (delim : Byte) (size : Nat) (store : H → List Byte → H)
    (ident : H → Word) (word : Word) (pre J T : List Byte) :
    ∀ (fuel : Nat) (s t : IfStream) (h : H),
      s.content = pre ++ T → pre.length ≤ s.pos →
      t.ignore delim = IfStream.mk (pre ++ J ++ T) ((s.ignore delim).pos + J.length)
        (s.ignore delim).eofbit (s.ignore delim).failbit →
      (∀ s1 h1, scan delim size store ident word fuel s h = Scan.found s1 h1 →
        s1.content = pre ++ T ∧ pre.length ≤ s1.pos
        ∧ scan delim size store ident word fuel t h
            = Scan.found (IfStream.mk (pre ++ J ++ T) (s1.pos + J.length) s1.eofbit s1.failbit)
                h1)
      ∧ (∀ s1 h1, scan delim size store ident word fuel s h = Scan.eof s1 h1 →
        scan delim size store ident word fuel t h
            = Scan.eof (IfStream.mk (pre ++ J ++ T) (s1.pos + J.length) s1.eofbit s1.failbit)
                h1)
      ∧ (scan delim size store ident word fuel s h = Scan.fuel →
        scan delim size store ident word fuel t h = Scan.fuel) := by
  intro fuel
  induction fuel with
  | zero =>
    intro s t h _ _ _
    exact ⟨fun _ _ hh => Scan.noConfusion hh, fun _ _ hh => Scan.noConfusion hh, fun _ => rfl⟩
  | succ n ih =>
    intro s t h hc hp hig
    obtain ⟨ic, _, ip, ip0⟩ := IfStream_ignore_state s delim
    rw [hc] at ic
    by_cases he : (s.ignore delim).eofbit = true
    · have u : scan delim size store ident word (n + 1) s h = Scan.eof (s.ignore delim) h := by
        rw [scan]
        simp only [IfStream.eof, he, if_true]
      have v : scan delim size store ident word (n + 1) t h
          = Scan.eof (IfStream.mk (pre ++ J ++ T) ((s.ignore delim).pos + J.length)
              (s.ignore delim).eofbit (s.ignore delim).failbit) h := by
        rw [scan]
        simp only [hig, IfStream.eof, he, if_true]
      rw [u, v]
      refine ⟨fun _ _ hh => Scan.noConfusion hh, ?_, fun hh => Scan.noConfusion hh⟩
      intro s1 h1 hh
      simp only [Scan.eof.injEq] at hh
      obtain ⟨hh1, hh2⟩ := hh
      subst hh1 hh2
      rfl
    · have hfp : (s.ignore delim).failbit = true ∨ pre.length + 1 ≤ (s.ignore delim).pos := by
        rcases ip with ip | ip | ip
        · exact absurd ip he
        · exact Or.inl ip
        · exact Or.inr (by omega)
      obtain ⟨sb, sbc, sbp⟩ := IfStream_seekBack_insert pre J T (s.ignore delim) ic hfp
        (by omega)
      obtain ⟨rd, rdc, rdp⟩ := IfStream_read_insert pre J T (s.ignore delim).seekBack size
        sbc sbp
      have hig2 := IfStream_ignore_insert pre J T ((s.ignore delim).seekBack.read size).1 delim
        rdc rdp
      have ih2 := ih ((s.ignore delim).seekBack.read size).1
        (IfStream.mk (pre ++ J ++ T) (((s.ignore delim).seekBack.read size).1.pos + J.length)
          ((s.ignore delim).seekBack.read size).1.eofbit
          ((s.ignore delim).seekBack.read size).1.failbit)
        (store h ((s.ignore delim).seekBack.read size).2) rdc rdp hig2
      have u : scan delim size store ident word (n + 1) s h
          = if !wordCompare (ident (store h ((s.ignore delim).seekBack.read size).2)) word then
              scan delim size store ident word n ((s.ignore delim).seekBack.read size).1
                (store h ((s.ignore delim).seekBack.read size).2)
            else Scan.found ((s.ignore delim).seekBack.read size).1
                (store h ((s.ignore delim).seekBack.read size).2) := by
        rw [scan]
        simp only [IfStream.eof, he, Bool.false_eq_true, if_false]
      have v : scan delim size store ident word (n + 1) t h
          = if !wordCompare (ident (store h ((s.ignore delim).seekBack.read size).2)) word then
              scan delim size store ident word n
                (IfStream.mk (pre ++ J ++ T)
                  (((s.ignore delim).seekBack.read size).1.pos + J.length)
                  ((s.ignore delim).seekBack.read size).1.eofbit
                  ((s.ignore delim).seekBack.read size).1.failbit)
                (store h ((s.ignore delim).seekBack.read size).2)
            else Scan.found
                (IfStream.mk (pre ++ J ++ T)
                  (((s.ignore delim).seekBack.read size).1.pos + J.length)
                  ((s.ignore delim).seekBack.read size).1.eofbit
                  ((s.ignore delim).seekBack.read size).1.failbit)
                (store h ((s.ignore delim).seekBack.read size).2) := by
        rw [scan]
        simp only [hig]
        rw [sb, rd]
        simp only [IfStream.eof, he, Bool.false_eq_true, if_false]
      rw [u, v]
      split_ifs with hw
      · exact ih2
      · refine ⟨?_, fun _ _ hh => hh.elim, fun hh => hh.elim⟩
        intro s1 h1 hh
        simp only [Scan.found.injEq] at hh
        obtain ⟨hh1, hh2⟩ := hh
        subst hh1 hh2
        exact ⟨rdc, rdp, rfl⟩

/-- read does not see bytes without an "f" that are inserted right after the
12-byte RIFF block: the result is the same in every respect. -/
theorem read_insert_eq (w0 : WaveFile) (R J T : List Byte) (hR : R.length = 12)
    (hJ : ∀ b ∈ J, b ≠ 102) : read w0 (R ++ J ++ T) = read w0 (R ++ T) := by
  have hlen := length_insert R J T
  have l1 : 0 + 12 ≤ (R ++ J ++ T).length := by
    simp only [List.length_append]; omega
  have l2 : 0 + 12 ≤ (R ++ T).length := by
    simp only [List.length_append]; omega
  have t1 : List.take 12 (R ++ J ++ T) = R := by
    rw [List.append_assoc, ← hR, List.take_left]
  have t2 : List.take 12 (R ++ T) = R := by
    rw [← hR, List.take_left]
  have r1 := IfStream_read_full (R ++ J ++ T) 0 12 l1
  have r2 := IfStream_read_full (R ++ T) 0 12 l2
  simp only [Nat.zero_add, List.drop_zero, t1] at r1
  simp only [Nat.zero_add, List.drop_zero, t2] at r2
  -- the format scan
  have hig := IfStream_ignore_first R J T 102 hJ
  rw [hR] at hig
  have term1 := scan_terminates 102 24 WaveFormatHeader.store WaveFormatHeader.subChunk1ID FMT
    (by decide) ((R ++ T).length + 2) (IfStream.mk (R ++ T) 12 false false) w0.m_formatHeader
    (by simp) (by simp [IfStream.good])
  have mono1 := scan_fuel_add 102 24 WaveFormatHeader.store WaveFormatHeader.subChunk1ID FMT
    ((R ++ T).length + 2) (IfStream.mk (R ++ T) 12 false false) w0.m_formatHeader term1.1
    J.length
  have e1 : (R ++ T).length + 2 + J.length = (R ++ J ++ T).length + 2 := by omega
  rw [e1] at mono1
  have ins1 := scan_insert 102 24 WaveFormatHeader.store WaveFormatHeader.subChunk1ID FMT
    R J T ((R ++ J ++ T).length + 2) (IfStream.mk (R ++ T) 12 false false)
    (IfStream.mk (R ++ J ++ T) 12 false false) w0.m_formatHeader rfl (by simp [hR]) hig
  rw [mono1] at ins1
  unfold read
  simp only [IfStream.ofFile, sizeofRiffHeader, sizeofWaveFormatHeader, sizeofWaveDataHeader,
    r1, r2]
  cases hw : wordCompare (w0.m_riffHeader.store R).chunkID RIFF with
  | false => simp only [Bool.not_false, if_true]
  | true =>
    simp only [Bool.not_true, Bool.false_eq_true, if_false]
    cases hres : scan 102 24 WaveFormatHeader.store WaveFormatHeader.subChunk1ID FMT
        ((R ++ T).length + 2) (IfStream.mk (R ++ T) 12 false false) w0.m_formatHeader with
    | fuel => exact absurd hres term1.1
    | eof s1 h1 =>
      rw [ins1.2.1 s1 h1 hres]
    | found s1 h1 =>
      obtain ⟨c1, p1, f1⟩ := ins1.1 s1 h1 hres
      rw [f1]
      simp only
      have inv1 := (term1.2 s1 h1 hres).2
      have term2 := scan_terminates 100 8 WaveDataHeader.store WaveDataHeader.subChunk2ID DATA
        (by decide) ((R ++ T).length + 2) s1 w0.m_dataHeader inv1
        (scan_measure_le s1 (R ++ T) c1)
      have mono2 := scan_fuel_add 100 8 WaveDataHeader.store WaveDataHeader.subChunk2ID DATA
        ((R ++ T).length + 2) s1 w0.m_dataHeader term2.1 J.length
      rw [e1] at mono2
      have ins2 := scan_insert 100 8 WaveDataHeader.store WaveDataHeader.subChunk2ID DATA
        R J T ((R ++ J ++ T).length + 2) s1
        (IfStream.mk (R ++ J ++ T) (s1.pos + J.length) s1.eofbit s1.failbit) w0.m_dataHeader
        c1 (by omega) (IfStream_ignore_insert R J T s1 100 c1 (by omega))
      rw [mono2] at ins2
      by_cases hpcm : h1.audioFormat = 1
      swap
      · simp only [ne_eq, hpcm, not_false_eq_true, if_true]
      · simp only [ne_eq, hpcm, not_true_eq_false, if_false]
        cases hres2 : scan 100 8 WaveDataHeader.store WaveDataHeader.subChunk2ID DATA
            ((R ++ T).length + 2) s1 w0.m_dataHeader with
          | fuel => exact absurd hres2 term2.1
          | eof s2 h2 =>
            rw [ins2.2.1 s2 h2 hres2]
          | found s2 h2 =>
            obtain ⟨c2, p2, f2⟩ := ins2.1 s2 h2 hres2
            rw [f2]
            simp only
            obtain ⟨rd, _, _⟩ := IfStream_read_insert R J T s2 h2.subChunk2Size c2 (by omega)
            rw [rd]
            rfl

/-- C21: when read succeeds on a buffer R ++ T, R being its first 12 bytes,
and J is any byte string without a byte "f", read on R ++ J ++ T, called on an
object in the same state, succeeds as well and gives the same frameCount,
sampleRate, channelCount, bitDepth and payload. -/
theorem read_skips_inserted_bytes (w0 w : WaveFile) (R J T : List Byte) (hR : R.length = 12)
    (hJ : ∀ b ∈ J, b ≠ 102) (hok : read w0 (R ++ T) = ReadResult.ok w) :
    ∃ v, read w0 (R ++ J ++ T) = ReadResult.ok v
      ∧ v.m_length = w.m_length ∧ v.m_sampleRate = w.m_sampleRate
      ∧ v.m_nChannels = w.m_nChannels ∧ v.m_bitDepth = w.m_bitDepth
      ∧ v.m_data = w.m_data :=
  ⟨w, by rw [read_insert_eq w0 R J T hR hJ, hok], rfl, rfl, rfl, rfl, rfl⟩

/-- An instance of the skipping: a 12-byte "LIST" chunk inserted between the
RIFF block and the format block of a 46-byte mono 8-bit file. -/
theorem read_skips_inserted_bytes_witness :
    ∃ w, read init ([82, 73, 70, 70, 38, 0, 0, 0, 87, 65, 86, 69]
        ++ [102, 109, 116, 32, 16, 0, 0, 0, 1, 0, 1, 0, 68, 172, 0, 0, 68, 172, 0, 0, 1, 0, 8, 0,
            100, 97, 116, 97, 2, 0, 0, 0, 1, 2]) = ReadResult.ok w
      ∧ ∃ v, read init ([82, 73, 70, 70, 38, 0, 0, 0, 87, 65, 86, 69]
        ++ [76, 73, 83, 84, 4, 0, 0, 0, 100, 97, 116, 97]
        ++ [102, 109, 116, 32, 16, 0, 0, 0, 1, 0, 1, 0, 68, 172, 0, 0, 68, 172, 0, 0, 1, 0, 8, 0,
            100, 97, 116, 97, 2, 0, 0, 0, 1, 2]) = ReadResult.ok v
      ∧ v.m_length = w.m_length ∧ v.m_sampleRate = w.m_sampleRate
      ∧ v.m_nChannels = w.m_nChannels ∧ v.m_bitDepth = w.m_bitDepth
      ∧ v.m_data = w.m_data :=
  ⟨_, rfl, read_skips_inserted_bytes init _ [82, 73, 70, 70, 38, 0, 0, 0, 87, 65, 86, 69]
    [76, 73, 83, 84, 4, 0, 0, 0, 100, 97, 116, 97] _ rfl (by simp) rfl⟩

end WaveFile

end SimpleWave
